import Mathlib

/-!
# Open-addressing hash table (`hashtable.c`) and queues (`queue.c`, `multilevel_queue.c`)

A shallow embedding of `src/hashtable.c`, `src/queue.c` and
`src/multilevel_queue.c`, and the properties their specification states about
them.  The hash table comes first; the memory model of the queues is given
where their definitions start.

## Memory model of the hash table

* A `void*` is a natural number, `0` being `NULL`.
* `enum bucket_status` is an `int`; its three enumerators are `VACANT = 2`,
  `OCCUPIED = 3`, `DELETED = 4`.  The field is kept an `Int` because
  `hashtable_update` leaves it uninitialised.
* `buckets` is an array of pointers, each to a `struct tuple` of its own
  (`new_hashtable` allocates one per bucket, `hashtable_update` swaps in a
  fresh one).  A bucket is therefore modelled by the tuple it points to:
  `some t` when the pointer is valid, `none` when it dangles (the tuple was
  released by `free`).  The only sharing the code creates is in
  `hashtable_resize`, between the old array and the new one, and there the
  old tuples are freed at once.
* Every function but `new_hashtable` returns an `Option` whose `none` is
  undefined behaviour of the C program (division by zero, an access outside
  the array, the use of freed storage, a call through a null function
  pointer, signed overflow).  For `new_hashtable`, `none` is the `NULL` result.
* The loops are recursive on a bound `fuel`, started at `size + 1`; the C
  counter `num_iter` is carried along and is what ends them (theorems
  `get_probe_ends`, `remove_probe_ends`).
* What `malloc` does is a parameter, `allocator`: whether it succeeds and
  what the uninitialised storage holds.
-/

namespace OSDataStructures

/-- First enumerator of `enum bucket_status { VACANT = 2, OCCUPIED, DELETED }`. -/
def VACANT : Int := 2

/-- Second enumerator of `enum bucket_status`. -/
def OCCUPIED : Int := 3

/-- Third enumerator of `enum bucket_status`. -/
def DELETED : Int := 4

/-- The C `struct tuple`: status, key pointer and value pointer (`0` is `NULL`). -/
structure tuple where
  status : Int
  key : Nat
  value : Nat
deriving DecidableEq

/-- The C `struct hashtable`.  `total_items` is a `double` that only ever holds
an integer; `hash_function` is `none` for a null function pointer, and its
result is reduced to an `unsigned int` where it is called. -/
structure hashtable where
  buckets : List (Option tuple)
  num_buckets : Nat
  total_items : Int
  multiplier : Int
  hash_function : Option (Nat → Nat)

/-- Outcome of the C allocator: whether `calloc`/`malloc` return storage, and
the indeterminate contents of a freshly allocated `struct tuple`.  The outcome
is one for all the calls of a function: either every call returns storage, or
a call whose result the code tests returns `NULL`. -/
structure allocator where
  succeeds : Bool
  garbage : tuple

/-- Conversion to `unsigned short` (16 bits). -/
def u16 (n : Nat) : Nat := n % 65536

/-- Conversion to `unsigned int` (32 bits). -/
def u32 (n : Nat) : Nat := n % 4294967296

/-- Conversion of an `int` to `unsigned int`. -/
def int_to_unsigned (i : Int) : Nat := (i % 4294967296).toNat

/-- Conversion of an `unsigned int` to `int` (two's complement). -/
def unsigned_to_int (n : Nat) : Int :=
  if u32 n < 2147483648 then (u32 n : Int) else (u32 n : Int) - 4294967296

/-- The product `hashtable->hash_function(key) * multiplier`, computed in
`unsigned int`. -/
def scaled_hash (hash : Nat → Nat) (multiplier : Int) (key : Nat) : Nat :=
  u32 (u32 (hash key) * int_to_unsigned multiplier)

/-- Read of `hashtable->buckets[index]` followed by a dereference: `none` when
the index is outside the array or the pointer dangles. -/
def bucket_at (buckets : List (Option tuple)) (index : Nat) : Option tuple :=
  match buckets[index]? with
  | some (some fetched) => some fetched
  | _ => none

/-- The step `index = (++index == size) ? 0 : index`. -/
def next_index (index size : Nat) : Nat :=
  if index + 1 = size then 0 else index + 1

/-- The function `new_hashtable`, lines 42-78.  `none` is the `NULL` result.
The tuples are allocated by `malloc`, only their `status` is written.  A
failing allocation is one whose result the code tests, the `calloc` of line 52
or the `malloc` of line 63, after which the function returns `NULL`.  The
`malloc` of one tuple at line 59 is not tested by the code, which writes
through its result at line 60; that this call returns `NULL` after `calloc`
has succeeded is not covered here. -/
def new_hashtable (mem : allocator) (size : Int) (hash_fnc : Option (Nat → Nat)) :
    Option hashtable :=
  if size ≤ 0 then none
  else if mem.succeeds = false then none
  else some
    { buckets := List.replicate size.toNat (some { mem.garbage with status := VACANT })
      num_buckets := size.toNat
      total_items := 0
      multiplier := 1
      hash_function := hash_fnc }

/-- The copy loop of `hashtable_resize`, lines 346-352, from iteration `i` on:
`hashtable_resized->buckets[i/multiplier] = hashtable->buckets[i]`.  The
test `hashtable->buckets[i] != NULL` holds for every bucket, a dangling
pointer included. -/
def resize_copy (src : List (Option tuple)) (multiplier : Int) (size : Nat) :
    Nat → Nat → List (Option tuple) → Option (List (Option tuple))
  | 0, _, dst => some dst
  | fuel + 1, i, dst =>
    if i < size then
      match src[i]? with
      | none => none
      | some cell =>
        if multiplier = 0 then none
        else
          let j := Int.tdiv (i : Int) multiplier
          if 0 ≤ j ∧ j.toNat < dst.length then
            resize_copy src multiplier size fuel (i + 1) (dst.set j.toNat cell)
          else none
    else some dst

/-- Effect of `hashtable_free(hashtable)`, line 356, on the new array: every
tuple of the old array is released, so each bucket of the new array that was
pointed at one of them (`i/multiplier` for `i < size`) dangles. -/
def release_shared (multiplier : Int) (size : Nat) (dst : List (Option tuple)) :
    List (Option tuple) :=
  (List.range size).foldl (fun d i => d.set (Int.tdiv (i : Int) multiplier).toNat none) dst

/-- The function `hashtable_resize`, lines 322-360, applied to `*table`.  The
result is the return code and the table `*table` designates afterwards; on
success the old table has been freed. -/
def hashtable_resize (mem : allocator) (table : hashtable) : Option (Int × hashtable) :=
  let multiplier := table.multiplier * 2
  let size := table.num_buckets
  if 2147483648 ≤ multiplier ∨ multiplier < -2147483648 ∨ 2147483648 ≤ size * 2 then none
  else
    match new_hashtable mem ((size : Int) * 2) table.hash_function with
    | none => some (-1, table)
    | some hashtable_resized =>
      if table.buckets.all Option.isSome = false then none
      else
        match resize_copy table.buckets multiplier size size 0 hashtable_resized.buckets with
        | none => none
        | some copied =>
          some (0, { hashtable_resized with
                      buckets := release_shared multiplier size copied
                      total_items := table.total_items
                      multiplier := multiplier })

/-- The loop of `hashtable_insert`, lines 106-111:
`while (fetched->status == OCCUPIED && num_iter++ < size)`.  The result is
`index` and `num_iter` when the loop is left.  `fuel` bounds the recursion;
the counter `num_iter` leaves the loop after at most `size + 1` tests. -/
def insert_probe (buckets : List (Option tuple)) (size : Nat) :
    Nat → Nat → Nat → Option (Nat × Nat)
  | 0, _, _ => none
  | fuel + 1, index, num_iter =>
    match bucket_at buckets index with
    | none => none
    | some fetched =>
      if fetched.status = OCCUPIED then
        if num_iter < size then
          insert_probe buckets size fuel (next_index index size) (u16 (num_iter + 1))
        else some (index, u16 (num_iter + 1))
      else some (index, num_iter)

/-- The function `hashtable_insert`, lines 84-129, on a non-null table.  The
result is the return code and the table behind the caller's handle: `none`
when that table has been freed, which is what a successful
`hashtable_resize(&hashtable)` does, since it replaces only the local copy of
the handle.  The test `++total_items/num_buckets > .7` divides two doubles
that hold integers, the divisor below `2^32`; a quotient above `7/10` exceeds
it by at least `1/(10 * num_buckets)`, far more than the rounding of the
division and of the constant, so the test holds exactly when
`7 * num_buckets < 10 * total_items`. -/
def hashtable_insert (mem : allocator) (table : hashtable) (key value : Nat) :
    Option (Int × Option hashtable) :=
  if key = 0 ∨ value = 0 then some (-1, some table)
  else
    match table.hash_function with
    | none => none
    | some hash =>
      let size := u16 table.num_buckets
      let index := scaled_hash hash table.multiplier key
      if size = 0 then none
      else
        match insert_probe table.buckets size (size + 1) (index % size) 0 with
        | none => none
        | some (index, num_iter) =>
          if num_iter = size then some (-1, some table)
          else
            match bucket_at table.buckets index with
            | none => none
            | some fetched =>
              let placed : hashtable :=
                { table with
                    buckets := table.buckets.set index
                      (some { fetched with key := key, value := value, status := OCCUPIED })
                    total_items := table.total_items + 1 }
              if 7 * (placed.num_buckets : Int) < 10 * placed.total_items then
                match hashtable_resize mem placed with
                | none => none
                | some (ret, _) =>
                  if ret = 0 then some (0, none) else some (0, some placed)
              else some (0, some placed)

/-- The loop of `hashtable_get`, lines 267-278:
`while (fetched->status != VACANT && num_iter++ < size)`.  The result is the
return code and what was written to `*value`, if anything. -/
def get_probe (buckets : List (Option tuple)) (size key : Nat) :
    Nat → Nat → Nat → Option (Int × Option Nat)
  | 0, _, _ => none
  | fuel + 1, index, num_iter =>
    match bucket_at buckets index with
    | none => none
    | some fetched =>
      if fetched.status ≠ VACANT then
        if num_iter < size then
          if fetched.key = key then some (0, some fetched.value)
          else get_probe buckets size key fuel (next_index index size) (u16 (num_iter + 1))
        else some (-1, none)
      else some (-1, none)

/-- The function `hashtable_get`, lines 248-280, on a non-null table and a
non-null `value` pointer. -/
def hashtable_get (table : hashtable) (key : Nat) : Option (Int × Option Nat) :=
  if key = 0 then some (-1, none)
  else
    match table.hash_function with
    | none => none
    | some hash =>
      let size := u16 table.num_buckets
      let index := scaled_hash hash table.multiplier key
      if size = 0 then none
      else get_probe table.buckets size key (size + 1) (index % size) 0

/-- The loop of `hashtable_update`, lines 160-172, up to the matching bucket:
the result is `some index` for the bucket whose key is `key`, `none` when the
loop is left without a match. -/
def update_probe (buckets : List (Option tuple)) (size key : Nat) :
    Nat → Nat → Nat → Option (Option Nat)
  | 0, _, _ => none
  | fuel + 1, index, num_iter =>
    match bucket_at buckets index with
    | none => none
    | some fetched =>
      if fetched.status ≠ VACANT then
        if num_iter < size then
          if key = fetched.key then some (some index)
          else update_probe buckets size key fuel (next_index index size) (u16 (num_iter + 1))
        else some none
      else some none

/-- The function `hashtable_update`, lines 134-175, on a non-null table and a
non-null `old_value` pointer.  The result is the return code, what was written
to `*old_value`, and the table.  On a match the bucket is replaced by
`kv_pair`, a fresh tuple of which only `value` and `key` are written: its
`status` is whatever `malloc` returned. -/
def hashtable_update (mem : allocator) (table : hashtable) (key value : Nat) :
    Option (Int × Option Nat × hashtable) :=
  if key = 0 ∨ value = 0 then some (-1, none, table)
  else if mem.succeeds = false then some (-1, none, table)
  else
    match table.hash_function with
    | none => none
    | some hash =>
      let size := u16 table.num_buckets
      let index := scaled_hash hash table.multiplier key
      if size = 0 then none
      else
        match update_probe table.buckets size key (size + 1) (index % size) 0 with
        | none => none
        | some none => some (-1, none, table)
        | some (some index) =>
          match bucket_at table.buckets index with
          | none => none
          | some fetched =>
            let kv_pair : tuple := { mem.garbage with value := value, key := key }
            some (0, some fetched.value,
              { table with buckets := table.buckets.set index (some kv_pair) })

/-- The loop of `hashtable_remove`, lines 203-241, up to the matching bucket:
the result is `some index` for the first `OCCUPIED` bucket whose key is `key`,
`none` when the loop is left without a match. -/
def remove_probe (buckets : List (Option tuple)) (size key : Nat) :
    Nat → Nat → Nat → Option (Option Nat)
  | 0, _, _ => none
  | fuel + 1, index, num_iter =>
    match bucket_at buckets index with
    | none => none
    | some fetched =>
      if fetched.status ≠ VACANT then
        if num_iter < size then
          if fetched.status = OCCUPIED ∧ fetched.key = key then some (some index)
          else remove_probe buckets size key fuel (next_index index size) (u16 (num_iter + 1))
        else some none
      else some none

/-- Lines 222-226 of `hashtable_remove`: `index = index - 2`, then
`index = size - 1` if that is negative.  Here `index` is an `int` and `index1`
is its value after the step forward. -/
def step_back (index1 size : Nat) : Int :=
  let index : Int := (index1 : Int) - 2
  if index < 0 then (size : Int) - 1 else index

/-- Lines 210-233 of `hashtable_remove`, the removal at the matching bucket
`index`: the bucket is cleared and marked `DELETED`; if the next bucket is
`VACANT` it is marked `VACANT`, `index` is moved back by two (to `size - 1`
when that is negative), and a `DELETED` bucket found there is marked `VACANT`.
Every read goes through the array as it is at that moment, since `fetched`
and `buckets[index]` may be the same tuple. -/
def remove_at (table : hashtable) (size index : Nat) :
    Option (Int × Option Nat × hashtable) :=
  match bucket_at table.buckets index with
  | none => none
  | some fetched =>
    let marked := table.buckets.set index
      (some { fetched with key := 0, value := 0, status := DELETED })
    let index1 := next_index index size
    match bucket_at marked index1 with
    | none => none
    | some following =>
      if following.status = VACANT then
        let vacated := marked.set index
          (some { fetched with key := 0, value := 0, status := VACANT })
        let index2 : Int := step_back index1 size
        if index2 < 0 then none
        else
          match bucket_at vacated index2.toNat with
          | none => none
          | some previous =>
            let collapsed :=
              if previous.status = DELETED then
                vacated.set index2.toNat (some { previous with status := VACANT })
              else vacated
            some (0, some fetched.value,
              { table with buckets := collapsed, total_items := table.total_items - 1 })
      else
        some (0, some fetched.value,
          { table with buckets := marked, total_items := table.total_items - 1 })

/-- The function `hashtable_remove`, lines 181-245, on a non-null table and a
non-null `old_value` pointer.  Here `index` is an `int`: the unsigned product
is converted to `int` and reduced with the truncating `%`, so it is negative
when the product is `2^31` or more and not a multiple of `size`; the first
read `buckets[index]` is then outside the array. -/
def hashtable_remove (table : hashtable) (key : Nat) :
    Option (Int × Option Nat × hashtable) :=
  if key = 0 then some (-1, none, table)
  else
    match table.hash_function with
    | none => none
    | some hash =>
      let size := u16 table.num_buckets
      let index : Int := unsigned_to_int (scaled_hash hash table.multiplier key)
      if size = 0 then none
      else
        let index : Int := Int.tmod index (size : Int)
        if index < 0 then none
        else
          match remove_probe table.buckets size key (size + 1) index.toNat 0 with
          | none => none
          | some none => some (-1, none, table)
          | some (some found) => remove_at table size found

/-- The loop of `hashtable_contains_key`, lines 304-313.  `fetched` is the
pointer and the tuple it points to; `address i` is the pointer stored in
`buckets[i]`.  The comparison is `fetched == key`, pointer against pointer. -/
def contains_probe (buckets : List (Option tuple)) (address : Nat → Nat) (size key : Nat) :
    Nat → Nat × tuple → Nat → Nat → Option Int
  | 0, _, _, _ => none
  | fuel + 1, fetched, index, num_iter =>
    if fetched.2.status ≠ VACANT then
      if num_iter < size then
        if fetched.1 = key then some 0
        else
          match bucket_at buckets (next_index index size) with
          | none => none
          | some following =>
            contains_probe buckets address size key fuel
              (address (next_index index size), following)
              (next_index index size) (u16 (num_iter + 1))
      else some (-1)
    else some (-1)

/-- The function `hashtable_contains_key`, lines 286-316, on a non-null table.
The local `fetched` is dereferenced before it is ever assigned: `stale` is
that indeterminate pointer, `none` when it cannot be dereferenced, otherwise
the pointer and what it points to.  `index` is an `unsigned short` and the
hash is not scaled by `multiplier`. -/
def hashtable_contains_key (stale : Option (Nat × tuple)) (address : Nat → Nat)
    (table : hashtable) (key : Nat) : Option Int :=
  if key = 0 then some (-1)
  else
    match table.hash_function with
    | none => none
    | some hash =>
      let size := u16 table.num_buckets
      let index := u16 (u32 (hash key))
      if size = 0 then none
      else
        match stale with
        | none => none
        | some fetched =>
          contains_probe table.buckets address size key (size + 1) fetched (index % size) 0

/-- A bucket that is not `VACANT` and carries `key`. -/
def holds (key : Nat) : Option tuple → Bool
  | some fetched => decide (fetched.status ≠ VACANT) && decide (fetched.key = key)
  | none => false

/-- An `OCCUPIED` bucket that carries `key`. -/
def stores (key : Nat) : Option tuple → Bool
  | some fetched => decide (fetched.status = OCCUPIED) && decide (fetched.key = key)
  | none => false

/-- Two buckets, neither `VACANT`, that carry the same non-null key. -/
def share_key : Option tuple → Option tuple → Bool
  | some a, some b =>
    decide (a.status ≠ VACANT) && decide (b.status ≠ VACANT) && decide (a.key ≠ 0)
      && decide (a.key = b.key)
  | _, _ => false

/-- The key is stored in the table: some `OCCUPIED` bucket carries it. -/
def stored (table : hashtable) (key : Nat) : Prop :=
  ∃ cell ∈ table.buckets, stores key cell = true

/-- The key is not in the table: no bucket other than a `VACANT` one carries it. -/
def absent (table : hashtable) (key : Nat) : Prop :=
  ∀ cell ∈ table.buckets, holds key cell = false

/-- The keys of the table are pairwise distinct: no two buckets share a key. -/
def distinct_keys (table : hashtable) : Prop :=
  table.buckets.Pairwise (fun a b => share_key a b = false)

/-- Inserts the pairs one after the other; `none` as soon as an insert does
not return `0` or leaves the caller without a table. -/
def insert_all (mem : allocator) : hashtable → List (Nat × Nat) → Option hashtable
  | table, [] => some table
  | table, (key, value) :: rest =>
    match hashtable_insert mem table key value with
    | some (ret, some table1) => if ret = 0 then insert_all mem table1 rest else none
    | _ => none

/-- The data fields of a `struct hashtable`, all but the hash function. -/
structure view where
  buckets : List (Option tuple)
  num_buckets : Nat
  total_items : Int
  multiplier : Int
deriving DecidableEq

/-- What a test can observe of a table: the buckets, `num_buckets`,
`total_items` and `multiplier`. -/
def contents (table : hashtable) : view :=
  ⟨table.buckets, table.num_buckets, table.total_items, table.multiplier⟩

/-- What a test can observe of an insert: the return code and the contents of
the table behind the caller's handle, `none` once that table is freed. -/
def insert_outcome (r : Option (Int × Option hashtable)) :
    Option (Int × Option view) :=
  r.map (fun p => (p.1, p.2.map contents))

/-- An allocator that succeeds and hands out zeroed storage. -/
def zeroed : allocator := ⟨true, ⟨0, 0, 0⟩⟩

/-- An allocator that succeeds and hands out storage whose `status` field
happens to hold `2`. -/
def stale_vacant : allocator := ⟨true, ⟨2, 0, 0⟩⟩

/-- An allocator that returns `NULL`. -/
def exhausted : allocator := ⟨false, ⟨0, 0, 0⟩⟩

/-- The identity on pointers, as a hash function. -/
def hash_id : Nat → Nat := fun key => key

/-- Capacity 4, hash `hash_id`, after `insert(1, 10)` and `insert(2, 20)`. -/
def two_of_four : Option hashtable :=
  (new_hashtable zeroed 4 (some hash_id)).bind
    (fun table => insert_all zeroed table [(1, 10), (2, 20)])

/-- Capacity 4, hash `hash_id`, key 1 stored in its home slot 1. -/
def one_stored : hashtable :=
  { buckets := [some ⟨2, 0, 0⟩, some ⟨3, 1, 10⟩, some ⟨2, 0, 0⟩, some ⟨2, 0, 0⟩]
    num_buckets := 4
    total_items := 1
    multiplier := 1
    hash_function := some hash_id }

/-- The table `one_stored` after `insert(5, 50)`: key 5 has home slot 1 too and
is placed in slot 2. -/
def two_stored : hashtable :=
  { buckets := [some ⟨2, 0, 0⟩, some ⟨3, 1, 10⟩, some ⟨3, 5, 50⟩, some ⟨2, 0, 0⟩]
    num_buckets := 4
    total_items := 2
    multiplier := 1
    hash_function := some hash_id }

/-- The example of the specification: capacity 4, every key hashed to 1, keys
11, 12, 13 stored in slots 1, 2, 3. -/
def chain_of_three : hashtable :=
  { buckets := [some ⟨2, 0, 0⟩, some ⟨3, 11, 110⟩, some ⟨3, 12, 120⟩, some ⟨3, 13, 130⟩]
    num_buckets := 4
    total_items := 3
    multiplier := 1
    hash_function := some (fun _ => 1) }

/-- The table `chain_of_three` after `remove(12)`: slot 2 is a tombstone. -/
def chain_with_tombstone : hashtable :=
  { buckets := [some ⟨2, 0, 0⟩, some ⟨3, 11, 110⟩, some ⟨4, 0, 0⟩, some ⟨3, 13, 130⟩]
    num_buckets := 4
    total_items := 2
    multiplier := 1
    hash_function := some (fun _ => 1) }

/-- What a test can observe of an update or a remove: the return code, what
was written to `*old_value`, and the contents of the table. -/
def change_outcome (r : Option (Int × Option Nat × hashtable)) :
    Option (Int × Option Nat × view) :=
  r.map (fun p => (p.1, p.2.1, contents p.2.2))

/-- A hash function that sends every key to `2^31 + 1`. -/
def hash_high : Nat → Nat := fun _ => 2147483649

/-- Capacity 4, hash `hash_id`, after `insert(1, 10)`. -/
def one_of_four : Option hashtable :=
  (new_hashtable zeroed 4 (some hash_id)).bind
    (fun table => insert_all zeroed table [(1, 10)])

/-- The table `two_of_four` as a third insert, of `(3, 30)`, leaves it at the
moment it calls `hashtable_resize`. -/
def three_of_four : Option hashtable :=
  two_of_four.bind (fun table => insert_all exhausted table [(3, 30)])

/-- Capacity 2, hash `hash_id`, after `insert(1, 10)` and `insert(2, 20)` with
an allocator that cannot serve the resize: both slots are `OCCUPIED`. -/
def full_of_two : Option hashtable :=
  (new_hashtable zeroed 2 (some hash_id)).bind
    (fun table => insert_all exhausted table [(1, 10), (2, 20)])

/-- Capacity 1, hash `hash_id`, as a first insert, of `(1, 10)`, leaves it at
the moment it calls `hashtable_resize`. -/
def one_of_one : Option hashtable :=
  (new_hashtable zeroed 1 (some hash_id)).bind
    (fun table => insert_all exhausted table [(1, 10)])

/-- Capacity 4, hash `hash_high`, after `insert(1, 10)`. -/
def high_of_four : Option hashtable :=
  (new_hashtable zeroed 4 (some hash_high)).bind
    (fun table => insert_all zeroed table [(1, 10)])

/-- Capacity 4, hash `hash_high`, no key stored. -/
def empty_high : Option hashtable :=
  new_hashtable zeroed 4 (some hash_high)

/-- The table `two_stored` after `insert(3, 30)` with an allocator that cannot
serve the resize: key 3 sits in its home slot 3 and the capacity is still 4. -/
def three_stored : hashtable :=
  { buckets := [some ⟨2, 0, 0⟩, some ⟨3, 1, 10⟩, some ⟨3, 5, 50⟩, some ⟨3, 3, 30⟩]
    num_buckets := 4
    total_items := 3
    multiplier := 1
    hash_function := some hash_id }

/-- Lines 100-102 of `hashtable_insert`: `size = num_buckets`, `index =
hash_function(key) * multiplier`, `index = index % size`, with `index` an
`unsigned int` and `size` an `unsigned short`.  This is the bucket the loop
reads first. -/
def insert_home (table : hashtable) (key : Nat) : Option Nat :=
  match table.hash_function with
  | none => none
  | some hash =>
    let size := u16 table.num_buckets
    let index := scaled_hash hash table.multiplier key
    if size = 0 then none else some (index % size)

/-- Lines 155-157 of `hashtable_update`, the same three statements. -/
def update_home (table : hashtable) (key : Nat) : Option Nat :=
  match table.hash_function with
  | none => none
  | some hash =>
    let size := u16 table.num_buckets
    let index := scaled_hash hash table.multiplier key
    if size = 0 then none else some (index % size)

/-- Lines 260-263 of `hashtable_get`, the same three statements. -/
def get_home (table : hashtable) (key : Nat) : Option Nat :=
  match table.hash_function with
  | none => none
  | some hash =>
    let size := u16 table.num_buckets
    let index := scaled_hash hash table.multiplier key
    if size = 0 then none else some (index % size)

/-- Lines 196-199 of `hashtable_remove`, the same three statements with `index`
an `int`: the product is converted to `int` and `%` truncates toward zero. -/
def remove_home (table : hashtable) (key : Nat) : Option Int :=
  match table.hash_function with
  | none => none
  | some hash =>
    let size := u16 table.num_buckets
    let index : Int := unsigned_to_int (scaled_hash hash table.multiplier key)
    if size = 0 then none else some (Int.tmod index (size : Int))

/-- Lines 114-128 of `hashtable_insert`, what follows the loop. -/
def insert_place (mem : allocator) (table : hashtable) (key value : Nat) :
    Option (Nat × Nat) → Option (Int × Option hashtable)
  | none => none
  | some (index, num_iter) =>
    if num_iter = u16 table.num_buckets then some (-1, some table)
    else
      match bucket_at table.buckets index with
      | none => none
      | some fetched =>
        let placed : hashtable :=
          { table with
              buckets := table.buckets.set index
                (some { fetched with key := key, value := value, status := OCCUPIED })
              total_items := table.total_items + 1 }
        if 7 * (placed.num_buckets : Int) < 10 * placed.total_items then
          match hashtable_resize mem placed with
          | none => none
          | some (ret, _) =>
            if ret = 0 then some (0, none) else some (0, some placed)
        else some (0, some placed)

/-- Lines 162-174 of `hashtable_update`, what follows the search. -/
def update_place (mem : allocator) (table : hashtable) (key value : Nat) :
    Option (Option Nat) → Option (Int × Option Nat × hashtable)
  | none => none
  | some none => some (-1, none, table)
  | some (some index) =>
    match bucket_at table.buckets index with
    | none => none
    | some fetched =>
      let kv_pair : tuple := { mem.garbage with value := value, key := key }
      some (0, some fetched.value,
        { table with buckets := table.buckets.set index (some kv_pair) })

/-- Capacity 4, hash `hash_id`, no key stored, after a call of
`hashtable_resize`: capacity 8 and multiplier 2. -/
def resized_of_four : Option hashtable :=
  (new_hashtable zeroed 4 (some hash_id)).bind
    (fun table => (hashtable_resize zeroed table).map Prod.snd)

/-- A hash function that sends every key to 2. -/
def hash_two : Nat → Nat := fun _ => 2

/-- Capacity 4, hash `hash_two`, after `insert(11, 110)` and `insert(12, 120)`:
the keys sit in slots 2 and 3. -/
def tail_pair : Option hashtable :=
  (new_hashtable zeroed 4 (some hash_two)).bind
    (fun table => insert_all zeroed table [(11, 110), (12, 120)])

/-- The table `tail_pair` after `remove(11)`: slot 2 is a tombstone and key 12
sits in the last slot. -/
def tail_after_tombstone : Option hashtable :=
  tail_pair.bind (fun table => (hashtable_remove table 11).map (fun r => r.2.2))

/-- Slots 2 to 65536 of a fresh table of capacity 65537, all `VACANT`. -/
def wide_rest : List (Option tuple) := List.replicate 65535 (some ⟨2, 0, 0⟩)

/-- Capacity 65537, hash `hash_id`, as `new_hashtable` returns it. -/
def wide_fresh : hashtable :=
  { buckets := some ⟨2, 0, 0⟩ :: some ⟨2, 0, 0⟩ :: wide_rest
    num_buckets := 65537
    total_items := 0
    multiplier := 1
    hash_function := some hash_id }

/-- The table `wide_fresh` after `insert(7, 70)`: key 7 sits in slot 0. -/
def wide_table : hashtable :=
  { buckets := some ⟨3, 7, 70⟩ :: some ⟨2, 0, 0⟩ :: wide_rest
    num_buckets := 65537
    total_items := 1
    multiplier := 1
    hash_function := some hash_id }

/-- The table `wide_table` after `remove(7)`: slot 0 is a tombstone. -/
def wide_tombstone : hashtable :=
  { buckets := some ⟨4, 0, 0⟩ :: some ⟨2, 0, 0⟩ :: wide_rest
    num_buckets := 65537
    total_items := 0
    multiplier := 1
    hash_function := some hash_id }

/-! ## Queue (`queue.c`) and multilevel queue (`multilevel_queue.c`)

The nodes of all queues live in one heap, a map from addresses to `struct
node`; `none` is an address that holds no node (never allocated, or freed).
Address `0` is `NULL`.  A `struct queue` is kept by value: each queue has its
own, and the functions reach it through a non-null pointer.  An `int` is an
integer; `++` on `INT_MAX` is undefined.  As for the hash table, `none` as a
result is undefined behaviour of the C program. -/

/-- The C `struct node` of `queue.c`. -/
structure node where
  next : Nat
  prev : Nat
  datum : Nat
  pri : Int
deriving DecidableEq

/-- The C `struct queue`. -/
structure queue where
  size : Int
  head : Nat
  tail : Nat
deriving DecidableEq

/-- The heap of nodes. -/
def node_heap : Type := Nat → Option node

/-- What `malloc(sizeof(struct node))` returns: the address, `0` for `NULL`,
and the indeterminate contents of the block. -/
structure block where
  addr : Nat
  junk : node

/-- The heap with the contents of address `a` replaced. -/
def heap_write (h : node_heap) (a : Nat) (v : Option node) : node_heap :=
  fun b => if b = a then v else h b

/-- Read through a node pointer: undefined for `NULL` and for an address that
holds no node. -/
def load (h : node_heap) (a : Nat) : Option node :=
  if a = 0 then none else h a

/-- Write of one field through a node pointer: `f` changes that field. -/
def store (h : node_heap) (a : Nat) (f : node → node) : Option node_heap :=
  match load h a with
  | none => none
  | some x => some (heap_write h a (some (f x)))

/-- The call `free(a)`: nothing for `NULL`, undefined for an address that
holds no node. -/
def free (h : node_heap) (a : Nat) : Option node_heap :=
  if a = 0 then some h
  else
    match h a with
    | none => none
    | some _ => some (heap_write h a none)

/-- The C expression `x++` on an `int`: undefined at `INT_MAX`. -/
def int_succ (x : Int) : Option Int :=
  if x < 2147483647 then some (x + 1) else none

/-- The function `queue_new`, lines 25-35, when `malloc` succeeds. -/
def queue_new : queue := { size := 0, head := 0, tail := 0 }

/-- The function `queue_append`, lines 69-91, on a non-null queue.  The result
is the return code, the heap and the queue. -/
def queue_append (n : block) (h : node_heap) (q : queue) (item : Nat) :
    Option (Int × node_heap × queue) :=
  if n.addr = 0 then some (-1, h, q)
  else do
    let h := heap_write h n.addr (some n.junk)
    let h ← store h n.addr (fun x => { x with pri := 0 })
    let h ← store h n.addr (fun x => { x with datum := item })
    if q.size = 0 then do
      let h ← store h n.addr (fun x => { x with next := 0 })
      let h ← store h n.addr (fun x => { x with prev := 0 })
      let size ← int_succ q.size
      some (0, h, { size := size, head := n.addr, tail := n.addr })
    else do
      let h ← store h n.addr (fun x => { x with next := 0 })
      let h ← store h q.tail (fun x => { x with next := n.addr })
      let h ← store h n.addr (fun x => { x with prev := q.tail })
      let size ← int_succ q.size
      some (0, h, { size := size, head := q.head, tail := n.addr })

/-- The function `queue_dequeue`, lines 97-122, on a non-null queue.  The
result is the return code, what was written to `*item`, the heap and the
queue. -/
def queue_dequeue (h : node_heap) (q : queue) : Option (Int × Nat × node_heap × queue) :=
  if q.size > 0 then do
    let first ← load h q.head
    let item := first.datum
    if q.size > 1 then do
      let head := first.next
      let second ← load h head
      let h ← free h second.prev
      let h ← store h head (fun x => { x with prev := 0 })
      some (0, item, h, { size := q.size - 1, head := head, tail := q.tail })
    else do
      let h ← free h q.head
      some (0, item, h, { size := q.size - 1, head := 0, tail := 0 })
  else some (-1, 0, h, q)

/-- The function `queue_length`, lines 167-173, on a non-null queue. -/
def queue_length (q : queue) : Int := q.size

/-- The loop of `queue_insert`, lines 254-263, with `in_` the pointer `in`.  It
links node `n` before the first node whose priority is not below that of `n`
and stops; it also stops, with nothing linked, when `in` becomes `NULL`.
`fuel` bounds the recursion: a walk that outlasts it is one that does not end
within the nodes the queue counts. -/
def insert_walk (h : node_heap) (n : Nat) : Nat → Nat → Option node_heap
  | 0, _ => none
  | fuel + 1, in_ =>
    if in_ = 0 then some h
    else do
      let new ← load h n
      let cur ← load h in_
      if new.pri ≤ cur.pri then do
        let h ← store h n (fun x => { x with prev := cur.prev })
        let h ← store h n (fun x => { x with next := in_ })
        let cur ← load h in_
        let h ← store h cur.prev (fun x => { x with next := n })
        let h ← store h in_ (fun x => { x with prev := n })
        some h
      else insert_walk h n fuel cur.next

/-- The function `queue_insert`, lines 225-268, on a non-null queue. -/
def queue_insert (n : block) (h : node_heap) (q : queue) (item : Nat) (pri : Int) :
    Option (Int × node_heap × queue) :=
  if n.addr = 0 then some (-1, h, q)
  else do
    let h := heap_write h n.addr (some n.junk)
    let h ← store h n.addr (fun x => { x with pri := pri })
    let h ← store h n.addr (fun x => { x with datum := item })
    if q.size = 0 then do
      let h ← store h n.addr (fun x => { x with next := 0 })
      let h ← store h n.addr (fun x => { x with prev := 0 })
      let size ← int_succ q.size
      some (0, h, { size := size, head := n.addr, tail := n.addr })
    else do
      let new ← load h n.addr
      let first ← load h q.head
      if new.pri ≤ first.pri then do
        let h ← store h n.addr (fun x => { x with next := q.head })
        let h ← store h q.head (fun x => { x with prev := n.addr })
        let h ← store h n.addr (fun x => { x with prev := 0 })
        let size ← int_succ q.size
        some (0, h, { size := size, head := n.addr, tail := q.tail })
      else do
        let last ← load h q.tail
        if new.pri ≥ last.pri then do
          let h ← store h n.addr (fun x => { x with prev := q.tail })
          let h ← store h q.tail (fun x => { x with next := n.addr })
          let h ← store h n.addr (fun x => { x with next := 0 })
          let size ← int_succ q.size
          some (0, h, { size := size, head := q.head, tail := n.addr })
        else do
          let h ← insert_walk h n.addr (q.size.toNat + 1) q.head
          let size ← int_succ q.size
          some (0, h, { size := size, head := q.head, tail := q.tail })

/-- The C `struct multilevel_queue`: the array of queues and `num_lvls`. -/
structure multilevel_queue where
  levels : List queue
  num_lvls : Int

/-- The function `multilevel_queue_new`, lines 17-44, when every `malloc`
succeeds; `none` is the `NULL` result. -/
def multilevel_queue_new (number_of_levels : Int) : Option multilevel_queue :=
  if number_of_levels < 1 then none
  else some { levels := List.replicate number_of_levels.toNat queue_new
              num_lvls := number_of_levels }

/-- The function `multilevel_queue_enqueue`, lines 49-55, on a non-null
multilevel queue.  The read `queue->levels[level]` is outside the array when
`level` is not below its length. -/
def multilevel_queue_enqueue (n : block) (h : node_heap) (mq : multilevel_queue)
    (level : Int) (item : Nat) : Option (Int × node_heap × multilevel_queue) :=
  if level > mq.num_lvls ∨ level < 0 then some (-1, h, mq)
  else
    match mq.levels[level.toNat]? with
    | none => none
    | some q =>
      match queue_append n h q item with
      | none => none
      | some (ret, h1, q1) => some (ret, h1, { mq with levels := mq.levels.set level.toNat q1 })

/-- The loop of `multilevel_queue_dequeue`, lines 74-76:
`for (; (*item == NULL) && ((i - level) < queue->num_lvls); i++)`.  The
result is `*item`, the heap and the levels when the loop is left. -/
def dequeue_scan (num_lvls level : Int) :
    Nat → Int → Nat → node_heap → List queue → Option (Nat × node_heap × List queue)
  | 0, _, _, _, _ => none
  | fuel + 1, i, item, h, levels =>
    if item = 0 ∧ i - level < num_lvls then
      match levels[(Int.tmod i num_lvls).toNat]? with
      | none => none
      | some q =>
        match queue_dequeue h q with
        | none => none
        | some (_, item1, h1, q1) =>
          match int_succ i with
          | none => none
          | some i1 =>
            dequeue_scan num_lvls level fuel i1 item1 h1
              (levels.set (Int.tmod i num_lvls).toNat q1)
    else some (item, h, levels)

/-- The function `multilevel_queue_dequeue`, lines 63-83, on a non-null
multilevel queue.  The result is the return code, what was written to `*item`
(`none` when nothing was), the heap and the multilevel queue.  The loop runs
at most `num_lvls - 1` times. -/
def multilevel_queue_dequeue (h : node_heap) (mq : multilevel_queue) (level : Int) :
    Option (Int × Option Nat × node_heap × multilevel_queue) :=
  if level > mq.num_lvls ∨ level < 0 then some (-1, none, h, mq)
  else
    match mq.levels[level.toNat]? with
    | none => none
    | some q =>
      match queue_dequeue h q with
      | none => none
      | some (_, item, h1, q1) =>
        match int_succ level with
        | none => none
        | some i =>
          match dequeue_scan mq.num_lvls level (mq.num_lvls.toNat + 1) i item h1
              (mq.levels.set level.toNat q1) with
          | none => none
          | some (item2, h2, levels2) =>
            if item2 = 0 then some (-1, some item2, h2, { mq with levels := levels2 })
            else some (0, some item2, h2, { mq with levels := levels2 })

/-! ### What a queue holds

A queue is described by the list of its nodes from head to tail, each with its
address, item and priority. -/

/-- One node of a queue as seen from outside: where it is and what it has. -/
structure entry where
  addr : Nat
  datum : Nat
  pri : Int
deriving DecidableEq

/-- The address of the first node, `NULL` for none. -/
def first_addr : List entry → Nat
  | [] => 0
  | e :: _ => e.addr

/-- The address of the last node, `p` for none. -/
def last_or : Nat → List entry → Nat
  | p, [] => p
  | _, e :: rest => last_or e.addr rest

/-- The nodes `es` are in the heap, linked in both directions, `prev` being
what the first one points back to and `NULL` what the last one points on to. -/
def linked (h : node_heap) : Nat → List entry → Prop
  | _, [] => True
  | prev, e :: rest =>
    e.addr ≠ 0 ∧ h e.addr = some ⟨first_addr rest, prev, e.datum, e.pri⟩ ∧ linked h e.addr rest

/-- The queue `q` consists of the nodes `es`, from head to tail: `size` counts
them, `head` and `tail` point to the first and the last, and they are linked,
each at its own address. -/
def is_queue (h : node_heap) (q : queue) (es : List entry) : Prop :=
  q.size = es.length ∧ (es ≠ [] → q.head = first_addr es ∧ q.tail = last_or 0 es)
    ∧ linked h 0 es ∧ (es.map entry.addr).Nodup

/-- Non-decreasing priority from head to tail. -/
def ascending (es : List entry) : Prop :=
  List.Pairwise (fun a b : entry => a.pri ≤ b.pri) es

/-- The levels of `mq` consist of the nodes `contents`, level by level, and no
node is on two levels. -/
def is_multilevel (h : node_heap) (mq : multilevel_queue) (contents : List (List entry)) : Prop :=
  mq.num_lvls = mq.levels.length ∧ contents.length = mq.levels.length
    ∧ (∀ (k : Nat) (q : queue) (es : List entry), mq.levels[k]? = some q →
        contents[k]? = some es → is_queue h q es)
    ∧ (∀ (j k : Nat) (es1 es2 : List entry), j ≠ k → contents[j]? = some es1 →
        contents[k]? = some es2 → ∀ e1 ∈ es1, ∀ e2 ∈ es2, e1.addr ≠ e2.addr)

/-- Successive calls of `queue_append`, one per item, each with the block its
`malloc` returns.  The result is the list of return codes, the heap and the
queue. -/
def append_all : List (block × Nat) → node_heap → queue → Option (List Int × node_heap × queue)
  | [], h, q => some ([], h, q)
  | (n, item) :: rest, h, q =>
    match queue_append n h q item with
    | none => none
    | some (ret, h1, q1) =>
      match append_all rest h1 q1 with
      | none => none
      | some (rets, h2, q2) => some (ret :: rets, h2, q2)

/-- Successive calls of `queue_dequeue`, `count` of them.  The result is the
list of return codes with the items yielded, the heap and the queue. -/
def dequeue_all : Nat → node_heap → queue → Option (List (Int × Nat) × node_heap × queue)
  | 0, h, q => some ([], h, q)
  | count + 1, h, q =>
    match queue_dequeue h q with
    | none => none
    | some (ret, item, h1, q1) =>
      match dequeue_all count h1 q1 with
      | none => none
      | some (outs, h2, q2) => some ((ret, item) :: outs, h2, q2)

/-! ### Concrete queues -/

/-- Three appends: the items 10, 20, 30 and the nodes `malloc` returns for
them, at the addresses 1, 2, 3 with arbitrary contents. -/
def three_calls : List (block × Nat) :=
  [(⟨1, ⟨7, 7, 7, 7⟩⟩, 10), (⟨2, ⟨0, 9, 0, 1⟩⟩, 20), (⟨3, ⟨5, 0, 5, -2⟩⟩, 30)]

/-- A heap with three linked nodes at the addresses 1, 2, 3, of priorities
1, 3, 5. -/
def sorted_heap : node_heap := fun a =>
  if a = 1 then some ⟨2, 0, 10, 1⟩
  else if a = 2 then some ⟨3, 1, 20, 3⟩
  else if a = 3 then some ⟨0, 2, 30, 5⟩
  else none

/-- The queue of the three nodes of `sorted_heap`. -/
def sorted_queue : queue := { size := 3, head := 1, tail := 3 }

/-- The nodes of `sorted_queue` from head to tail. -/
def sorted_nodes : List entry := [⟨1, 10, 1⟩, ⟨2, 20, 3⟩, ⟨3, 30, 5⟩]

/-- A heap with two linked nodes at the addresses 1 and 2. -/
def wrap_heap : node_heap := fun a =>
  if a = 1 then some ⟨2, 0, 10, 0⟩
  else if a = 2 then some ⟨0, 1, 20, 0⟩
  else none

/-- Three levels: the two nodes of `wrap_heap` on level 0, nothing on levels 1
and 2. -/
def wrap_queue : multilevel_queue :=
  { levels := [{ size := 2, head := 1, tail := 2 }, queue_new, queue_new], num_lvls := 3 }

/-- The nodes of `wrap_queue`, level by level. -/
def wrap_nodes : List (List entry) := [[⟨1, 10, 0⟩, ⟨2, 20, 0⟩], [], []]

/-- Two levels, made by `multilevel_queue_new`, and the item 10 put on level 1
by `multilevel_queue_enqueue`, its node at address 1 of an empty heap. -/
def item_on_level_one : Option (Int × node_heap × multilevel_queue) :=
  (multilevel_queue_new 2).bind (fun mq =>
    multilevel_queue_enqueue ⟨1, ⟨0, 0, 0, 0⟩⟩ (fun _ => none) mq 1 10)

/-- The return code and the item of `multilevel_queue_dequeue` from `level` in
the state `item_on_level_one`. -/
def dequeue_level_one (level : Int) : Option (Int × Option Nat) :=
  item_on_level_one.bind (fun r =>
    (multilevel_queue_dequeue r.2.1 r.2.2 level).map (fun x => (x.1, x.2.1)))

/-- The number of queues and `num_lvls` of the multilevel queue that
`multilevel_queue_new` makes for `number_of_levels`, and whether `level` is
turned away by the test `(level > queue->num_lvls) || (level < 0)` of
lines 51 and 66. -/
def guard_of_new (number_of_levels level : Int) : Option (Nat × Int × Bool) :=
  (multilevel_queue_new number_of_levels).map (fun mq =>
    (mq.levels.length, mq.num_lvls, decide (level > mq.num_lvls ∨ level < 0)))

/-- The return code of `multilevel_queue_enqueue` of the item 10 at `level` of
a multilevel queue just made for `number_of_levels`, with a node at address 1
of an empty heap; `none` is undefined behaviour. -/
def enqueue_at (number_of_levels level : Int) : Option Int :=
  (multilevel_queue_new number_of_levels).bind (fun mq =>
    (multilevel_queue_enqueue ⟨1, ⟨0, 0, 0, 0⟩⟩ (fun _ => none) mq level 10).map
      (fun r => r.1))

/-- The return code of `multilevel_queue_dequeue` from `level` of a multilevel
queue just made for `number_of_levels`; `none` is undefined behaviour. -/
def dequeue_at (number_of_levels level : Int) : Option Int :=
  (multilevel_queue_new number_of_levels).bind (fun mq =>
    (multilevel_queue_dequeue (fun _ => none) mq level).map (fun r => r.1))

/-- The table `two_stored` after `insert(1, 99)`: key 1 has a second entry, in
slot 3. -/
def stored_twice : hashtable :=
  { buckets := [some ⟨2, 0, 0⟩, some ⟨3, 1, 10⟩, some ⟨3, 5, 50⟩, some ⟨3, 1, 99⟩]
    num_buckets := 4
    total_items := 3
    multiplier := 1
    hash_function := some hash_id }

end OSDataStructures



namespace OSDataStructures

/-! ## Arithmetic of the probe sequence -/

theorem next_index_mod (home d size : Nat) (hs : 0 < size) :
    next_index ((home + d) % size) size = (home + d + 1) % size := by
  have hlt : (home + d) % size < size := Nat.mod_lt _ hs
  have hstep : (home + d + 1) % size = ((home + d) % size + 1) % size :=
    (Nat.mod_add_mod (home + d) size 1).symm
  unfold next_index
  split
  · next heq => rw [hstep, heq, Nat.mod_self]
  · next hne =>
    have hsmall : ((home + d) % size + 1) % size = (home + d) % size + 1 :=
      Nat.mod_eq_of_lt (by omega)
    rw [hstep, hsmall]

theorem u16_succ_of_lt (n size : Nat) (hn : n < size) (h16 : size < 65536) :
    u16 (n + 1) = n + 1 := by
  unfold u16
  exact Nat.mod_eq_of_lt (by omega)

/-! ## Reads and writes of buckets -/

theorem bucket_at_lt {bs : List (Option tuple)} {i : Nat} {c : tuple}
    (h : bucket_at bs i = some c) : i < bs.length := by
  unfold bucket_at at h
  by_contra hge
  rw [List.getElem?_eq_none (by omega)] at h
  simp at h

theorem bucket_at_set_self (bs : List (Option tuple)) (i : Nat) (c : tuple)
    (h : i < bs.length) : bucket_at (bs.set i (some c)) i = some c := by
  unfold bucket_at
  rw [List.getElem?_set_self h]

theorem bucket_at_set_ne (bs : List (Option tuple)) (i j : Nat) (x : Option tuple)
    (h : i ≠ j) : bucket_at (bs.set i x) j = bucket_at bs j := by
  unfold bucket_at
  rw [List.getElem?_set_ne h]

theorem bucket_at_mem {bs : List (Option tuple)} {i : Nat} {c : tuple}
    (h : bucket_at bs i = some c) : some c ∈ bs := by
  unfold bucket_at at h
  split at h
  · next f hf =>
    cases h
    exact List.getElem?_mem hf
  · cases h

/-! ## The probe loops of insert and get -/

/-- Where the loop of `hashtable_insert` stops, started `d` steps after `home`
with `num_iter = d`: after `e` steps in all, every bucket passed being
`OCCUPIED`; it leaves either on a bucket that is not `OCCUPIED`, with
`num_iter = e`, or on the counter after `size` steps, with `num_iter` one past
`size`. -/
theorem insert_probe_stops (bs : List (Option tuple)) (size home : Nat)
    (hs : 0 < size) (h16 : size < 65536) :
    ∀ (fuel d idx n : Nat), d ≤ size →
      insert_probe bs size fuel ((home + d) % size) d = some (idx, n) →
      ∃ e, d ≤ e ∧ e ≤ size ∧ idx = (home + e) % size
        ∧ (∀ j, d ≤ j → j < e →
            ∃ c, bucket_at bs ((home + j) % size) = some c ∧ c.status = OCCUPIED)
        ∧ (n = e ∨ (e = size ∧ n = u16 (size + 1))) := by
  intro fuel
  induction fuel with
  | zero =>
    intro d idx n _ h
    simp [insert_probe] at h
  | succ fuel ih =>
    intro d idx n hd h
    unfold insert_probe at h
    split at h
    · cases h
    · next fetched hfetched =>
      split at h
      · next hocc =>
        split at h
        · next hlt =>
          rw [next_index_mod home d size hs, u16_succ_of_lt d size hlt h16] at h
          obtain ⟨e, hde, hes, hidx, hpath, hn⟩ := ih (d + 1) idx n (by omega) h
          refine ⟨e, by omega, hes, hidx, ?_, hn⟩
          intro j hdj hje
          by_cases hjd : j = d
          · subst hjd
            exact ⟨fetched, hfetched, hocc⟩
          · exact hpath j (by omega) hje
        · next hge =>
          simp only [Option.some.injEq, Prod.mk.injEq] at h
          obtain ⟨h1, h2⟩ := h
          have hds : d = size := by omega
          refine ⟨d, le_refl d, hd, h1.symm, ?_, Or.inr ⟨hds, ?_⟩⟩
          · intro j hdj hjd
            omega
          · rw [← h2, hds]
      · next hfree =>
        simp only [Option.some.injEq, Prod.mk.injEq] at h
        obtain ⟨h1, h2⟩ := h
        refine ⟨d, le_refl d, hd, h1.symm, ?_, Or.inl h2.symm⟩
        intro j hdj hjd
        omega

/-- The loop of `hashtable_get` succeeds with `value` when every bucket from
`home` up to `e` steps further is neither dangling nor `VACANT`, each of them
that carries `key` carries `value`, and the last one carries `key`. -/
theorem get_probe_finds (bs : List (Option tuple)) (size home key value e : Nat)
    (hs : 0 < size) (h16 : size < 65536) (he : e < size)
    (hpath : ∀ j, j ≤ e → ∃ c, bucket_at bs ((home + j) % size) = some c
      ∧ c.status ≠ VACANT ∧ (c.key = key → c.value = value))
    (hend : ∃ c, bucket_at bs ((home + e) % size) = some c ∧ c.key = key) :
    ∀ (fuel d : Nat), d ≤ e → e - d < fuel →
      get_probe bs size key fuel ((home + d) % size) d = some (0, some value) := by
  intro fuel
  induction fuel with
  | zero =>
    intro d _ h
    omega
  | succ fuel ih =>
    intro d hde hfuel
    obtain ⟨c, hc, hstatus, hval⟩ := hpath d hde
    have hdlt : d < size := by omega
    unfold get_probe
    rw [hc]
    simp only [ne_eq, hstatus, not_false_eq_true, if_true, hdlt]
    by_cases hkey : c.key = key
    · rw [if_pos hkey, hval hkey]
    · rw [if_neg hkey]
      have hne : d ≠ e := by
        intro hde2
        subst hde2
        obtain ⟨c2, hc2, hk2⟩ := hend
        rw [hc] at hc2
        cases hc2
        exact hkey hk2
      rw [next_index_mod home d size hs, u16_succ_of_lt d size (by omega) h16]
      exact ih (d + 1) (by omega) (by omega)

/-- What a `0` return of `hashtable_insert` with the table still in place
means: the probe stopped at a bucket `index` with `num_iter` other than `size`,
and the table is the old one with the entry written there and the count
raised by one. -/
theorem insert_returns_zero (mem : allocator) (table table1 : hashtable) (key value : Nat)
    (h : hashtable_insert mem table key value = some (0, some table1)) :
    ∃ hash index num_iter fetched,
      key ≠ 0 ∧ value ≠ 0
      ∧ table.hash_function = some hash ∧ u16 table.num_buckets ≠ 0
      ∧ insert_probe table.buckets (u16 table.num_buckets) (u16 table.num_buckets + 1)
          (scaled_hash hash table.multiplier key % u16 table.num_buckets) 0
          = some (index, num_iter)
      ∧ num_iter ≠ u16 table.num_buckets
      ∧ bucket_at table.buckets index = some fetched
      ∧ table1 = { table with
          buckets := table.buckets.set index
            (some { fetched with key := key, value := value, status := OCCUPIED })
          total_items := table.total_items + 1 } := by
  unfold hashtable_insert at h
  split at h
  · simp at h
  · next hnull =>
    have hkey : key ≠ 0 := fun hk => hnull (Or.inl hk)
    have hvalue : value ≠ 0 := fun hv => hnull (Or.inr hv)
    split at h
    · cases h
    · next hash hhash =>
      dsimp only at h
      split at h
      · cases h
      · next hsize =>
        split at h
        · cases h
        · next index num_iter hprobe =>
          split at h
          · simp at h
          · next hiter =>
            split at h
            · cases h
            · next fetched hfetched =>
              refine ⟨hash, index, num_iter, fetched, hkey, hvalue, hhash, hsize, hprobe,
                hiter, hfetched, ?_⟩
              split at h
              · split at h
                · cases h
                · split at h
                  · simp at h
                  · simp only [Option.some.injEq, Prod.mk.injEq, true_and] at h
                    exact h.symm
              · simp only [Option.some.injEq, Prod.mk.injEq, true_and] at h
                exact h.symm

theorem u16_lt (n : Nat) : u16 n < 65536 := by
  unfold u16
  exact Nat.mod_lt _ (by decide)

theorem absent_bucket {table : hashtable} {key index : Nat} {c : tuple}
    (habsent : absent table key) (hc : bucket_at table.buckets index = some c)
    (hstatus : c.status ≠ VACANT) : c.key ≠ key := by
  intro hkey
  have hfalse := habsent (some c) (bucket_at_mem hc)
  simp [holds, hstatus, hkey] at hfalse

/-! ## Claim C1 -/

/-- Claim C1 (round trip).  For every table and every key that no bucket
other than a `VACANT` one carries: if `hashtable_insert(table, key, value)`
returns `0` and the table is still the caller's (no resize replaced it), then
`hashtable_get(table, key)` returns `0` and yields exactly `value`.  The null
checks of the claim are already part of `hashtable_insert` returning `0`. -/
theorem insert_then_get (mem : allocator) (table table1 : hashtable) (key value : Nat)
    (habsent : absent table key)
    (h : hashtable_insert mem table key value = some (0, some table1)) :
    hashtable_get table1 key = some (0, some value) := by
  obtain ⟨hash, index, num_iter, fetched, hkey, _, hhash, hsize, hprobe, hiter, hfetched, rfl⟩ :=
    insert_returns_zero mem table table1 key value h
  have hs : 0 < u16 table.num_buckets := Nat.pos_of_ne_zero hsize
  have h16 := u16_lt table.num_buckets
  have hlen : index < table.buckets.length := bucket_at_lt hfetched
  obtain ⟨e, _, hes, hidx, hpath, hn⟩ :=
    insert_probe_stops table.buckets (u16 table.num_buckets)
      (scaled_hash hash table.multiplier key) hs h16 (u16 table.num_buckets + 1) 0 index
      num_iter (Nat.zero_le _) hprobe
  unfold hashtable_get
  simp only [hkey, if_false, hhash, hsize]
  -- the bucket written by the insert, and every other bucket as it was
  have hnew : ∀ p, p = index →
      bucket_at (table.buckets.set index
        (some { fetched with key := key, value := value, status := OCCUPIED })) p
        = some { fetched with key := key, value := value, status := OCCUPIED } := by
    intro p hp
    rw [hp]
    exact bucket_at_set_self _ _ _ hlen
  have hold : ∀ p, p ≠ index →
      bucket_at (table.buckets.set index
        (some { fetched with key := key, value := value, status := OCCUPIED })) p
        = bucket_at table.buckets p := by
    intro p hp
    exact bucket_at_set_ne _ _ _ _ (Ne.symm hp)
  have hocc : OCCUPIED ≠ VACANT := by decide
  by_cases hlt : e < u16 table.num_buckets
  · refine get_probe_finds _ _ (scaled_hash hash table.multiplier key) key value e hs h16 hlt
      ?_ ?_ (u16 table.num_buckets + 1) 0 (Nat.zero_le _) (by omega)
    · intro j hje
      by_cases hp : (scaled_hash hash table.multiplier key + j) % u16 table.num_buckets = index
      · exact ⟨_, hnew _ hp, hocc, fun _ => rfl⟩
      · have hjlt : j < e := by
          rcases Nat.lt_or_ge j e with hj | hj
          · exact hj
          · have : j = e := by omega
            subst this
            exact absurd hidx.symm hp
        obtain ⟨c, hc, hcs⟩ := hpath j (Nat.zero_le _) hjlt
        refine ⟨c, (hold _ hp).trans hc, by rw [hcs]; exact hocc, ?_⟩
        intro hck
        exact absurd hck (absent_bucket habsent hc (by rw [hcs]; exact hocc))
    · exact ⟨_, hnew _ hidx.symm, rfl⟩
  · have hee : e = u16 table.num_buckets := by omega
    have hhome : (scaled_hash hash table.multiplier key + 0) % u16 table.num_buckets = index := by
      rw [hidx, hee, Nat.add_zero, Nat.add_mod_right]
    refine get_probe_finds _ _ (scaled_hash hash table.multiplier key) key value 0 hs h16 hs
      ?_ ?_ (u16 table.num_buckets + 1) 0 (Nat.zero_le _) (by omega)
    · intro j hj
      have hj0 : j = 0 := by omega
      subst hj0
      exact ⟨_, hnew _ hhome, hocc, fun _ => rfl⟩
    · exact ⟨_, hnew _ hhome, rfl⟩

/-- Claim C1 on the table `one_stored`: key 5 collides with key 1, is placed
one slot further, and is found again. -/
theorem insert_then_get_witness : hashtable_get two_stored 5 = some (0, some 50) :=
  insert_then_get zeroed one_stored two_stored 5 50 (by unfold absent; decide) (by rfl)

/-! ## Claim C10 -/

/-- Claim C10 as stated fails for size 4 and a null hash function: the
allocation succeeds and `new_hashtable` returns a table all the same. -/
theorem new_hashtable_takes_a_null_hash :
    ¬ (new_hashtable zeroed 4 none = none
        ↔ ((4 : Int) ≤ 0 ∨ (none : Option (Nat → Nat)) = none)) := by
  simp [new_hashtable, zeroed]

/-- Claim C10, amended.  With the allocation succeeding, `new_hashtable(size,
hash_fnc)` returns no table if and only if `size <= 0`, whatever `hash_fnc`
is; otherwise it returns a table with exactly `size` buckets, all `VACANT`,
count 0, multiplier 1, and `hash_fnc` stored as given. -/
theorem new_hashtable_builds (mem : allocator) (size : Int) (hash_fnc : Option (Nat → Nat))
    (hmem : mem.succeeds = true) :
    (new_hashtable mem size hash_fnc = none ↔ size ≤ 0)
      ∧ (0 < size → ∃ table, new_hashtable mem size hash_fnc = some table
          ∧ (table.buckets.length : Int) = size ∧ (table.num_buckets : Int) = size
          ∧ (∀ cell ∈ table.buckets, ∃ fetched, cell = some fetched ∧ fetched.status = VACANT)
          ∧ table.total_items = 0 ∧ table.multiplier = 1
          ∧ table.hash_function = hash_fnc) := by
  constructor
  · unfold new_hashtable
    by_cases hsize : size ≤ 0
    · simp [hsize]
    · simp [hsize, hmem]
  · intro hpos
    have hsize : ¬ size ≤ 0 := by omega
    refine ⟨_, by simp only [new_hashtable, hsize, hmem, if_false]; rfl, ?_⟩
    refine ⟨?_, ?_, ?_, rfl, rfl, rfl⟩
    · simp only [List.length_replicate]
      omega
    · show ((size.toNat : Nat) : Int) = size
      omega
    · intro cell hcell
      have := List.eq_of_mem_replicate hcell
      exact ⟨_, this, rfl⟩

/-- Claim C10, amended, at size 4 with a null hash function. -/
theorem new_hashtable_builds_witness :
    (new_hashtable zeroed 4 none = none ↔ (4 : Int) ≤ 0)
      ∧ ((0 : Int) < 4 → ∃ table, new_hashtable zeroed 4 none = some table
          ∧ (table.buckets.length : Int) = 4 ∧ (table.num_buckets : Int) = 4
          ∧ (∀ cell ∈ table.buckets, ∃ fetched, cell = some fetched ∧ fetched.status = VACANT)
          ∧ table.total_items = 0 ∧ table.multiplier = 1
          ∧ table.hash_function = none) :=
  new_hashtable_builds zeroed 4 none rfl

/-! ## How `hashtable_get` reacts to a changed bucket -/

/-- The loop of `hashtable_get` does not tell two arrays apart when, bucket by
bucket, both dangle or both are `VACANT` or neither is and they agree on
whether they carry `key` and, if so, on the value. -/
theorem get_probe_congr (bs bs1 : List (Option tuple)) (size key : Nat)
    (h : ∀ p, (bucket_at bs p = none ∧ bucket_at bs1 p = none)
      ∨ ∃ c c1, bucket_at bs p = some c ∧ bucket_at bs1 p = some c1
          ∧ (c.status = VACANT ↔ c1.status = VACANT)
          ∧ (c.key = key ↔ c1.key = key) ∧ (c.key = key → c.value = c1.value)) :
    ∀ (fuel index n : Nat),
      get_probe bs1 size key fuel index n = get_probe bs size key fuel index n := by
  intro fuel
  induction fuel with
  | zero =>
    intro index n
    simp only [get_probe]
  | succ fuel ih =>
    intro index n
    simp only [get_probe]
    rcases h index with ⟨h0, h1⟩ | ⟨c, c1, h0, h1, hst, hk, hv⟩
    · rw [h0, h1]
    · rw [h0, h1]
      simp only [ne_eq]
      by_cases hvac : c.status = VACANT
      · simp only [hvac, hst.mp hvac, not_true_eq_false, if_false]
      · have hvac1 : ¬ c1.status = VACANT := fun hx => hvac (hst.mpr hx)
        simp only [hvac, hvac1, not_false_eq_true, if_true]
        by_cases hlt : n < size
        · simp only [hlt, if_true]
          by_cases hkey : c.key = key
          · simp only [hkey, hk.mp hkey, if_true, ← hv hkey]
          · have hkey1 : ¬ c1.key = key := fun hx => hkey (hk.mpr hx)
            simp only [hkey, hkey1, if_false]
            exact ih _ _
        · simp only [hlt, if_false]

/-- The loop of `hashtable_get` does not notice that bucket `i` is made
`VACANT` when that bucket does not carry `key` and the bucket after it is
`VACANT` already: a scan that reaches `i` fails either way. -/
theorem get_probe_vacate (bs bs1 : List (Option tuple)) (size key i : Nat) (c c1 : tuple)
    (h16 : size < 65536)
    (hc : bucket_at bs i = some c) (hkey : c.key ≠ key)
    (hc1 : bucket_at bs1 i = some c1) (hvac : c1.status = VACANT)
    (hnext : ∃ c2, bucket_at bs (next_index i size) = some c2 ∧ c2.status = VACANT)
    (hother : ∀ p, p ≠ i → bucket_at bs1 p = bucket_at bs p) :
    ∀ (fuel index n : Nat), size < fuel + n →
      get_probe bs1 size key fuel index n = get_probe bs size key fuel index n := by
  intro fuel
  induction fuel with
  | zero =>
    intro index n _
    simp only [get_probe]
  | succ fuel ih =>
    intro index n hfuel
    by_cases hi : index = i
    · subst hi
      obtain ⟨c2, hc2, hvac2⟩ := hnext
      simp only [get_probe]
      rw [hc, hc1]
      simp only [ne_eq, hvac, not_true_eq_false, if_false]
      by_cases hvac0 : c.status = VACANT
      · simp only [hvac0, not_true_eq_false, if_false]
      · simp only [hvac0, not_false_eq_true, if_true]
        by_cases hlt : n < size
        · simp only [hlt, if_true, hkey, if_false]
          obtain ⟨fuel1, rfl⟩ : ∃ fuel1, fuel = fuel1 + 1 := ⟨fuel - 1, by omega⟩
          simp only [get_probe]
          rw [hc2]
          simp only [ne_eq, hvac2, not_true_eq_false, if_false]
        · simp only [hlt, if_false]
    · simp only [get_probe]
      rw [hother index hi]
      cases hcell : bucket_at bs index with
      | none => rfl
      | some fetched =>
        simp only [ne_eq]
        by_cases hvac0 : fetched.status = VACANT
        · simp only [hvac0, not_true_eq_false, if_false]
        · simp only [hvac0, not_false_eq_true, if_true]
          by_cases hlt : n < size
          · simp only [hlt, if_true]
            by_cases hk : fetched.key = key
            · simp only [hk, if_true]
            · simp only [hk, if_false]
              apply ih
              rw [u16_succ_of_lt n size hlt h16]
              omega
          · simp only [hlt, if_false]

/-! ## The loop of remove -/

theorem next_index_lt (index size : Nat) (h : index < size) : next_index index size < size := by
  unfold next_index
  split <;> omega

/-- A match of the loop of `hashtable_remove` is an `OCCUPIED` bucket, inside
the first `size` buckets, that carries `key`. -/
theorem remove_probe_found (bs : List (Option tuple)) (size key : Nat) :
    ∀ (fuel index n found : Nat), index < size →
      remove_probe bs size key fuel index n = some (some found) →
      found < size ∧ ∃ f, bucket_at bs found = some f ∧ f.status = OCCUPIED ∧ f.key = key := by
  intro fuel
  induction fuel with
  | zero =>
    intro index n found _ h
    simp [remove_probe] at h
  | succ fuel ih =>
    intro index n found hindex h
    simp only [remove_probe] at h
    split at h
    · cases h
    · next fetched hfetched =>
      split at h
      · split at h
        · split at h
          · next hmatch =>
            simp only [Option.some.injEq] at h
            subst h
            exact ⟨hindex, fetched, hfetched, hmatch.1, hmatch.2⟩
          · exact ih _ _ found (next_index_lt index size hindex) h
        · cases h
      · cases h

/-- What a result of `hashtable_remove` means: either nothing was removed and
the table is as it was, or the loop matched bucket `found` and the result is
that of the removal there. -/
theorem remove_returns (table table1 : hashtable) (key : Nat) (ret : Int) (old : Option Nat)
    (h : hashtable_remove table key = some (ret, old, table1)) :
    (ret = -1 ∧ old = none ∧ table1 = table)
      ∨ ∃ found, key ≠ 0 ∧ found < u16 table.num_buckets
          ∧ (∃ f, bucket_at table.buckets found = some f ∧ f.status = OCCUPIED ∧ f.key = key)
          ∧ remove_at table (u16 table.num_buckets) found = some (ret, old, table1) := by
  unfold hashtable_remove at h
  split at h
  · simp only [Option.some.injEq, Prod.mk.injEq] at h
    exact Or.inl ⟨h.1.symm, h.2.1.symm, h.2.2.symm⟩
  · next hkey =>
    split at h
    · cases h
    · next hash hhash =>
      dsimp only at h
      split at h
      · cases h
      · next hsize =>
        split at h
        · cases h
        · next hneg =>
          split at h
          · cases h
          · simp only [Option.some.injEq, Prod.mk.injEq] at h
            exact Or.inl ⟨h.1.symm, h.2.1.symm, h.2.2.symm⟩
          · next found hprobe =>
            have hs : (0 : Int) < (u16 table.num_buckets : Int) := by omega
            have hlt := Int.tmod_lt_of_pos
              (unsigned_to_int (scaled_hash hash table.multiplier key)) hs
            have hstart : (Int.tmod (unsigned_to_int (scaled_hash hash table.multiplier key))
                (u16 table.num_buckets : Int)).toNat < u16 table.num_buckets := by
              omega
            obtain ⟨hfound, hf⟩ := remove_probe_found _ _ _ _ _ _ found hstart hprobe
            exact Or.inr ⟨found, hkey, hfound, hf, h⟩

/-- The bucket that the backward step of `hashtable_remove` reaches is the one
just before `found`, unless it is `found` itself. -/
theorem next_index_step_back (found size : Nat) (hfound : found < size)
    (hback : 0 ≤ step_back (next_index found size) size)
    (hne : (step_back (next_index found size) size).toNat ≠ found) :
    next_index (step_back (next_index found size) size).toNat size = found := by
  unfold step_back next_index at *
  dsimp only at *
  split_ifs at * <;> omega

/-- The removal at a matching bucket changes nothing that `hashtable_get` of
another key can see, whether the bucket is left `DELETED` or made `VACANT`,
and whether or not the tombstone before it is made `VACANT` as well. -/
theorem remove_at_keeps_get (table table1 : hashtable) (size found key1 : Nat) (ret : Int)
    (old : Option Nat) (f : tuple) (h16 : size < 65536) (hfound : found < size)
    (hf : bucket_at table.buckets found = some f) (hfs : f.status = OCCUPIED)
    (hfk : f.key ≠ key1) (hk1 : key1 ≠ 0)
    (hdel : ∀ p c, bucket_at table.buckets p = some c → c.status = DELETED → c.key ≠ key1)
    (h : remove_at table size found = some (ret, old, table1)) :
    table1.hash_function = table.hash_function ∧ table1.num_buckets = table.num_buckets
      ∧ table1.multiplier = table.multiplier
      ∧ ∀ (fuel index n : Nat), size < fuel + n →
          get_probe table1.buckets size key1 fuel index n
            = get_probe table.buckets size key1 fuel index n := by
  have hlen : found < table.buckets.length := bucket_at_lt hf
  have hocc : OCCUPIED ≠ VACANT := by decide
  have hdv : DELETED ≠ VACANT := by decide
  unfold remove_at at h
  rw [hf] at h
  dsimp only at h
  split at h
  · cases h
  · next following hfollowing =>
    split at h
    · next hvac =>
      split at h
      · cases h
      · next hback =>
        split at h
        · cases h
        · next previous hprevious =>
          simp only [Option.some.injEq, Prod.mk.injEq] at h
          obtain ⟨_, _, rfl⟩ := h
          refine ⟨rfl, rfl, rfl, ?_⟩
          dsimp only
          -- the bucket after `found` is not `found` itself, and was `VACANT` before
          have hne1 : found ≠ next_index found size := by
            intro heq
            rw [← heq, bucket_at_set_self _ _ _ hlen] at hfollowing
            cases hfollowing
            exact hdv hvac
          have hfollow : bucket_at table.buckets (next_index found size) = some following := by
            rw [bucket_at_set_ne _ _ _ _ hne1] at hfollowing
            exact hfollowing
          -- first change: `found` is made `VACANT`
          have hvacated : bucket_at
              ((table.buckets.set found (some { f with key := 0, value := 0, status := DELETED })).set
                found (some { f with key := 0, value := 0, status := VACANT })) found
              = some { f with key := 0, value := 0, status := VACANT } :=
            bucket_at_set_self _ _ _ (by rw [List.length_set]; exact hlen)
          have hrest : ∀ p, p ≠ found → bucket_at
              ((table.buckets.set found (some { f with key := 0, value := 0, status := DELETED })).set
                found (some { f with key := 0, value := 0, status := VACANT })) p
              = bucket_at table.buckets p := by
            intro p hp
            rw [bucket_at_set_ne _ _ _ _ (Ne.symm hp), bucket_at_set_ne _ _ _ _ (Ne.symm hp)]
          have step1 := get_probe_vacate table.buckets _ size key1 found f _ h16 hf hfk
            hvacated rfl ⟨following, hfollow, hvac⟩ hrest
          by_cases hprevdel : previous.status = DELETED
          · rw [if_pos hprevdel]
            -- second change: the tombstone before `found` is made `VACANT`
            have hne3 : (step_back (next_index found size) size).toNat ≠ found := by
              intro heq
              rw [heq, hvacated] at hprevious
              cases hprevious
              exact hdv hprevdel.symm
            have hprev0 : bucket_at table.buckets (step_back (next_index found size) size).toNat
                = some previous := by
              rw [← hrest _ hne3]
              exact hprevious
            have hnext3 := next_index_step_back found size hfound (by omega) hne3
            have step2 := get_probe_vacate _
              (((table.buckets.set found
                  (some { f with key := 0, value := 0, status := DELETED })).set
                found (some { f with key := 0, value := 0, status := VACANT })).set
                (step_back (next_index found size) size).toNat
                (some { previous with status := VACANT }))
              size key1 (step_back (next_index found size) size).toNat previous
              { previous with status := VACANT } h16 hprevious
              (hdel _ _ hprev0 hprevdel)
              (bucket_at_set_self _ _ _ (bucket_at_lt hprevious)) rfl
              ⟨_, by rw [hnext3]; exact hvacated, rfl⟩
              (fun p hp => bucket_at_set_ne _ _ _ _ (Ne.symm hp))
            intro fuel index n hfuel
            rw [step2 fuel index n hfuel, step1 fuel index n hfuel]
          · rw [if_neg hprevdel]
            exact step1
    · next hvac =>
      simp only [Option.some.injEq, Prod.mk.injEq] at h
      obtain ⟨_, _, rfl⟩ := h
      refine ⟨rfl, rfl, rfl, ?_⟩
      dsimp only
      intro fuel index n _
      apply get_probe_congr
      intro p
      by_cases hp : p = found
      · subst hp
        refine Or.inr ⟨f, _, hf, bucket_at_set_self _ _ _ hlen, ?_, ?_, ?_⟩
        · rw [hfs]
          exact ⟨fun hx => absurd hx hocc, fun hx => absurd hx hdv⟩
        · exact ⟨fun hx => absurd hx hfk, fun hx => absurd hx.symm hk1⟩
        · intro hx
          exact absurd hx hfk
      · rw [bucket_at_set_ne _ _ _ _ (Ne.symm hp)]
        cases hcell : bucket_at table.buckets p with
        | none => exact Or.inl ⟨rfl, rfl⟩
        | some c => exact Or.inr ⟨c, c, rfl, rfl, Iff.rfl, Iff.rfl, fun _ => rfl⟩

theorem bucket_at_eq {bs : List (Option tuple)} {i : Nat} {c : tuple}
    (h : bucket_at bs i = some c) : bs[i]? = some (some c) := by
  unfold bucket_at at h
  split at h
  · next f hf =>
    cases h
    exact hf
  · cases h

/-- In a table with pairwise distinct keys, a key that is stored is not also
carried by a tombstone. -/
theorem stored_key_not_on_tombstone (table : hashtable) (key1 : Nat)
    (hdistinct : distinct_keys table) (hstored : stored table key1) (hk1 : key1 ≠ 0) :
    ∀ p c, bucket_at table.buckets p = some c → c.status = DELETED → c.key ≠ key1 := by
  intro p c hc hdel hkey
  obtain ⟨cell, hmem, hst⟩ := hstored
  cases cell with
  | none => simp [stores] at hst
  | some g =>
    simp only [stores, Bool.and_eq_true, decide_eq_true_eq] at hst
    obtain ⟨hgs, hgk⟩ := hst
    obtain ⟨q, hq⟩ := List.mem_iff_getElem?.mp hmem
    have hp := bucket_at_eq hc
    have hdo : DELETED ≠ OCCUPIED := by decide
    have hdv : DELETED ≠ VACANT := by decide
    have hov : OCCUPIED ≠ VACANT := by decide
    have hpq : p ≠ q := by
      intro heq
      rw [heq, hq] at hp
      simp only [Option.some.injEq] at hp
      rw [← hp, hgs] at hdel
      exact hdo hdel.symm
    obtain ⟨hpl, hpe⟩ := List.getElem?_eq_some.mp hp
    obtain ⟨hql, hqe⟩ := List.getElem?_eq_some.mp hq
    unfold distinct_keys at hdistinct
    rw [List.pairwise_iff_getElem] at hdistinct
    rcases Nat.lt_or_gt_of_ne hpq with hlt | hgt
    · have hshare := hdistinct p q hpl hql hlt
      rw [hpe, hqe] at hshare
      simp [share_key, hdel, hgs, hdv, hov, hkey, hgk, hk1] at hshare
    · have hshare := hdistinct q p hql hpl hgt
      rw [hpe, hqe] at hshare
      simp [share_key, hdel, hgs, hdv, hov, hkey, hgk, hk1] at hshare

/-! ## Claim C6 -/

/-- Claim C6 (tombstone transparency).  For every table whose keys are
pairwise distinct, every key `key` and every other key `key1` stored in the
table: when `hashtable_remove(table, key, &old)` returns, `hashtable_get` of
`key1` returns what it returned before, return code and value alike.  This
covers the removed slot being left `DELETED`, being made `VACANT`, and the
tombstone before it being made `VACANT` too.  The premise of the claim that
every entry is reachable from its home index is not needed for it. -/
theorem remove_keeps_other_keys (table table1 : hashtable) (key key1 : Nat) (ret : Int)
    (old : Option Nat) (hdistinct : distinct_keys table) (hstored : stored table key1)
    (hne : key1 ≠ key) (h : hashtable_remove table key = some (ret, old, table1)) :
    hashtable_get table1 key1 = hashtable_get table key1 := by
  by_cases hk1 : key1 = 0
  · subst hk1
    simp [hashtable_get]
  · rcases remove_returns table table1 key ret old h with
      ⟨_, _, rfl⟩ | ⟨found, _, hfound, ⟨f, hf, hfs, hfk⟩, hat⟩
    · rfl
    · obtain ⟨hh, hn, hm, hget⟩ :=
        remove_at_keeps_get table table1 (u16 table.num_buckets) found key1 ret old f
          (u16_lt _) hfound hf hfs (by rw [hfk]; exact Ne.symm hne) hk1
          (stored_key_not_on_tombstone table key1 hdistinct hstored hk1) hat
      unfold hashtable_get
      rw [hh, hn, hm]
      simp only [hk1, if_false]
      cases table.hash_function with
      | none => rfl
      | some hash =>
        dsimp only
        split
        · rfl
        · exact hget _ _ _ (by omega)

/-- Claim C6 on the example of the specification: with keys 11, 12, 13 chained
in slots 1, 2, 3, removing 12 leaves a tombstone in slot 2 and `hashtable_get`
of 13 is as before. -/
theorem remove_keeps_other_keys_witness :
    hashtable_get chain_with_tombstone 13 = hashtable_get chain_of_three 13 :=
  remove_keeps_other_keys chain_of_three chain_with_tombstone 12 13 0 (some 120)
    (by unfold distinct_keys; decide) (by unfold stored; decide) (by decide) (by rfl)

/-! ## Removal where `hashtable_remove` starts inside the array -/

theorem bucket_at_set (bs : List (Option tuple)) (i p : Nat) (c : tuple)
    (hi : i < bs.length) :
    bucket_at (bs.set i (some c)) p = if p = i then some c else bucket_at bs p := by
  split
  · next h =>
    rw [h]
    exact bucket_at_set_self _ _ _ hi
  · next h => exact bucket_at_set_ne _ _ _ _ (Ne.symm h)

theorem step_back_lt (index1 size : Nat) (hs : 0 < size) (h1 : index1 < size) :
    0 ≤ step_back index1 size ∧ (step_back index1 size).toNat < size := by
  unfold step_back
  dsimp only
  split_ifs <;> omega

/-- The loop of `hashtable_remove` stops at the bucket `e` steps after `home`
when that bucket is `OCCUPIED` and carries `key`, and every bucket before it
is neither dangling nor `VACANT` nor such a match. -/
theorem remove_probe_finds (bs : List (Option tuple)) (size home key e : Nat)
    (hs : 0 < size) (h16 : size < 65536) (he : e < size)
    (hpath : ∀ j, j < e → ∃ c, bucket_at bs ((home + j) % size) = some c
      ∧ c.status ≠ VACANT ∧ ¬ (c.status = OCCUPIED ∧ c.key = key))
    (hend : ∃ c, bucket_at bs ((home + e) % size) = some c
      ∧ c.status = OCCUPIED ∧ c.key = key) :
    ∀ (fuel d : Nat), d ≤ e → e - d < fuel →
      remove_probe bs size key fuel ((home + d) % size) d = some (some ((home + e) % size)) := by
  intro fuel
  induction fuel with
  | zero =>
    intro d _ h
    omega
  | succ fuel ih =>
    intro d hde hfuel
    have hdlt : d < size := by omega
    have hov : OCCUPIED ≠ VACANT := by decide
    simp only [remove_probe]
    by_cases hlast : d = e
    · subst hlast
      obtain ⟨c, hc, hcs, hck⟩ := hend
      rw [hc]
      simp only [ne_eq, hcs, hov, not_false_eq_true, if_true, hdlt, hck, and_self]
    · obtain ⟨c, hc, hcs, hcm⟩ := hpath d (by omega)
      rw [hc]
      simp only [ne_eq, hcs, not_false_eq_true, if_true, hdlt, hcm, if_false]
      rw [next_index_mod home d size hs, u16_succ_of_lt d size hdlt h16]
      exact ih (d + 1) (by omega) (by omega)

/-- The loop of `hashtable_get` fails when no bucket other than a `VACANT` one
carries `key`. -/
theorem get_probe_absent (bs : List (Option tuple)) (size key : Nat) (h16 : size < 65536)
    (hlive : ∀ p, p < size → ∃ c, bucket_at bs p = some c)
    (hnone : ∀ p c, bucket_at bs p = some c → c.status ≠ VACANT → c.key ≠ key) :
    ∀ (fuel index n : Nat), index < size → n ≤ size → size < fuel + n →
      get_probe bs size key fuel index n = some (-1, none) := by
  intro fuel
  induction fuel with
  | zero =>
    intro index n _ hn hfuel
    omega
  | succ fuel ih =>
    intro index n hindex _ hfuel
    obtain ⟨c, hc⟩ := hlive index hindex
    simp only [get_probe]
    rw [hc]
    simp only [ne_eq]
    by_cases hvac : c.status = VACANT
    · simp only [hvac, not_true_eq_false, if_false]
    · simp only [hvac, not_false_eq_true, if_true]
      by_cases hlt : n < size
      · simp only [hlt, if_true, hnone index c hc hvac, if_false]
        rw [u16_succ_of_lt n size hlt h16]
        exact ih _ _ (next_index_lt index size hindex) (by omega) (by omega)
      · simp only [hlt, if_false]

/-- The loop of `hashtable_remove` finds nothing when no bucket other than a
`VACANT` one carries `key`. -/
theorem remove_probe_absent (bs : List (Option tuple)) (size key : Nat) (h16 : size < 65536)
    (hlive : ∀ p, p < size → ∃ c, bucket_at bs p = some c)
    (hnone : ∀ p c, bucket_at bs p = some c → c.status ≠ VACANT → c.key ≠ key) :
    ∀ (fuel index n : Nat), index < size → n ≤ size → size < fuel + n →
      remove_probe bs size key fuel index n = some none := by
  intro fuel
  induction fuel with
  | zero =>
    intro index n _ hn hfuel
    omega
  | succ fuel ih =>
    intro index n hindex _ hfuel
    obtain ⟨c, hc⟩ := hlive index hindex
    simp only [remove_probe]
    rw [hc]
    simp only [ne_eq]
    by_cases hvac : c.status = VACANT
    · simp only [hvac, not_true_eq_false, if_false]
    · simp only [hvac, not_false_eq_true, if_true]
      by_cases hlt : n < size
      · simp only [hlt, if_true, hnone index c hc hvac, and_false, if_false]
        rw [u16_succ_of_lt n size hlt h16]
        exact ih _ _ (next_index_lt index size hindex) (by omega) (by omega)
      · simp only [hlt, if_false]

/-- The removal at a bucket `found` inside an array of valid buckets returns
`0`, yields the value of that bucket, lowers the count by one, leaves the
buckets valid, and leaves no bucket carrying a non-null key that did not
carry it before; the bucket `found` itself no longer carries one. -/
theorem remove_at_result (table : hashtable) (size found : Nat) (f : tuple)
    (hs : 0 < size) (hfound : found < size)
    (hf : bucket_at table.buckets found = some f)
    (hlive : ∀ p, p < size → ∃ c, bucket_at table.buckets p = some c) :
    ∃ table1, remove_at table size found = some (0, some f.value, table1)
      ∧ table1.total_items = table.total_items - 1
      ∧ table1.hash_function = table.hash_function
      ∧ table1.num_buckets = table.num_buckets
      ∧ table1.multiplier = table.multiplier
      ∧ (∀ p, p < size → ∃ c, bucket_at table1.buckets p = some c)
      ∧ (∀ p c1, bucket_at table1.buckets p = some c1 → c1.status ≠ VACANT → c1.key ≠ 0 →
          p ≠ found ∧ bucket_at table.buckets p = some c1) := by
  have hlen : found < table.buckets.length := bucket_at_lt hf
  have hdv : DELETED ≠ VACANT := by decide
  have hnext : next_index found size < size := next_index_lt found size hfound
  obtain ⟨c2, hc2⟩ := hlive _ hnext
  -- the array with `found` marked `DELETED`
  have hmarked : ∀ p, bucket_at
      (table.buckets.set found (some { f with key := 0, value := 0, status := DELETED })) p
      = if p = found then some { f with key := 0, value := 0, status := DELETED }
        else bucket_at table.buckets p :=
    fun p => bucket_at_set _ _ _ _ hlen
  -- the array with `found` made `VACANT`
  have hvacated : ∀ p, bucket_at
      ((table.buckets.set found (some { f with key := 0, value := 0, status := DELETED })).set
        found (some { f with key := 0, value := 0, status := VACANT })) p
      = if p = found then some { f with key := 0, value := 0, status := VACANT }
        else bucket_at table.buckets p := by
    intro p
    rw [bucket_at_set _ _ _ _ (by rw [List.length_set]; exact hlen), hmarked]
    split <;> rfl
  unfold remove_at
  rw [hf]
  dsimp only
  rw [hmarked]
  by_cases heq : next_index found size = found
  · rw [if_pos heq]
    dsimp only
    rw [if_neg hdv]
    refine ⟨_, rfl, rfl, rfl, rfl, rfl, ?_, ?_⟩
    · intro p hp
      dsimp only
      rw [hmarked]
      split
      · exact ⟨_, rfl⟩
      · exact hlive p hp
    · intro p c1 hc1 _ hkey
      dsimp only at hc1
      rw [hmarked] at hc1
      split at hc1
      · cases hc1
        exact absurd rfl hkey
      · next hp => exact ⟨hp, hc1⟩
  · rw [if_neg heq, hc2]
    dsimp only
    by_cases hvac : c2.status = VACANT
    · rw [if_pos hvac]
      obtain ⟨hback, hbacklt⟩ := step_back_lt (next_index found size) size hs hnext
      rw [if_neg (by omega)]
      rw [hvacated]
      by_cases hself : (step_back (next_index found size) size).toNat = found
      · rw [if_pos hself]
        dsimp only
        rw [if_neg (fun hx => hdv hx.symm)]
        refine ⟨_, rfl, rfl, rfl, rfl, rfl, ?_, ?_⟩
        · intro p hp
          dsimp only
          rw [hvacated]
          split
          · exact ⟨_, rfl⟩
          · exact hlive p hp
        · intro p c1 hc1 _ hkey
          dsimp only at hc1
          rw [hvacated] at hc1
          split at hc1
          · cases hc1
            exact absurd rfl hkey
          · next hp => exact ⟨hp, hc1⟩
      · rw [if_neg hself]
        obtain ⟨c3, hc3⟩ := hlive _ hbacklt
        rw [hc3]
        dsimp only
        have hlen3 : (step_back (next_index found size) size).toNat
            < ((table.buckets.set found
                (some { f with key := 0, value := 0, status := DELETED })).set
              found (some { f with key := 0, value := 0, status := VACANT })).length := by
          rw [List.length_set, List.length_set]
          exact bucket_at_lt hc3
        by_cases hdel : c3.status = DELETED
        · rw [if_pos hdel]
          refine ⟨_, rfl, rfl, rfl, rfl, rfl, ?_, ?_⟩
          · intro p hp
            dsimp only
            rw [bucket_at_set _ _ _ _ hlen3, hvacated]
            split
            · exact ⟨_, rfl⟩
            · split
              · exact ⟨_, rfl⟩
              · exact hlive p hp
          · intro p c1 hc1 hstatus hkey
            dsimp only at hc1
            rw [bucket_at_set _ _ _ _ hlen3, hvacated] at hc1
            split at hc1
            · cases hc1
              exact absurd rfl hstatus
            · split at hc1
              · cases hc1
                exact absurd rfl hkey
              · next hp => exact ⟨hp, hc1⟩
        · rw [if_neg hdel]
          refine ⟨_, rfl, rfl, rfl, rfl, rfl, ?_, ?_⟩
          · intro p hp
            dsimp only
            rw [hvacated]
            split
            · exact ⟨_, rfl⟩
            · exact hlive p hp
          · intro p c1 hc1 _ hkey
            dsimp only at hc1
            rw [hvacated] at hc1
            split at hc1
            · cases hc1
              exact absurd rfl hkey
            · next hp => exact ⟨hp, hc1⟩
    · rw [if_neg hvac]
      refine ⟨_, rfl, rfl, rfl, rfl, rfl, ?_, ?_⟩
      · intro p hp
        dsimp only
        rw [hmarked]
        split
        · exact ⟨_, rfl⟩
        · exact hlive p hp
      · intro p c1 hc1 _ hkey
        dsimp only at hc1
        rw [hmarked] at hc1
        split at hc1
        · cases hc1
          exact absurd rfl hkey
        · next hp => exact ⟨hp, hc1⟩

theorem probe_position_inj (home size j e : Nat) (hj : j < size) (he : e < size)
    (h : (home + j) % size = (home + e) % size) : j = e :=
  Nat.ModEq.eq_of_lt_of_lt (Nat.ModEq.add_left_cancel' home h) hj he

/-- When the unsigned product is below `2^31`, the `int` index of
`hashtable_remove` is the unsigned home index. -/
theorem remove_start (x size : Nat) (hx : x < 2147483648) :
    Int.tmod (unsigned_to_int x) (size : Int) = ((x % size : Nat) : Int) := by
  have hu : u32 x = x := by
    unfold u32
    exact Nat.mod_eq_of_lt (by omega)
  unfold unsigned_to_int
  rw [hu, if_pos hx]
  exact (Int.ofNat_tmod x size).symm

/-- With a key, a hash function and a product below `2^31`, `hashtable_remove`
is its loop from the unsigned home index followed by the removal. -/
theorem hashtable_remove_from_home (table : hashtable) (hash : Nat → Nat) (key : Nat)
    (hhash : table.hash_function = some hash) (hkey : key ≠ 0)
    (hsize : u16 table.num_buckets ≠ 0)
    (hstart : scaled_hash hash table.multiplier key < 2147483648) :
    hashtable_remove table key =
      match remove_probe table.buckets (u16 table.num_buckets) key (u16 table.num_buckets + 1)
          (scaled_hash hash table.multiplier key % u16 table.num_buckets) 0 with
      | none => none
      | some none => some (-1, none, table)
      | some (some found) => remove_at table (u16 table.num_buckets) found := by
  unfold hashtable_remove
  simp only [hkey, if_false, hhash, hsize]
  rw [remove_start _ _ hstart]
  have hnn : ¬ ((scaled_hash hash table.multiplier key % u16 table.num_buckets : Nat) : Int) < 0 := by
    omega
  rw [if_neg hnn, Int.toNat_ofNat]

/-- Remove then lookup, where `hashtable_remove` starts inside the array.  For
every table with valid buckets and every key whose unsigned product
`hash(key) * multiplier` is below `2^31`: if the key is carried by an
`OCCUPIED` bucket `e` steps after its home index, the buckets before it on the
way are not `VACANT`, and no other bucket except `VACANT` ones carries the key,
then `hashtable_remove` returns `0`, yields the stored value and lowers the
count by one; afterwards `hashtable_get` of the key returns `-1` and a second
`hashtable_remove` returns `-1` and changes nothing. -/
theorem remove_then_lookup (table : hashtable) (hash : Nat → Nat) (key e : Nat) (entry : tuple)
    (hhash : table.hash_function = some hash) (hkey : key ≠ 0)
    (hsize : u16 table.num_buckets ≠ 0)
    (hstart : scaled_hash hash table.multiplier key < 2147483648)
    (hlive : ∀ p, p < u16 table.num_buckets → ∃ c, bucket_at table.buckets p = some c)
    (he : e < u16 table.num_buckets)
    (hpath : ∀ j, j < e → ∃ c, bucket_at table.buckets
      ((scaled_hash hash table.multiplier key + j) % u16 table.num_buckets) = some c
      ∧ c.status ≠ VACANT)
    (hentry : bucket_at table.buckets
      ((scaled_hash hash table.multiplier key + e) % u16 table.num_buckets) = some entry)
    (hocc : entry.status = OCCUPIED) (hek : entry.key = key)
    (honce : ∀ p c, bucket_at table.buckets p = some c → c.status ≠ VACANT → c.key = key →
      p = (scaled_hash hash table.multiplier key + e) % u16 table.num_buckets) :
    ∃ table1, hashtable_remove table key = some (0, some entry.value, table1)
      ∧ table1.total_items = table.total_items - 1
      ∧ hashtable_get table1 key = some (-1, none)
      ∧ hashtable_remove table1 key = some (-1, none, table1) := by
  have hs : 0 < u16 table.num_buckets := Nat.pos_of_ne_zero hsize
  have h16 := u16_lt table.num_buckets
  have hfoundlt : (scaled_hash hash table.multiplier key + e) % u16 table.num_buckets
      < u16 table.num_buckets := Nat.mod_lt _ hs
  have hhomelt : scaled_hash hash table.multiplier key % u16 table.num_buckets
      < u16 table.num_buckets := Nat.mod_lt _ hs
  -- the loop stops at the entry
  have hprobe := remove_probe_finds table.buckets (u16 table.num_buckets)
    (scaled_hash hash table.multiplier key) key e hs h16 he
    (by
      intro j hj
      obtain ⟨c, hc, hcs⟩ := hpath j hj
      refine ⟨c, hc, hcs, ?_⟩
      intro hmatch
      have hpos := honce _ c hc hcs hmatch.2
      have := probe_position_inj _ _ j e (by omega) he hpos
      omega)
    ⟨entry, hentry, hocc, hek⟩ (u16 table.num_buckets + 1) 0 (Nat.zero_le _) (by omega)
  have hprobe0 : remove_probe table.buckets (u16 table.num_buckets) key
      (u16 table.num_buckets + 1)
      (scaled_hash hash table.multiplier key % u16 table.num_buckets) 0
      = some (some ((scaled_hash hash table.multiplier key + e) % u16 table.num_buckets)) :=
    hprobe
  obtain ⟨table1, hat, hcount, hh, hn, hm, hlive1, hkeys⟩ :=
    remove_at_result table (u16 table.num_buckets) _ entry hs hfoundlt hentry hlive
  -- no bucket of the new table carries the key
  have hnone : ∀ p c1, bucket_at table1.buckets p = some c1 → c1.status ≠ VACANT →
      c1.key ≠ key := by
    intro p c1 hc1 hstatus hck
    obtain ⟨hp, hc0⟩ := hkeys p c1 hc1 hstatus (by rw [hck]; exact hkey)
    exact hp (honce p c1 hc0 hstatus hck)
  refine ⟨table1, ?_, hcount, ?_, ?_⟩
  · rw [hashtable_remove_from_home table hash key hhash hkey hsize hstart, hprobe0]
    exact hat
  · unfold hashtable_get
    simp only [hkey, if_false, hh, hhash, hn, hm, hsize]
    exact get_probe_absent _ _ _ h16 hlive1 hnone _ _ _ hhomelt (Nat.zero_le _) (by omega)
  · rw [hashtable_remove_from_home table1 hash key (by rw [hh]; exact hhash) hkey
      (by rw [hn]; exact hsize) (by rw [hm]; exact hstart), hn, hm]
    rw [remove_probe_absent _ _ _ h16 hlive1 hnone _ _ _ hhomelt (Nat.zero_le _) (by omega)]

/-- Remove then lookup on the example of the specification: key 12 sits one
step after its home slot 1; removing it yields 120 and leaves the table
`chain_with_tombstone`, where key 12 is no longer found. -/
theorem remove_then_lookup_witness :
    ∃ table1, hashtable_remove chain_of_three 12 = some (0, some 120, table1)
      ∧ table1.total_items = 2
      ∧ hashtable_get table1 12 = some (-1, none)
      ∧ hashtable_remove table1 12 = some (-1, none, table1) :=
  remove_then_lookup chain_of_three (fun _ => 1) 12 1 ⟨3, 12, 120⟩ rfl (by decide) (by decide)
    (by decide)
    (by
      intro p hp
      have hp4 : p < 4 := hp
      interval_cases p <;> exact ⟨_, rfl⟩)
    (by decide)
    (by
      intro j hj
      have hj0 : j = 0 := by omega
      subst hj0
      exact ⟨⟨3, 11, 110⟩, rfl, by decide⟩)
    rfl rfl rfl
    (by
      intro p c hc hstatus hck
      have hp4 : p < 4 := bucket_at_lt hc
      interval_cases p
      · have hcell : c = ⟨2, 0, 0⟩ := (Option.some.inj hc).symm
        subst hcell
        exact absurd rfl hstatus
      · have hcell : c = ⟨3, 11, 110⟩ := (Option.some.inj hc).symm
        subst hcell
        exact absurd hck (by decide)
      · rfl
      · have hcell : c = ⟨3, 13, 130⟩ := (Option.some.inj hc).symm
        subst hcell
        exact absurd hck (by decide))

/-! ## The loops always come to an end -/

/-- With valid buckets, the loop of `hashtable_remove` ends within the `size + 1`
tests that its counter allows: the recursion bound is never what stops it. -/
theorem remove_probe_ends (bs : List (Option tuple)) (size key : Nat) (h16 : size < 65536)
    (hlive : ∀ p, p < size → ∃ c, bucket_at bs p = some c) :
    ∀ (fuel index n : Nat), index < size → n ≤ size → size < fuel + n →
      ∃ r, remove_probe bs size key fuel index n = some r := by
  intro fuel
  induction fuel with
  | zero =>
    intro index n _ hn hfuel
    omega
  | succ fuel ih =>
    intro index n hindex _ hfuel
    obtain ⟨c, hc⟩ := hlive index hindex
    simp only [remove_probe]
    rw [hc]
    dsimp only
    split
    · split
      · next hlt =>
        split
        · exact ⟨_, rfl⟩
        · rw [u16_succ_of_lt n size hlt h16]
          exact ih _ _ (next_index_lt index size hindex) (by omega) (by omega)
      · exact ⟨_, rfl⟩
    · exact ⟨_, rfl⟩

/-- With valid buckets, the loop of `hashtable_get` ends within the `size + 1`
tests that its counter allows. -/
theorem get_probe_ends (bs : List (Option tuple)) (size key : Nat) (h16 : size < 65536)
    (hlive : ∀ p, p < size → ∃ c, bucket_at bs p = some c) :
    ∀ (fuel index n : Nat), index < size → n ≤ size → size < fuel + n →
      ∃ r, get_probe bs size key fuel index n = some r := by
  intro fuel
  induction fuel with
  | zero =>
    intro index n _ hn hfuel
    omega
  | succ fuel ih =>
    intro index n hindex _ hfuel
    obtain ⟨c, hc⟩ := hlive index hindex
    simp only [get_probe]
    rw [hc]
    dsimp only
    split
    · split
      · next hlt =>
        split
        · exact ⟨_, rfl⟩
        · rw [u16_succ_of_lt n size hlt h16]
          exact ih _ _ (next_index_lt index size hindex) (by omega) (by omega)
      · exact ⟨_, rfl⟩
    · exact ⟨_, rfl⟩

/-- The function `hashtable_get` returns on every table with a hash function,
a capacity that is not a multiple of `2^16`, and valid buckets. -/
theorem hashtable_get_returns (table : hashtable) (hash : Nat → Nat) (key : Nat)
    (hhash : table.hash_function = some hash) (hsize : u16 table.num_buckets ≠ 0)
    (hlive : ∀ p, p < u16 table.num_buckets → ∃ c, bucket_at table.buckets p = some c) :
    ∃ r, hashtable_get table key = some r := by
  unfold hashtable_get
  split
  · exact ⟨_, rfl⟩
  · simp only [hhash, hsize, if_false]
    exact get_probe_ends _ _ _ (u16_lt _) hlive _ _ _
      (Nat.mod_lt _ (Nat.pos_of_ne_zero hsize)) (Nat.zero_le _) (by omega)

/-- The function `hashtable_remove` returns on every such table when the
product `hash(key) * multiplier` is below `2^31`. -/
theorem hashtable_remove_returns (table : hashtable) (hash : Nat → Nat) (key : Nat)
    (hhash : table.hash_function = some hash) (hsize : u16 table.num_buckets ≠ 0)
    (hstart : scaled_hash hash table.multiplier key < 2147483648)
    (hlive : ∀ p, p < u16 table.num_buckets → ∃ c, bucket_at table.buckets p = some c) :
    ∃ r, hashtable_remove table key = some r := by
  by_cases hkey : key = 0
  · unfold hashtable_remove
    rw [if_pos hkey]
    exact ⟨_, rfl⟩
  · have hs : 0 < u16 table.num_buckets := Nat.pos_of_ne_zero hsize
    have hhome : scaled_hash hash table.multiplier key % u16 table.num_buckets
        < u16 table.num_buckets := Nat.mod_lt _ hs
    rw [hashtable_remove_from_home table hash key hhash hkey hsize hstart]
    obtain ⟨r, hr⟩ := remove_probe_ends table.buckets _ key (u16_lt _) hlive
      (u16 table.num_buckets + 1) _ 0 hhome (Nat.zero_le _) (by omega)
    rw [hr]
    cases r with
    | none => exact ⟨_, rfl⟩
    | some found =>
      obtain ⟨hfound, f, hf, _, _⟩ := remove_probe_found _ _ _ _ _ _ found hhome hr
      obtain ⟨table1, hat, _⟩ := remove_at_result table _ found f hs hfound hf hlive
      exact ⟨_, hat⟩

/-! ## Runs of the code on concrete tables -/

/-- Claim C2 at capacity 4 with keys 1, 2, 3: the third insert returns `0` and
the table behind the caller's handle has been freed; the table that
`hashtable_resize` built instead has 8 buckets, of which the first two dangle
and the others are `VACANT`, and `hashtable_get` finds none of the three keys
in it. -/
theorem growth_loses_the_table :
    two_of_four.map contents
        = some ⟨[some ⟨2, 0, 0⟩, some ⟨3, 1, 10⟩, some ⟨3, 2, 20⟩, some ⟨2, 0, 0⟩], 4, 2, 1⟩
      ∧ insert_outcome (two_of_four.bind (fun table => hashtable_insert zeroed table 3 30))
        = some (0, none)
      ∧ (three_of_four.bind (fun table => hashtable_resize zeroed table)).map
          (fun r => (r.1, contents r.2))
        = some (0, ⟨[none, none, some ⟨2, 0, 0⟩, some ⟨2, 0, 0⟩, some ⟨2, 0, 0⟩,
            some ⟨2, 0, 0⟩, some ⟨2, 0, 0⟩, some ⟨2, 0, 0⟩], 8, 3, 2⟩)
      ∧ (three_of_four.bind (fun table => hashtable_resize zeroed table)).bind
          (fun r => hashtable_get r.2 1) = some (-1, none)
      ∧ (three_of_four.bind (fun table => hashtable_resize zeroed table)).bind
          (fun r => hashtable_get r.2 2) = some (-1, none)
      ∧ (three_of_four.bind (fun table => hashtable_resize zeroed table)).bind
          (fun r => hashtable_get r.2 3) = some (-1, none) := by
  decide

/-- Claim C3 at capacity 4 with key 1 stored with value 10: `insert(1, 20)`
returns `0`, stores a second entry for key 1 in the next slot and raises the
count to 2; `hashtable_get` still yields 10. -/
theorem insert_accepts_a_stored_key :
    one_of_four.map contents
        = some ⟨[some ⟨2, 0, 0⟩, some ⟨3, 1, 10⟩, some ⟨2, 0, 0⟩, some ⟨2, 0, 0⟩], 4, 1, 1⟩
      ∧ insert_outcome (one_of_four.bind (fun table => hashtable_insert zeroed table 1 20))
        = some (0, some ⟨[some ⟨2, 0, 0⟩, some ⟨3, 1, 10⟩, some ⟨3, 1, 20⟩, some ⟨2, 0, 0⟩],
            4, 2, 1⟩)
      ∧ (one_of_four.bind (fun table => insert_all zeroed table [(1, 20)])).bind
          (fun table => hashtable_get table 1) = some (0, some 10) := by
  decide

/-- Claim C4 at capacity 4 with key 1 stored with value 10: `update(1, 20)`
returns `0` and yields 10, and the slot holds the fresh tuple with the status
`malloc` left in it: with zeroed storage the status is `0`, not `OCCUPIED`;
with storage that holds `2` the slot reads as `VACANT` and `hashtable_get`
of key 1 fails. -/
theorem update_leaves_the_status_unset :
    change_outcome (one_of_four.bind (fun table => hashtable_update zeroed table 1 20))
        = some (0, some 10,
            ⟨[some ⟨2, 0, 0⟩, some ⟨0, 1, 20⟩, some ⟨2, 0, 0⟩, some ⟨2, 0, 0⟩], 4, 1, 1⟩)
      ∧ change_outcome (one_of_four.bind (fun table => hashtable_update stale_vacant table 1 20))
        = some (0, some 10,
            ⟨[some ⟨2, 0, 0⟩, some ⟨2, 1, 20⟩, some ⟨2, 0, 0⟩, some ⟨2, 0, 0⟩], 4, 1, 1⟩)
      ∧ ((one_of_four.bind (fun table => hashtable_update stale_vacant table 1 20)).bind
          (fun r => hashtable_get r.2.2 1)) = some (-1, none) := by
  decide

/-- Claim C5 at capacity 4 with a key whose hash is `2^31 + 1`: the key is
stored in slot 1 and `hashtable_get` yields its value, but `hashtable_remove`
starts at the `int` index `-3` and reads outside the array. -/
theorem remove_starts_below_the_array :
    high_of_four.map contents
        = some ⟨[some ⟨2, 0, 0⟩, some ⟨3, 1, 10⟩, some ⟨2, 0, 0⟩, some ⟨2, 0, 0⟩], 4, 1, 1⟩
      ∧ high_of_four.bind (fun table => hashtable_get table 1) = some (0, some 10)
      ∧ Int.tmod (unsigned_to_int (scaled_hash hash_high 1 1)) 4 = -3
      ∧ change_outcome (high_of_four.bind (fun table => hashtable_remove table 1)) = none := by
  decide

/-- Claim C7 at capacity 2 with both slots `OCCUPIED`: the probe for key 3
leaves the loop at its home index 1 with `num_iter = 3`, not `2`, so the test
`num_iter == size` fails; the insert returns `0`, overwrites the entry of key
1 and raises the count to 3 (and, when the resize it then triggers succeeds,
frees the caller's table). -/
theorem insert_overwrites_in_a_full_table :
    full_of_two.map contents = some ⟨[some ⟨3, 2, 20⟩, some ⟨3, 1, 10⟩], 2, 2, 1⟩
      ∧ full_of_two.bind (fun table => insert_probe table.buckets 2 3 1 0) = some (1, 3)
      ∧ insert_outcome (full_of_two.bind (fun table => hashtable_insert exhausted table 3 30))
        = some (0, some ⟨[some ⟨3, 2, 20⟩, some ⟨3, 3, 30⟩], 2, 3, 1⟩)
      ∧ insert_outcome (full_of_two.bind (fun table => hashtable_insert zeroed table 3 30))
        = some (0, none) := by
  decide

/-- Claim C8 at capacity 4 with key 1 stored: `hashtable_get` returns `0`, while
`hashtable_contains_key` is undefined when its unassigned `fetched` cannot be
dereferenced, returns `-1` when `fetched` points at a `VACANT` tuple, and returns
`-1` even when `fetched` points at the very tuple that holds key 1, because it
compares the tuple pointer with the key and then moves on to slot 2. -/
theorem contains_key_misses_a_stored_key :
    one_of_four.bind (fun table => hashtable_get table 1) = some (0, some 10)
      ∧ one_of_four.bind
          (fun table => hashtable_contains_key none (fun i => 2000 + i) table 1) = none
      ∧ one_of_four.bind
          (fun table => hashtable_contains_key (some (1000, ⟨2, 0, 0⟩)) (fun i => 2000 + i)
            table 1) = some (-1)
      ∧ one_of_four.bind
          (fun table => hashtable_contains_key (some (2001, ⟨3, 1, 10⟩)) (fun i => 2000 + i)
            table 1) = some (-1) := by
  decide

/-- Claim C9 at capacity 1: the fresh table has count 0; `insert(1, 10)` places
the entry, finds `1/1 > 0.7`, resizes, and returns `0` with the caller's table
freed.  At the call of `hashtable_resize` that table recorded count 1 for
capacity 1; the table `hashtable_resize` built, which only the local handle of
`hashtable_insert` designates, records count 1 for capacity 2 and its one
copied bucket dangles. -/
theorem first_insert_frees_a_table_of_one :
    (new_hashtable zeroed 1 (some hash_id)).map contents = some ⟨[some ⟨2, 0, 0⟩], 1, 0, 1⟩
      ∧ insert_outcome
          ((new_hashtable zeroed 1 (some hash_id)).bind
            (fun table => hashtable_insert zeroed table 1 10)) = some (0, none)
      ∧ one_of_one.map contents = some ⟨[some ⟨3, 1, 10⟩], 1, 1, 1⟩
      ∧ (one_of_one.bind (fun table => hashtable_resize zeroed table)).map
          (fun r => (r.1, contents r.2))
        = some (0, ⟨[none, some ⟨2, 0, 0⟩], 2, 1, 2⟩) := by
  decide

/-! ## Claim C11 -/

/-- The loop of `hashtable_update` finds nothing when no bucket other than a
`VACANT` one carries `key`. -/
theorem update_probe_absent (bs : List (Option tuple)) (size key : Nat) (h16 : size < 65536)
    (hlive : ∀ p, p < size → ∃ c, bucket_at bs p = some c)
    (hnone : ∀ p c, bucket_at bs p = some c → c.status ≠ VACANT → c.key ≠ key) :
    ∀ (fuel index n : Nat), index < size → n ≤ size → size < fuel + n →
      update_probe bs size key fuel index n = some none := by
  intro fuel
  induction fuel with
  | zero =>
    intro index n _ hn hfuel
    omega
  | succ fuel ih =>
    intro index n hindex _ hfuel
    obtain ⟨c, hc⟩ := hlive index hindex
    simp only [update_probe]
    rw [hc]
    simp only [ne_eq]
    by_cases hvac : c.status = VACANT
    · simp only [hvac, not_true_eq_false, if_false]
    · simp only [hvac, not_false_eq_true, if_true]
      by_cases hlt : n < size
      · have hk : ¬ key = c.key := fun hx => hnone index c hc hvac hx.symm
        simp only [hlt, if_true, hk, if_false]
        rw [u16_succ_of_lt n size hlt h16]
        exact ih _ _ (next_index_lt index size hindex) (by omega) (by omega)
      · simp only [hlt, if_false]

/-- Absent key, where `hashtable_remove` starts inside the array.  For every
table with valid buckets, with or without a `VACANT` slot, and every non-null
key that no bucket other than a `VACANT` one carries: `hashtable_get` and
`hashtable_update` return `-1`, write nothing and leave the table as it was,
and so does `hashtable_remove` when the unsigned product `hash(key) *
multiplier` is below `2^31`. -/
theorem absent_key_fails (mem : allocator) (table : hashtable) (hash : Nat → Nat)
    (key value : Nat) (hhash : table.hash_function = some hash) (hkey : key ≠ 0)
    (hsize : u16 table.num_buckets ≠ 0)
    (hlive : ∀ p, p < u16 table.num_buckets → ∃ c, bucket_at table.buckets p = some c)
    (habsent : absent table key) :
    hashtable_get table key = some (-1, none)
      ∧ hashtable_update mem table key value = some (-1, none, table)
      ∧ (scaled_hash hash table.multiplier key < 2147483648 →
          hashtable_remove table key = some (-1, none, table)) := by
  have hs : 0 < u16 table.num_buckets := Nat.pos_of_ne_zero hsize
  have h16 := u16_lt table.num_buckets
  have hhome : scaled_hash hash table.multiplier key % u16 table.num_buckets
      < u16 table.num_buckets := Nat.mod_lt _ hs
  have hnone : ∀ p c, bucket_at table.buckets p = some c → c.status ≠ VACANT → c.key ≠ key :=
    fun p c hc hstatus => absent_bucket habsent hc hstatus
  refine ⟨?_, ?_, ?_⟩
  · unfold hashtable_get
    simp only [hkey, if_false, hhash, hsize]
    exact get_probe_absent _ _ _ h16 hlive hnone _ _ _ hhome (Nat.zero_le _) (by omega)
  · unfold hashtable_update
    by_cases hnull : key = 0 ∨ value = 0
    · rw [if_pos hnull]
    · rw [if_neg hnull]
      by_cases hmem : mem.succeeds = false
      · rw [if_pos hmem]
      · rw [if_neg hmem]
        simp only [hhash, hsize, if_false]
        rw [update_probe_absent _ _ _ h16 hlive hnone _ _ _ hhome (Nat.zero_le _) (by omega)]
  · intro hstart
    rw [hashtable_remove_from_home table hash key hhash hkey hsize hstart]
    rw [remove_probe_absent _ _ _ h16 hlive hnone _ _ _ hhome (Nat.zero_le _) (by omega)]

/-- Claim C11 at capacity 4 with no key stored and a key whose hash is
`2^31 + 1`: `hashtable_get` and `hashtable_update` return `-1` and leave the
table as it was, but `hashtable_remove` starts at the `int` index `-3` and
reads outside the array. -/
theorem absent_key_remove_starts_below_the_array :
    empty_high.map contents
        = some ⟨[some ⟨2, 0, 0⟩, some ⟨2, 0, 0⟩, some ⟨2, 0, 0⟩, some ⟨2, 0, 0⟩], 4, 0, 1⟩
      ∧ empty_high.bind (fun table => hashtable_get table 1) = some (-1, none)
      ∧ change_outcome (empty_high.bind (fun table => hashtable_update zeroed table 1 20))
        = some (-1, none,
            ⟨[some ⟨2, 0, 0⟩, some ⟨2, 0, 0⟩, some ⟨2, 0, 0⟩, some ⟨2, 0, 0⟩], 4, 0, 1⟩)
      ∧ Int.tmod (unsigned_to_int (scaled_hash hash_high 1 1)) 4 = -3
      ∧ change_outcome (empty_high.bind (fun table => hashtable_remove table 1)) = none := by
  decide

/-! ## Claim C12 -/

/-- The loop of `hashtable_insert`, started at the home index, never leaves
with `num_iter` equal to `size`: the test at line 114 cannot hold. -/
theorem insert_probe_not_size (bs : List (Option tuple)) (size home : Nat)
    (hs : 0 < size) (h16 : size < 65536) (fuel idx n : Nat)
    (h : insert_probe bs size fuel (home % size) 0 = some (idx, n)) : n ≠ size := by
  -- a result `size` can only come from a bucket that is not `OCCUPIED`, after `size` steps
  have hfree : ∀ (fuel d idx n : Nat), d ≤ size →
      insert_probe bs size fuel ((home + d) % size) d = some (idx, n) → n = size →
      ∃ c, bucket_at bs ((home + size) % size) = some c ∧ c.status ≠ OCCUPIED := by
    intro fuel
    induction fuel with
    | zero =>
      intro d idx n _ h
      simp [insert_probe] at h
    | succ fuel ih =>
      intro d idx n hd h hn
      unfold insert_probe at h
      split at h
      · cases h
      · next fetched hfetched =>
        split at h
        · split at h
          · next hlt =>
            rw [next_index_mod home d size hs, u16_succ_of_lt d size hlt h16] at h
            exact ih (d + 1) idx n (by omega) h hn
          · next hge =>
            simp only [Option.some.injEq, Prod.mk.injEq] at h
            have hds : d = size := by omega
            have hwrap : u16 (d + 1) ≠ size := by
              unfold u16
              omega
            exact absurd (h.2.trans hn) hwrap
        · next hfree =>
          simp only [Option.some.injEq, Prod.mk.injEq] at h
          have hds : d = size := h.2.trans hn
          rw [hds] at hfetched
          exact ⟨fetched, hfetched, hfree⟩
  intro hn
  obtain ⟨c, hc, hcfree⟩ := hfree fuel 0 idx n (Nat.zero_le _) h hn
  obtain ⟨e, _, _, _, hpath, hcase⟩ :=
    insert_probe_stops bs size home hs h16 fuel 0 idx n (Nat.zero_le _) h
  have he : e = size := by
    rcases hcase with h1 | ⟨h1, _⟩
    · omega
    · exact h1
  obtain ⟨c0, hc0, hocc⟩ := hpath 0 (Nat.le_refl 0) (by omega)
  rw [Nat.add_mod_right] at hc
  rw [Nat.add_zero, hc] at hc0
  cases hc0
  exact hcfree hocc

/-- With valid buckets, the loop of `hashtable_insert` ends within the
`size + 1` tests that its counter allows, on a bucket inside the first `size`. -/
theorem insert_probe_ends (bs : List (Option tuple)) (size : Nat) (h16 : size < 65536)
    (hlive : ∀ p, p < size → ∃ c, bucket_at bs p = some c) :
    ∀ (fuel index n : Nat), index < size → n ≤ size → size < fuel + n →
      ∃ idx m, insert_probe bs size fuel index n = some (idx, m) ∧ idx < size := by
  intro fuel
  induction fuel with
  | zero =>
    intro index n _ hn hfuel
    omega
  | succ fuel ih =>
    intro index n hindex _ hfuel
    obtain ⟨c, hc⟩ := hlive index hindex
    simp only [insert_probe]
    rw [hc]
    dsimp only
    split
    · split
      · next hlt =>
        rw [u16_succ_of_lt n size hlt h16]
        exact ih _ _ (next_index_lt index size hindex) (by omega) (by omega)
      · exact ⟨_, _, rfl, hindex⟩
    · exact ⟨_, _, rfl, hindex⟩

/-- After the placement of `hashtable_insert`, `hashtable_get` of the key finds
the value, when no bucket other than a `VACANT` one carried the key before. -/
theorem get_after_placement (table : hashtable) (hash : Nat → Nat)
    (key value index num_iter : Nat) (fetched : tuple) (hkey : key ≠ 0)
    (hhash : table.hash_function = some hash) (hsize : u16 table.num_buckets ≠ 0)
    (hprobe : insert_probe table.buckets (u16 table.num_buckets) (u16 table.num_buckets + 1)
      (scaled_hash hash table.multiplier key % u16 table.num_buckets) 0
      = some (index, num_iter))
    (hfetched : bucket_at table.buckets index = some fetched)
    (habsent : absent table key) :
    hashtable_get
      { table with
          buckets := table.buckets.set index
            (some { fetched with key := key, value := value, status := OCCUPIED })
          total_items := table.total_items + 1 } key = some (0, some value) := by
  have hs : 0 < u16 table.num_buckets := Nat.pos_of_ne_zero hsize
  have h16 := u16_lt table.num_buckets
  have hlen : index < table.buckets.length := bucket_at_lt hfetched
  obtain ⟨e, _, hes, hidx, hpath, hn⟩ :=
    insert_probe_stops table.buckets (u16 table.num_buckets)
      (scaled_hash hash table.multiplier key) hs h16 (u16 table.num_buckets + 1) 0 index
      num_iter (Nat.zero_le _) hprobe
  unfold hashtable_get
  simp only [hkey, if_false, hhash, hsize]
  have hnew : ∀ p, p = index →
      bucket_at (table.buckets.set index
        (some { fetched with key := key, value := value, status := OCCUPIED })) p
        = some { fetched with key := key, value := value, status := OCCUPIED } := by
    intro p hp
    rw [hp]
    exact bucket_at_set_self _ _ _ hlen
  have hold : ∀ p, p ≠ index →
      bucket_at (table.buckets.set index
        (some { fetched with key := key, value := value, status := OCCUPIED })) p
        = bucket_at table.buckets p := by
    intro p hp
    exact bucket_at_set_ne _ _ _ _ (Ne.symm hp)
  have hocc : OCCUPIED ≠ VACANT := by decide
  by_cases hlt : e < u16 table.num_buckets
  · refine get_probe_finds _ _ (scaled_hash hash table.multiplier key) key value e hs h16 hlt
      ?_ ?_ (u16 table.num_buckets + 1) 0 (Nat.zero_le _) (by omega)
    · intro j hje
      by_cases hp : (scaled_hash hash table.multiplier key + j) % u16 table.num_buckets = index
      · exact ⟨_, hnew _ hp, hocc, fun _ => rfl⟩
      · have hjlt : j < e := by
          rcases Nat.lt_or_ge j e with hj | hj
          · exact hj
          · have : j = e := by omega
            subst this
            exact absurd hidx.symm hp
        obtain ⟨c, hc, hcs⟩ := hpath j (Nat.zero_le _) hjlt
        refine ⟨c, (hold _ hp).trans hc, by rw [hcs]; exact hocc, ?_⟩
        intro hck
        exact absurd hck (absent_bucket habsent hc (by rw [hcs]; exact hocc))
    · exact ⟨_, hnew _ hidx.symm, rfl⟩
  · have hee : e = u16 table.num_buckets := by omega
    have hhome : (scaled_hash hash table.multiplier key + 0) % u16 table.num_buckets = index := by
      rw [hidx, hee, Nat.add_zero, Nat.add_mod_right]
    refine get_probe_finds _ _ (scaled_hash hash table.multiplier key) key value 0 hs h16 hs
      ?_ ?_ (u16 table.num_buckets + 1) 0 (Nat.zero_le _) (by omega)
    · intro j hj
      have hj0 : j = 0 := by omega
      subst hj0
      exact ⟨_, hnew _ hhome, hocc, fun _ => rfl⟩
    · exact ⟨_, hnew _ hhome, rfl⟩

/-- Without memory, `hashtable_resize` returns `-1` and leaves `*table` as it
was (the doubled `int` values being in range). -/
theorem resize_fails_without_memory (mem : allocator) (table : hashtable)
    (hmem : mem.succeeds = false) (hcap : table.num_buckets < 1073741824)
    (hlow : -1073741824 ≤ table.multiplier) (hhigh : table.multiplier < 1073741824) :
    hashtable_resize mem table = some (-1, table) := by
  have hrange : ¬ (2147483648 ≤ table.multiplier * 2 ∨ table.multiplier * 2 < -2147483648
      ∨ 2147483648 ≤ table.num_buckets * 2) := by
    omega
  have hnew : new_hashtable mem ((table.num_buckets : Int) * 2) table.hash_function = none := by
    unfold new_hashtable
    split
    · rfl
    · simp only [hmem, if_true]
  unfold hashtable_resize
  dsimp only
  rw [if_neg hrange, hnew]

theorem probe_reaches (home size p : Nat) (hp : p < size) :
    ∃ j, j < size ∧ (home + j) % size = p := by
  have hr : home % size < size := Nat.mod_lt _ (by omega)
  by_cases hge : home % size ≤ p
  · refine ⟨p - home % size, by omega, ?_⟩
    rw [← Nat.mod_add_mod, show home % size + (p - home % size) = p by omega]
    exact Nat.mod_eq_of_lt hp
  · refine ⟨p + size - home % size, by omega, ?_⟩
    rw [← Nat.mod_add_mod, show home % size + (p + size - home % size) = p + size by omega,
      Nat.add_mod_right]
    exact Nat.mod_eq_of_lt hp

/-- The loop of `hashtable_insert` ends on a bucket that is not `OCCUPIED`,
unless every bucket on its way, from step `d` to step `size`, is. -/
theorem insert_probe_free (bs : List (Option tuple)) (size home : Nat)
    (hs : 0 < size) (h16 : size < 65536) :
    ∀ (fuel d idx n : Nat), d ≤ size →
      insert_probe bs size fuel ((home + d) % size) d = some (idx, n) →
      (∃ c, bucket_at bs idx = some c ∧ c.status ≠ OCCUPIED)
        ∨ (∀ j, d ≤ j → j ≤ size →
            ∃ c, bucket_at bs ((home + j) % size) = some c ∧ c.status = OCCUPIED) := by
  intro fuel
  induction fuel with
  | zero =>
    intro d idx n _ h
    simp [insert_probe] at h
  | succ fuel ih =>
    intro d idx n hd h
    unfold insert_probe at h
    split at h
    · cases h
    · next fetched hfetched =>
      split at h
      · next hocc =>
        split at h
        · next hlt =>
          rw [next_index_mod home d size hs, u16_succ_of_lt d size hlt h16] at h
          rcases ih (d + 1) idx n (by omega) h with hfree | hfull
          · exact Or.inl hfree
          · refine Or.inr ?_
            intro j hdj hjs
            by_cases hjd : j = d
            · subst hjd
              exact ⟨fetched, hfetched, hocc⟩
            · exact hfull j (by omega) hjs
        · next hge =>
          refine Or.inr ?_
          intro j hdj hjs
          have hjd : j = d := by omega
          subst hjd
          exact ⟨fetched, hfetched, hocc⟩
      · next hfree =>
        simp only [Option.some.injEq, Prod.mk.injEq] at h
        refine Or.inl ⟨fetched, ?_, hfree⟩
        rw [← h.1]
        exact hfetched

/-- The part of resize failure isolation that holds.  For every
table with valid buckets and every insert of a key not yet in the table: if
the placement raises `total_items / num_buckets` above `0.7` and `calloc` has
no memory for the resize, then `hashtable_insert` still returns `0`, the table
behind the caller's handle is the old one with the entry written into one
bucket and the count raised by one (same capacity, same array length, every
other bucket as it was), and `hashtable_get` of the key returns `0` and yields
the value.  The bucket written was not `OCCUPIED`, unless every bucket of the
table was. -/
theorem insert_survives_failed_resize (mem : allocator) (table : hashtable)
    (hash : Nat → Nat) (key value : Nat)
    (hmem : mem.succeeds = false)
    (hhash : table.hash_function = some hash) (hkey : key ≠ 0) (hvalue : value ≠ 0)
    (hsize : u16 table.num_buckets ≠ 0)
    (hlive : ∀ p, p < u16 table.num_buckets → ∃ c, bucket_at table.buckets p = some c)
    (hcap : table.num_buckets < 1073741824)
    (hlow : -1073741824 ≤ table.multiplier) (hhigh : table.multiplier < 1073741824)
    (hload : 7 * (table.num_buckets : Int) < 10 * (table.total_items + 1))
    (habsent : absent table key) :
    ∃ table1 index, hashtable_insert mem table key value = some (0, some table1)
      ∧ table1.num_buckets = table.num_buckets
      ∧ table1.buckets.length = table.buckets.length
      ∧ table1.total_items = table.total_items + 1
      ∧ bucket_at table1.buckets index = some ⟨OCCUPIED, key, value⟩
      ∧ (∀ p, p ≠ index → table1.buckets[p]? = table.buckets[p]?)
      ∧ hashtable_get table1 key = some (0, some value)
      ∧ ((∃ c, bucket_at table.buckets index = some c ∧ c.status ≠ OCCUPIED)
        ∨ ∀ p, p < u16 table.num_buckets →
            ∃ c, bucket_at table.buckets p = some c ∧ c.status = OCCUPIED) := by
  have hs : 0 < u16 table.num_buckets := Nat.pos_of_ne_zero hsize
  have h16 := u16_lt table.num_buckets
  have hhome : scaled_hash hash table.multiplier key % u16 table.num_buckets
      < u16 table.num_buckets := Nat.mod_lt _ hs
  obtain ⟨index, num_iter, hprobe, hindex⟩ :=
    insert_probe_ends table.buckets _ h16 hlive (u16 table.num_buckets + 1) _ 0 hhome
      (Nat.zero_le _) (by omega)
  have hiter : num_iter ≠ u16 table.num_buckets :=
    insert_probe_not_size table.buckets _ (scaled_hash hash table.multiplier key) hs h16 _ _ _
      hprobe
  obtain ⟨fetched, hfetched⟩ := hlive index hindex
  have hlen : index < table.buckets.length := bucket_at_lt hfetched
  have hnull : ¬ (key = 0 ∨ value = 0) := fun h => h.elim hkey hvalue
  refine ⟨{ table with
      buckets := table.buckets.set index
        (some { fetched with key := key, value := value, status := OCCUPIED })
      total_items := table.total_items + 1 }, index, ?_, rfl, ?_, rfl, ?_, ?_, ?_, ?_⟩
  · unfold hashtable_insert
    simp only [hnull, if_false, hhash, hsize, hprobe, hiter, hfetched, hload, if_true]
    have hres := resize_fails_without_memory mem
      { buckets := table.buckets.set index (some ⟨OCCUPIED, key, value⟩)
        num_buckets := table.num_buckets
        total_items := table.total_items + 1
        multiplier := table.multiplier
        hash_function := some hash } hmem hcap hlow hhigh
    rw [hres]
    simp
  · simp only [List.length_set]
  · exact bucket_at_set_self _ _ _ hlen
  · intro p hp
    simp only
    rw [List.getElem?_set_ne (Ne.symm hp)]
  · exact get_after_placement table hash key value index num_iter fetched hkey hhash hsize
      hprobe hfetched habsent
  · have hprobe0 : insert_probe table.buckets (u16 table.num_buckets)
        (u16 table.num_buckets + 1)
        ((scaled_hash hash table.multiplier key + 0) % u16 table.num_buckets) 0
        = some (index, num_iter) := hprobe
    rcases insert_probe_free table.buckets _ (scaled_hash hash table.multiplier key) hs h16
      _ 0 index num_iter (Nat.zero_le _) hprobe0 with hfree | hfull
    · exact Or.inl hfree
    · refine Or.inr ?_
      intro p hp
      obtain ⟨j, hj, hjp⟩ := probe_reaches (scaled_hash hash table.multiplier key) _ p hp
      rw [← hjp]
      exact hfull j (Nat.zero_le _) (by omega)

/-- The theorem `insert_survives_failed_resize` on the table `two_stored`: the
insert of key 3 raises the load to `3/4`, the resize finds no memory, and the
table is `three_stored`. -/
theorem insert_survives_failed_resize_witness :
    ∃ table1 index, hashtable_insert exhausted two_stored 3 30 = some (0, some table1)
      ∧ table1.num_buckets = 4
      ∧ table1.buckets.length = 4
      ∧ table1.total_items = 3
      ∧ bucket_at table1.buckets index = some ⟨OCCUPIED, 3, 30⟩
      ∧ (∀ p, p ≠ index → table1.buckets[p]? = two_stored.buckets[p]?)
      ∧ hashtable_get table1 3 = some (0, some 30)
      ∧ ((∃ c, bucket_at two_stored.buckets index = some c ∧ c.status ≠ OCCUPIED)
        ∨ ∀ p, p < 4 → ∃ c, bucket_at two_stored.buckets p = some c ∧ c.status = OCCUPIED) :=
  insert_survives_failed_resize exhausted two_stored hash_id 3 30 rfl rfl (by decide)
    (by decide) (by decide)
    (by
      intro p hp
      have hp4 : p < 4 := hp
      interval_cases p <;> exact ⟨_, rfl⟩)
    (by decide) (by decide) (by decide) (by decide) (by unfold absent; decide)

/-- Claim C12 at capacity 4 with the keys 1 and 5 stored, values 10 and 50, and
an allocator that returns `NULL`.  The call `insert(1, 99)` places its entry
in slot 3 and raises the count to 3 of 4, above `0.7`; the resize it triggers
returns `-1` and leaves the table; the insert returns `0` and the table keeps
its capacity 4.  But `hashtable_get` of key 1 yields the old value 10, not the
inserted 99: the entry of key 1 in slot 1 comes first.  At capacity 2 with
both slots taken, by the keys 2 and 1, `insert(3, 30)` likewise returns `0`
after a failed resize and keeps capacity 2, and has overwritten the entry of
key 1, which `hashtable_get` found before and no longer finds. -/
theorem failed_resize_leaves_the_old_value :
    insert_outcome (hashtable_insert exhausted two_stored 1 99)
        = some (0, some (contents stored_twice))
      ∧ contents stored_twice
        = ⟨[some ⟨2, 0, 0⟩, some ⟨3, 1, 10⟩, some ⟨3, 5, 50⟩, some ⟨3, 1, 99⟩], 4, 3, 1⟩
      ∧ 7 * (4 : Int) < 10 * 3
      ∧ (hashtable_resize exhausted stored_twice).map (fun r => (r.1, contents r.2))
        = some (-1, contents stored_twice)
      ∧ (hashtable_insert exhausted two_stored 1 99).bind
          (fun r => r.2.bind (fun table => hashtable_get table 1)) = some (0, some 10)
      ∧ full_of_two.map contents = some ⟨[some ⟨3, 2, 20⟩, some ⟨3, 1, 10⟩], 2, 2, 1⟩
      ∧ full_of_two.bind (fun table => hashtable_get table 1) = some (0, some 10)
      ∧ insert_outcome (full_of_two.bind (fun table => hashtable_insert exhausted table 3 30))
        = some (0, some ⟨[some ⟨3, 2, 20⟩, some ⟨3, 3, 30⟩], 2, 3, 1⟩)
      ∧ (full_of_two.bind (fun table => hashtable_insert exhausted table 3 30)).bind
          (fun r => r.2.bind (fun table => hashtable_get table 1)) = some (-1, none) := by
  decide

/-! ## Claim C17 -/

/-- Claim C17 on the table `two_of_four` (keys 1 and 2 in slots 1 and 2 of 4,
count 2): `hashtable_resize` returns `0` and the new table has 8 buckets,
count 2 and multiplier 2, but no `OCCUPIED` bucket at all.  The copy loop
moves bucket pointers, old slot `i` to new slot `i/2`: before the old tuples
are freed the new array holds key 1 in slot 0 and nothing else, the entry of
key 2 in old slot 2 having been overwritten by old slot 3; the free of the old
tuples then leaves new slots 0 and 1 dangling.  Key 1 would be probed from
slot 2 and key 2 from slot 4 of the new table, and `hashtable_get` finds
neither. -/
theorem resize_copies_pointers :
    two_of_four.map contents
        = some ⟨[some ⟨2, 0, 0⟩, some ⟨3, 1, 10⟩, some ⟨3, 2, 20⟩, some ⟨2, 0, 0⟩], 4, 2, 1⟩
      ∧ two_of_four.bind (fun table =>
          resize_copy table.buckets 2 4 4 0 (List.replicate 8 (some ⟨2, 0, 0⟩)))
        = some [some ⟨3, 1, 10⟩, some ⟨2, 0, 0⟩, some ⟨2, 0, 0⟩, some ⟨2, 0, 0⟩,
            some ⟨2, 0, 0⟩, some ⟨2, 0, 0⟩, some ⟨2, 0, 0⟩, some ⟨2, 0, 0⟩]
      ∧ (two_of_four.bind (fun table => hashtable_resize zeroed table)).map
          (fun r => (r.1, contents r.2))
        = some (0, ⟨[none, none, some ⟨2, 0, 0⟩, some ⟨2, 0, 0⟩, some ⟨2, 0, 0⟩,
            some ⟨2, 0, 0⟩, some ⟨2, 0, 0⟩, some ⟨2, 0, 0⟩], 8, 2, 2⟩)
      ∧ scaled_hash hash_id 2 1 % 8 = 2 ∧ scaled_hash hash_id 2 2 % 8 = 4
      ∧ (two_of_four.bind (fun table => hashtable_resize zeroed table)).bind
          (fun r => hashtable_get r.2 1) = some (-1, none)
      ∧ (two_of_four.bind (fun table => hashtable_resize zeroed table)).bind
          (fun r => hashtable_get r.2 2) = some (-1, none) := by
  decide

/-! ## Claim C18 -/

/-- The function `hashtable_insert` starts its loop at `insert_home`. -/
theorem hashtable_insert_from_home (mem : allocator) (table : hashtable) (key value : Nat) :
    hashtable_insert mem table key value =
      if key = 0 ∨ value = 0 then some (-1, some table)
      else
        match insert_home table key with
        | none => none
        | some index =>
          insert_place mem table key value
            (insert_probe table.buckets (u16 table.num_buckets) (u16 table.num_buckets + 1)
              index 0) := by
  obtain ⟨bs, nb, ti, mu, hf⟩ := table
  unfold hashtable_insert insert_home
  split
  · rfl
  · cases hf with
    | none => rfl
    | some hash =>
      dsimp only
      split
      · rfl
      · dsimp only
        cases insert_probe bs (u16 nb) (u16 nb + 1) (scaled_hash hash mu key % u16 nb) 0 with
        | none => rfl
        | some r =>
          obtain ⟨index, num_iter⟩ := r
          rfl

/-- The function `hashtable_update` starts its loop at `update_home`. -/
theorem hashtable_update_from_home (mem : allocator) (table : hashtable) (key value : Nat) :
    hashtable_update mem table key value =
      if key = 0 ∨ value = 0 then some (-1, none, table)
      else if mem.succeeds = false then some (-1, none, table)
      else
        match update_home table key with
        | none => none
        | some index =>
          update_place mem table key value
            (update_probe table.buckets (u16 table.num_buckets) key
              (u16 table.num_buckets + 1) index 0) := by
  obtain ⟨bs, nb, ti, mu, hf⟩ := table
  unfold hashtable_update update_home
  split
  · rfl
  · split
    · rfl
    · cases hf with
      | none => rfl
      | some hash =>
        dsimp only
        split
        · rfl
        · dsimp only
          cases update_probe bs (u16 nb) key (u16 nb + 1)
              (scaled_hash hash mu key % u16 nb) 0 with
          | none => rfl
          | some r =>
            cases r with
            | none => rfl
            | some index => rfl

/-- The function `hashtable_get` starts its loop at `get_home`. -/
theorem hashtable_get_from_home (table : hashtable) (key : Nat) :
    hashtable_get table key =
      if key = 0 then some (-1, none)
      else
        match get_home table key with
        | none => none
        | some index =>
          get_probe table.buckets (u16 table.num_buckets) key (u16 table.num_buckets + 1)
            index 0 := by
  obtain ⟨bs, nb, ti, mu, hf⟩ := table
  unfold hashtable_get get_home
  split
  · rfl
  · cases hf with
    | none => rfl
    | some hash =>
      dsimp only
      split <;> rfl

/-- The function `hashtable_remove` starts its loop at `remove_home`, and reads
outside the array when that index is negative. -/
theorem hashtable_remove_from_remove_home (table : hashtable) (key : Nat) :
    hashtable_remove table key =
      if key = 0 then some (-1, none, table)
      else
        match remove_home table key with
        | none => none
        | some index =>
          if index < 0 then none
          else
            match remove_probe table.buckets (u16 table.num_buckets) key
                (u16 table.num_buckets + 1) index.toNat 0 with
            | none => none
            | some none => some (-1, none, table)
            | some (some found) => remove_at table (u16 table.num_buckets) found := by
  obtain ⟨bs, nb, ti, mu, hf⟩ := table
  unfold hashtable_remove remove_home
  split
  · rfl
  · cases hf with
    | none => rfl
    | some hash =>
      dsimp only
      split <;> rfl

/-- Claim C18 as stated fails on a resized table: after `hashtable_resize` of
a fresh table of capacity 4 the capacity is 8 and the multiplier 2, and for
key 1, whose hash is 1, insert, update and get start at index 2, not at
`1 mod 8`.  (On the fresh table `high_of_four`, with a hash of `2^31 + 1`, the
`int` index of `hashtable_remove` is `-3` where the others start at 1.) -/
theorem home_index_is_scaled :
    resized_of_four.map (fun table => (table.num_buckets, table.multiplier)) = some (8, 2)
      ∧ resized_of_four.bind (fun table => insert_home table 1) = some 2
      ∧ resized_of_four.bind (fun table => update_home table 1) = some 2
      ∧ resized_of_four.bind (fun table => get_home table 1) = some 2
      ∧ ¬ (resized_of_four.bind (fun table => insert_home table 1) = some (hash_id 1 % 8))
      ∧ high_of_four.bind (fun table => insert_home table 1) = some 1
      ∧ high_of_four.bind (fun table => remove_home table 1) = some (-3) := by
  decide

/-- Claim C18, amended.  For every table with a hash function and a capacity
from 1 to 65535, and every key: `hashtable_insert`, `hashtable_update` and
`hashtable_get` start probing at the same index; that index is
`(hash_fn(key) * multiplier mod 2^32) mod capacity`, which is
`(hash_fn(key) mod 2^32) mod capacity` when the multiplier is 1, as in a
freshly created table; it lies in `[0, capacity)`; and `hashtable_remove`
starts there too when the product `hash_fn(key) * multiplier mod 2^32` is
below `2^31`. -/
theorem home_index (table : hashtable) (hash : Nat → Nat) (key : Nat)
    (hhash : table.hash_function = some hash)
    (hpos : 0 < table.num_buckets) (hcap : table.num_buckets < 65536) :
    insert_home table key
        = some (u32 (u32 (hash key) * int_to_unsigned table.multiplier) % table.num_buckets)
      ∧ update_home table key = insert_home table key
      ∧ get_home table key = insert_home table key
      ∧ u32 (u32 (hash key) * int_to_unsigned table.multiplier) % table.num_buckets
          < table.num_buckets
      ∧ (table.multiplier = 1 →
          u32 (u32 (hash key) * int_to_unsigned table.multiplier) % table.num_buckets
            = u32 (hash key) % table.num_buckets)
      ∧ (u32 (u32 (hash key) * int_to_unsigned table.multiplier) < 2147483648 →
          remove_home table key
            = some ((u32 (u32 (hash key) * int_to_unsigned table.multiplier)
                % table.num_buckets : Nat) : Int)) := by
  have hsize : u16 table.num_buckets = table.num_buckets := by
    unfold u16
    exact Nat.mod_eq_of_lt hcap
  have hne : ¬ table.num_buckets = 0 := by omega
  refine ⟨?_, rfl, rfl, Nat.mod_lt _ hpos, ?_, ?_⟩
  · unfold insert_home
    rw [hhash]
    simp only [hsize, hne, if_false, scaled_hash]
  · intro hmul
    have hone : int_to_unsigned table.multiplier = 1 := by
      rw [hmul]
      rfl
    have hsmall : u32 (u32 (hash key)) = u32 (hash key) := by
      unfold u32
      exact Nat.mod_mod _ _
    rw [hone, Nat.mul_one, hsmall]
  · intro hstart
    unfold remove_home
    rw [hhash]
    simp only [hsize, hne, if_false]
    have h := remove_start (scaled_hash hash table.multiplier key) table.num_buckets hstart
    simp only [scaled_hash] at h
    simp only [scaled_hash, h]

/-- Claim C18, amended, on the table `one_stored` (capacity 4, multiplier 1)
and key 5: all four functions start at index 1. -/
theorem home_index_witness :
    insert_home one_stored 5 = some (u32 (u32 (hash_id 5) * int_to_unsigned 1) % 4)
      ∧ update_home one_stored 5 = insert_home one_stored 5
      ∧ get_home one_stored 5 = insert_home one_stored 5
      ∧ u32 (u32 (hash_id 5) * int_to_unsigned 1) % 4 < 4
      ∧ ((1 : Int) = 1 →
          u32 (u32 (hash_id 5) * int_to_unsigned 1) % 4 = u32 (hash_id 5) % 4)
      ∧ (u32 (u32 (hash_id 5) * int_to_unsigned 1) < 2147483648 →
          remove_home one_stored 5
            = some ((u32 (u32 (hash_id 5) * int_to_unsigned 1) % 4 : Nat) : Int)) :=
  home_index one_stored hash_id 5 rfl (by decide) (by decide)

/-! ## Claims C19 and C20 -/

/-- Claim C19 at capacity 4 with a tombstone in slot 2, key 12 in the last slot
3 and slot 0 `VACANT`: `hashtable_remove(12)` returns `0` and makes slot 3
`VACANT`, but the backward step computes `0 - 2`, replaces the negative index
by `size - 1 = 3`, and so looks at slot 3 itself: the tombstone in slot 2
stays `DELETED`. -/
theorem backward_collapse_misses_the_last_slot :
    tail_pair.map contents
        = some ⟨[some ⟨2, 0, 0⟩, some ⟨2, 0, 0⟩, some ⟨3, 11, 110⟩, some ⟨3, 12, 120⟩], 4, 2, 1⟩
      ∧ tail_after_tombstone.map contents
        = some ⟨[some ⟨2, 0, 0⟩, some ⟨2, 0, 0⟩, some ⟨4, 0, 0⟩, some ⟨3, 12, 120⟩], 4, 1, 1⟩
      ∧ next_index 3 4 = 0 ∧ step_back (next_index 3 4) 4 = 3
      ∧ change_outcome (tail_after_tombstone.bind (fun table => hashtable_remove table 12))
        = some (0, some 120,
            ⟨[some ⟨2, 0, 0⟩, some ⟨2, 0, 0⟩, some ⟨4, 0, 0⟩, some ⟨2, 0, 0⟩], 4, 0, 1⟩) := by
  decide

/-- The function `new_hashtable` at size 65537. -/
theorem wide_new : new_hashtable zeroed 65537 (some hash_id) = some wide_fresh := by
  have hrep : List.replicate 65537 (some (⟨2, 0, 0⟩ : tuple))
      = some ⟨2, 0, 0⟩ :: some ⟨2, 0, 0⟩ :: wide_rest := by
    rw [show (65537 : Nat) = 65535 + 1 + 1 from rfl, List.replicate_succ, List.replicate_succ]
    rfl
  unfold wide_fresh
  rw [← hrep]
  rfl

/-- The placement of `hashtable_insert` in slot 0 of a table of capacity 65537. -/
theorem wide_place (rest : List (Option tuple)) :
    insert_place zeroed ⟨some ⟨2, 0, 0⟩ :: rest, 65537, 0, 1, some hash_id⟩ 7 70 (some (0, 0))
      = some (0, some ⟨some ⟨3, 7, 70⟩ :: rest, 65537, 1, 1, some hash_id⟩) := by
  have hload : ¬ (7 * ((65537 : Nat) : Int) < 10 * ((0 : Int) + 1)) := by decide
  have hs : ¬ (0 = u16 65537) := by decide
  have hb : bucket_at (some (⟨2, 0, 0⟩ : tuple) :: rest) 0 = some ⟨2, 0, 0⟩ := by
    simp only [bucket_at, List.getElem?_cons_zero]
  unfold insert_place
  dsimp only
  rw [if_neg hs, hb]
  dsimp only
  rw [if_neg hload]
  rfl

/-- The function `hashtable_insert` on a fresh table of capacity 65537: the
home index of key 7 is `7 mod 1 = 0`. -/
theorem wide_insert (rest : List (Option tuple)) :
    hashtable_insert zeroed ⟨some ⟨2, 0, 0⟩ :: rest, 65537, 0, 1, some hash_id⟩ 7 70
      = some (0, some ⟨some ⟨3, 7, 70⟩ :: rest, 65537, 1, 1, some hash_id⟩) := by
  have hhome : insert_home ⟨some ⟨2, 0, 0⟩ :: rest, 65537, 0, 1, some hash_id⟩ 7 = some 0 := by
    simp [insert_home, u16, scaled_hash, u32, hash_id, int_to_unsigned]
  have hs : u16 65537 = 1 := by decide
  have hprobe : insert_probe (some (⟨2, 0, 0⟩ : tuple) :: rest) 1 2 0 0 = some (0, 0) := by
    simp [insert_probe, bucket_at, OCCUPIED]
  rw [hashtable_insert_from_home, if_neg (by decide), hhome]
  dsimp only
  rw [hs, hprobe]
  exact wide_place rest

/-- The function `hashtable_remove` of the key in slot 0 of a table of capacity
65537: the slot is left `DELETED`. -/
theorem wide_remove (rest : List (Option tuple)) :
    hashtable_remove ⟨some ⟨3, 7, 70⟩ :: rest, 65537, 1, 1, some hash_id⟩ 7
      = some (0, some 70, ⟨some ⟨4, 0, 0⟩ :: rest, 65537, 0, 1, some hash_id⟩) := by
  simp [hashtable_remove, remove_probe, remove_at, bucket_at, u16, OCCUPIED, VACANT, DELETED,
    scaled_hash, u32, hash_id, int_to_unsigned, unsigned_to_int, next_index]

/-- Claim C20 at capacity 65537: the functions keep the capacity in an
`unsigned short`, here 1, so `insert(7, 70)` stores key 7 in slot 0 and
`hashtable_remove(7)` wraps from slot 0 to slot 0.  It returns `0` and yields
70, but it finds the slot it has just marked `DELETED` where the claim has slot
`(0 + 1) mod 65537 = 1`, which is `VACANT`: slot 0 ends `DELETED`, not `VACANT`
(table `wide_tombstone`). -/
theorem forward_collapse_wraps_at_sixteen_bits :
    new_hashtable zeroed 65537 (some hash_id) = some wide_fresh
      ∧ hashtable_insert zeroed wide_fresh 7 70 = some (0, some wide_table)
      ∧ u16 65537 = 1 ∧ (0 + 1) % 65537 = 1 ∧ next_index 0 (u16 65537) = 0
      ∧ hashtable_remove wide_table 7 = some (0, some 70, wide_tombstone) :=
  ⟨wide_new, wide_insert _, by decide, by decide, by decide, wide_remove _⟩

/-- Where the backward step of `hashtable_remove` lands: on the slot before
`found`, wrapping from slot 0 to the last one, unless `found` is the last slot,
in which case it lands on `found` itself. -/
theorem step_back_position (found size : Nat) (hfound : found < size) :
    (found + 1 ≠ size →
        (step_back (next_index found size) size).toNat = (found + size - 1) % size)
      ∧ (found + 1 = size → (step_back (next_index found size) size).toNat = found) := by
  have hprev : found + 1 ≠ size → (found + size - 1) % size
      = if found = 0 then size - 1 else found - 1 := by
    intro _
    split
    · next h0 =>
      rw [h0, Nat.zero_add]
      exact Nat.mod_eq_of_lt (by omega)
    · next h0 =>
      have hsum : found + size - 1 = found - 1 + size := by omega
      rw [hsum, Nat.add_mod_right]
      exact Nat.mod_eq_of_lt (by omega)
  constructor
  · intro hlast
    rw [hprev hlast]
    unfold step_back next_index
    dsimp only
    split_ifs <;> omega
  · intro hlast
    unfold step_back next_index
    dsimp only
    split_ifs <;> omega

/-- What the removal at a matching bucket `found` leaves behind, bucket by
bucket.  It returns `0`, yields the stored value and lowers the count by one.
If the bucket after `found` is another bucket and is `VACANT`, then `found`
ends `VACANT` with key and value cleared, a `DELETED` bucket just before
`found` ends `VACANT` too unless `found` is the last of the `size` buckets, and
no other bucket changes.  Otherwise `found` ends `DELETED` with key and value
cleared and no other bucket changes. -/
theorem remove_at_cells (table table1 : hashtable) (size found : Nat) (ret : Int)
    (old : Option Nat) (f : tuple) (hfound : found < size)
    (hf : bucket_at table.buckets found = some f)
    (h : remove_at table size found = some (ret, old, table1)) :
    ret = 0 ∧ old = some f.value ∧ table1.total_items = table.total_items - 1
      ∧ (∀ following, next_index found size ≠ found →
          bucket_at table.buckets (next_index found size) = some following →
          following.status = VACANT →
          bucket_at table1.buckets found = some ⟨VACANT, 0, 0⟩
            ∧ (∀ previous, found + 1 ≠ size →
                bucket_at table.buckets ((found + size - 1) % size) = some previous →
                previous.status = DELETED →
                bucket_at table1.buckets ((found + size - 1) % size)
                  = some { previous with status := VACANT })
            ∧ (∀ q, q ≠ found → q ≠ (found + size - 1) % size →
                bucket_at table1.buckets q = bucket_at table.buckets q)
            ∧ (found + 1 = size →
                ∀ q, q ≠ found → bucket_at table1.buckets q = bucket_at table.buckets q))
      ∧ ((next_index found size = found
            ∨ ∃ following, bucket_at table.buckets (next_index found size) = some following
                ∧ following.status ≠ VACANT) →
          bucket_at table1.buckets found = some ⟨DELETED, 0, 0⟩
            ∧ ∀ q, q ≠ found → bucket_at table1.buckets q = bucket_at table.buckets q) := by
  have hlen : found < table.buckets.length := bucket_at_lt hf
  have hdv : DELETED ≠ VACANT := by decide
  have hmarked : ∀ p, bucket_at
      (table.buckets.set found (some { f with key := 0, value := 0, status := DELETED })) p
      = if p = found then some { f with key := 0, value := 0, status := DELETED }
        else bucket_at table.buckets p :=
    fun p => bucket_at_set _ _ _ _ hlen
  have hvacated : ∀ p, bucket_at
      ((table.buckets.set found (some { f with key := 0, value := 0, status := DELETED })).set
        found (some { f with key := 0, value := 0, status := VACANT })) p
      = if p = found then some { f with key := 0, value := 0, status := VACANT }
        else bucket_at table.buckets p := by
    intro p
    rw [bucket_at_set _ _ _ _ (by rw [List.length_set]; exact hlen), hmarked]
    split <;> rfl
  obtain ⟨hinside, hlast⟩ := step_back_position found size hfound
  unfold remove_at at h
  rw [hf] at h
  dsimp only at h
  rw [hmarked] at h
  by_cases heq : next_index found size = found
  · -- the bucket after `found` is `found` itself, just marked `DELETED`
    rw [if_pos heq] at h
    dsimp only at h
    rw [if_neg hdv] at h
    simp only [Option.some.injEq, Prod.mk.injEq] at h
    obtain ⟨h1, h2, rfl⟩ := h
    refine ⟨h1.symm, h2.symm, rfl, ?_, ?_⟩
    · intro following hne _ _
      exact absurd heq hne
    · intro _
      dsimp only
      refine ⟨by rw [hmarked, if_pos rfl], ?_⟩
      intro q hq
      rw [hmarked, if_neg hq]
  · rw [if_neg heq] at h
    cases hnext : bucket_at table.buckets (next_index found size) with
    | none =>
      rw [hnext] at h
      cases h
    | some c2 =>
      rw [hnext] at h
      dsimp only at h
      by_cases hvac : c2.status = VACANT
      · rw [if_pos hvac] at h
        split at h
        · cases h
        · next hback =>
          rw [hvacated] at h
          by_cases hself : (step_back (next_index found size) size).toNat = found
          · rw [if_pos hself] at h
            dsimp only at h
            rw [if_neg (fun hx => hdv hx.symm)] at h
            simp only [Option.some.injEq, Prod.mk.injEq] at h
            obtain ⟨h1, h2, rfl⟩ := h
            refine ⟨h1.symm, h2.symm, rfl, ?_, ?_⟩
            · intro following _ _ _
              dsimp only
              refine ⟨by rw [hvacated, if_pos rfl], ?_, ?_, ?_⟩
              · intro previous hnotlast hprev hprevdel
                have hpos := hinside hnotlast
                rw [← hpos, hself, hf] at hprev
                rw [← hpos, hself, hvacated, if_pos rfl]
                cases hprev
                exact absurd heq (by
                  intro _
                  have := hinside hnotlast
                  unfold step_back next_index at hself
                  dsimp only at hself
                  split_ifs at hself <;> omega)
              · intro q hq _
                rw [hvacated, if_neg hq]
              · intro _ q hq
                rw [hvacated, if_neg hq]
            · rintro (hx | ⟨following, hfol, hfs⟩)
              · exact absurd hx heq
              · cases hfol
                exact absurd hvac hfs
          · rw [if_neg hself] at h
            have hnotlast : found + 1 ≠ size := fun hx => hself (hlast hx)
            have hpos := hinside hnotlast
            cases hprev0 : bucket_at table.buckets (step_back (next_index found size) size).toNat with
            | none =>
              rw [hprev0] at h
              cases h
            | some c3 =>
              rw [hprev0] at h
              dsimp only at h
              have hlen3 : (step_back (next_index found size) size).toNat
                  < ((table.buckets.set found
                      (some { f with key := 0, value := 0, status := DELETED })).set
                    found (some { f with key := 0, value := 0, status := VACANT })).length := by
                rw [List.length_set, List.length_set]
                exact bucket_at_lt hprev0
              simp only [Option.some.injEq, Prod.mk.injEq] at h
              obtain ⟨h1, h2, rfl⟩ := h
              refine ⟨h1.symm, h2.symm, rfl, ?_, ?_⟩
              · intro following _ _ _
                dsimp only
                by_cases hdel : c3.status = DELETED
                · rw [if_pos hdel]
                  refine ⟨?_, ?_, ?_, ?_⟩
                  · rw [bucket_at_set _ _ _ _ hlen3, if_neg (Ne.symm hself), hvacated,
                      if_pos rfl]
                  · intro previous _ hprev _
                    rw [← hpos] at hprev ⊢
                    rw [hprev0] at hprev
                    cases hprev
                    rw [bucket_at_set _ _ _ _ hlen3, if_pos rfl]
                  · intro q hq hq3
                    rw [← hpos] at hq3
                    rw [bucket_at_set _ _ _ _ hlen3, if_neg hq3, hvacated, if_neg hq]
                  · intro hx
                    exact absurd hx hnotlast
                · rw [if_neg hdel]
                  refine ⟨?_, ?_, ?_, ?_⟩
                  · rw [hvacated, if_pos rfl]
                  · intro previous _ hprev hprevdel
                    rw [← hpos] at hprev
                    rw [hprev0] at hprev
                    cases hprev
                    exact absurd hprevdel hdel
                  · intro q hq _
                    rw [hvacated, if_neg hq]
                  · intro hx
                    exact absurd hx hnotlast
              · rintro (hx | ⟨following, hfol, hfs⟩)
                · exact absurd hx heq
                · cases hfol
                  exact absurd hvac hfs
      · rw [if_neg hvac] at h
        simp only [Option.some.injEq, Prod.mk.injEq] at h
        obtain ⟨h1, h2, rfl⟩ := h
        refine ⟨h1.symm, h2.symm, rfl, ?_, ?_⟩
        · intro following _ hfol hfs
          cases hfol
          exact absurd hfs hvac
        · intro _
          dsimp only
          refine ⟨by rw [hmarked, if_pos rfl], ?_⟩
          intro q hq
          rw [hmarked, if_neg hq]

/-- The tombstone collapse of a successful `hashtable_remove`, in the terms of
the code: `size` is the capacity as an `unsigned short` and the slot after `i`
is `next_index i size`.  The key was stored in an `OCCUPIED` slot `i < size`
and its value is handed back.  If the slot after `i` is another slot and is
`VACANT`, slot `i` ends `VACANT`, a `DELETED` slot `(i + size - 1) mod size`
ends `VACANT` unless `i` is the last slot `size - 1`, and no other slot
changes; otherwise slot `i` ends `DELETED` and no other slot changes.  In both
cases key and value of slot `i` are cleared and the count drops by one. -/
theorem collapse_after_remove (table table1 : hashtable) (key : Nat) (old : Option Nat)
    (h : hashtable_remove table key = some (0, old, table1)) :
    ∃ i f, i < u16 table.num_buckets ∧ bucket_at table.buckets i = some f
      ∧ f.status = OCCUPIED ∧ f.key = key ∧ old = some f.value
      ∧ table1.total_items = table.total_items - 1
      ∧ (∀ following, next_index i (u16 table.num_buckets) ≠ i →
          bucket_at table.buckets (next_index i (u16 table.num_buckets)) = some following →
          following.status = VACANT →
          bucket_at table1.buckets i = some ⟨VACANT, 0, 0⟩
            ∧ (∀ previous, i + 1 ≠ u16 table.num_buckets →
                bucket_at table.buckets
                  ((i + u16 table.num_buckets - 1) % u16 table.num_buckets) = some previous →
                previous.status = DELETED →
                bucket_at table1.buckets
                  ((i + u16 table.num_buckets - 1) % u16 table.num_buckets)
                  = some { previous with status := VACANT })
            ∧ (∀ q, q ≠ i → q ≠ (i + u16 table.num_buckets - 1) % u16 table.num_buckets →
                bucket_at table1.buckets q = bucket_at table.buckets q)
            ∧ (i + 1 = u16 table.num_buckets →
                ∀ q, q ≠ i → bucket_at table1.buckets q = bucket_at table.buckets q))
      ∧ ((next_index i (u16 table.num_buckets) = i
            ∨ ∃ following,
                bucket_at table.buckets (next_index i (u16 table.num_buckets)) = some following
                ∧ following.status ≠ VACANT) →
          bucket_at table1.buckets i = some ⟨DELETED, 0, 0⟩
            ∧ ∀ q, q ≠ i → bucket_at table1.buckets q = bucket_at table.buckets q) := by
  rcases remove_returns table table1 key 0 old h with
    ⟨hret, _, _⟩ | ⟨found, _, hfound, ⟨f, hf, hfs, hfk⟩, hat⟩
  · exact absurd hret (by decide)
  · obtain ⟨_, hold, hcount, hvacant, hdeleted⟩ :=
      remove_at_cells table table1 (u16 table.num_buckets) found 0 old f hfound hf hat
    exact ⟨found, f, hfound, hf, hfs, hfk, hold, hcount, hvacant, hdeleted⟩

/-! ## Queue: the heap and the linked nodes -/

theorem heap_write_same (h : node_heap) (a : Nat) (v : Option node) :
    heap_write h a v a = v := by
  simp [heap_write]

theorem heap_write_other (h : node_heap) (a b : Nat) (v : Option node) (hne : b ≠ a) :
    heap_write h a v b = h b := by
  simp [heap_write, hne]

theorem store_some (h : node_heap) (a : Nat) (f : node → node) (x : node) (ha : a ≠ 0)
    (hx : h a = some x) : store h a f = some (heap_write h a (some (f x))) := by
  simp [store, load, ha, hx]

theorem first_addr_mem (es : List entry) (hne : es ≠ []) :
    first_addr es ∈ es.map entry.addr := by
  cases es with
  | nil => exact absurd rfl hne
  | cons e rest => simp [first_addr]

theorem last_or_mem : ∀ (es : List entry) (p : Nat), es ≠ [] →
    last_or p es ∈ es.map entry.addr
  | [], _, hne => absurd rfl hne
  | [e], _, _ => by simp [last_or]
  | e :: e2 :: rest, _, _ => by
    have := last_or_mem (e2 :: rest) e.addr (by simp)
    simp only [last_or, List.map_cons, List.mem_cons] at this ⊢
    exact Or.inr this

theorem last_or_append : ∀ (es1 es2 : List entry) (p : Nat),
    last_or p (es1 ++ es2) = last_or (last_or p es1) es2
  | [], _, _ => rfl
  | e :: rest, es2, _ => by
    simp only [List.cons_append, last_or]
    exact last_or_append rest es2 e.addr

theorem last_or_cons_ne (e : entry) (rest : List entry) (p p2 : Nat) (hne : rest ≠ []) :
    last_or p (e :: rest) = last_or p2 rest := by
  cases rest with
  | nil => exact absurd rfl hne
  | cons e2 r => rfl

theorem first_addr_append (es1 es2 : List entry) (hne : es1 ≠ []) :
    first_addr (es1 ++ es2) = first_addr es1 := by
  cases es1 with
  | nil => exact absurd rfl hne
  | cons e rest => rfl

theorem linked_congr (h h1 : node_heap) : ∀ (es : List entry) (prev : Nat),
    (∀ a ∈ es.map entry.addr, h1 a = h a) → linked h prev es → linked h1 prev es
  | [], _, _, _ => trivial
  | e :: rest, _, hsame, hl => by
    obtain ⟨h0, hn, hrest⟩ := hl
    refine ⟨h0, ?_, linked_congr h h1 rest e.addr ?_ hrest⟩
    · rw [hsame e.addr (by simp), hn]
    · intro a ha
      exact hsame a (by simp only [List.map_cons, List.mem_cons]; exact Or.inr ha)

theorem linked_some (h : node_heap) : ∀ (es : List entry) (prev : Nat),
    linked h prev es → ∀ a ∈ es.map entry.addr, a ≠ 0 ∧ ∃ x, h a = some x
  | [], _, _, a, ha => by simp at ha
  | e :: rest, _, hl, a, ha => by
    obtain ⟨h0, hn, hrest⟩ := hl
    simp only [List.map_cons, List.mem_cons] at ha
    rcases ha with ha | ha
    · subst ha
      exact ⟨h0, _, hn⟩
    · exact linked_some h rest e.addr hrest a ha

theorem linked_first (h : node_heap) (es : List entry) (prev : Nat) (hne : es ≠ [])
    (hl : linked h prev es) :
    first_addr es ≠ 0 ∧ ∃ e rest, es = e :: rest
      ∧ h (first_addr es) = some ⟨first_addr rest, prev, e.datum, e.pri⟩ := by
  cases es with
  | nil => exact absurd rfl hne
  | cons e rest => exact ⟨hl.1, e, rest, rfl, hl.2.1⟩

/-- Linking a new node at address `n` between the nodes `es1` and the nodes
`es2`: the node before it, if any, points on to it, the node after it, if any,
points back to it, and no other node changes. -/
theorem linked_splice (h h1 : node_heap) (n item : Nat) (pri : Int) (es2 : List entry) :
    ∀ (es1 : List entry) (prev : Nat),
      linked h prev (es1 ++ es2) →
      ((es1 ++ es2).map entry.addr).Nodup →
      n ≠ 0 →
      prev ∉ (es1 ++ es2).map entry.addr →
      h1 n = some ⟨first_addr es2, last_or prev es1, item, pri⟩ →
      (∀ x, es1 ≠ [] → h (last_or prev es1) = some x →
        h1 (last_or prev es1) = some { x with next := n }) →
      (∀ x, es2 ≠ [] → h (first_addr es2) = some x →
        h1 (first_addr es2) = some { x with prev := n }) →
      (∀ a ∈ (es1 ++ es2).map entry.addr, a ≠ last_or prev es1 → a ≠ first_addr es2 →
        h1 a = h a) →
      linked h1 prev (es1 ++ ⟨n, item, pri⟩ :: es2)
  | [], prev, hl, hnd, hn0, hprev, hn, _, hc, hframe => by
    simp only [List.nil_append, last_or] at *
    refine ⟨hn0, hn, ?_⟩
    cases es2 with
    | nil => trivial
    | cons c r =>
      obtain ⟨hc0, hcn, hrest⟩ := hl
      refine ⟨hc0, ?_, ?_⟩
      · have := hc _ (by simp) hcn
        simpa [first_addr] using this
      · apply linked_congr h h1 r c.addr _ hrest
        intro a ha
        have hnd2 := hnd
        simp only [List.map_cons, List.nodup_cons] at hnd2
        apply hframe a (by simp only [List.map_cons, List.mem_cons]; exact Or.inr ha)
        · intro hap
          apply hprev
          rw [← hap]
          simp only [List.map_cons, List.mem_cons]; exact Or.inr ha
        · intro hac
          simp only [first_addr] at hac
          rw [hac] at ha
          exact hnd2.1 ha
  | e :: r1, prev, hl, hnd, hn0, _, hn, hp, hc, hframe => by
    simp only [List.cons_append] at hl hnd hframe ⊢
    obtain ⟨he0, hen, hrest⟩ := hl
    have hnd2 := hnd
    simp only [List.map_cons, List.nodup_cons] at hnd2
    refine ⟨he0, ?_, ?_⟩
    · cases r1 with
      | nil =>
        have := hp _ (by simp) (by simpa [last_or] using hen)
        simpa [last_or, first_addr] using this
      | cons e2 r =>
        have hsame : h1 e.addr = h e.addr := by
          apply hframe e.addr (by simp)
          · intro heq
            apply hnd2.1
            rw [heq]
            have := last_or_mem (e2 :: r) e.addr (by simp)
            simp only [last_or, List.cons_append, List.map_cons, List.map_append,
              List.mem_cons, List.mem_append] at this ⊢
            rcases this with this | this
            · exact Or.inl this
            · exact Or.inr (Or.inl this)
          · intro heq
            by_cases hes2 : es2 = []
            · subst hes2
              exact he0 heq
            · apply hnd2.1
              rw [heq]
              have := first_addr_mem es2 hes2
              simp only [List.map_append, List.mem_append]
              exact Or.inr this
        rw [hsame, hen]
        rfl
    · apply linked_splice h h1 n item pri es2 r1 e.addr hrest hnd2.2 hn0 hnd2.1
      · simpa [last_or] using hn
      · intro x hne hx
        have := hp x (by simp) (by simpa [last_or] using hx)
        simpa [last_or] using this
      · exact hc
      · intro a ha h1 h2
        exact hframe a (by simp only [List.map_cons, List.mem_cons]; exact Or.inr ha)
          (by simpa [last_or] using h1) h2

theorem is_queue_tail (h : node_heap) (q : queue) (es : List entry) (hq : is_queue h q es)
    (hne : es ≠ []) :
    q.tail = last_or 0 es ∧ q.tail ≠ 0 ∧ q.tail ∈ es.map entry.addr ∧ ∃ x, h q.tail = some x := by
  obtain ⟨_, hht, hl, _⟩ := hq
  have ht := (hht hne).2
  have hmem := last_or_mem es 0 hne
  rw [← ht] at hmem
  have := linked_some h es 0 hl _ hmem
  exact ⟨ht, this.1, hmem, this.2⟩

theorem queue_append_empty (n : block) (h : node_heap) (q : queue) (item : Nat)
    (hn0 : n.addr ≠ 0) (hsize : q.size = 0) :
    ∃ h1, queue_append n h q item = some (0, h1, { size := 1, head := n.addr, tail := n.addr })
      ∧ h1 n.addr = some ⟨0, 0, item, 0⟩ ∧ ∀ a, a ≠ n.addr → h1 a = h a := by
  unfold queue_append
  simp [hn0, store, load, heap_write, int_succ, hsize]
  intro a ha
  simp [ha]

theorem queue_append_more (n : block) (h : node_heap) (q : queue) (item : Nat) (x : node)
    (hn0 : n.addr ≠ 0) (hsize : q.size ≠ 0) (hmax : q.size < 2147483647)
    (ht0 : q.tail ≠ 0) (htn : q.tail ≠ n.addr) (hx : h q.tail = some x) :
    ∃ h1, queue_append n h q item
        = some (0, h1, { size := q.size + 1, head := q.head, tail := n.addr })
      ∧ h1 n.addr = some ⟨0, q.tail, item, 0⟩
      ∧ h1 q.tail = some { x with next := n.addr }
      ∧ ∀ a, a ≠ n.addr → a ≠ q.tail → h1 a = h a := by
  unfold queue_append
  simp [hn0, store, load, heap_write, int_succ, hsize, hmax, ht0, htn, htn.symm, hx]
  intro a ha hb
  simp [ha, hb]

theorem linked_zero_not_mem (h : node_heap) (es : List entry) (prev : Nat)
    (hl : linked h prev es) : 0 ∉ es.map entry.addr :=
  fun hmem => (linked_some h es prev hl 0 hmem).1 rfl

theorem fresh_not_mem (h : node_heap) (es : List entry) (prev n : Nat)
    (hl : linked h prev es) (hfresh : h n = none) : n ∉ es.map entry.addr := by
  intro hmem
  obtain ⟨_, x, hx⟩ := linked_some h es prev hl n hmem
  rw [hfresh] at hx
  exact Option.noConfusion hx

/-- An append links the new node after the last one. -/
theorem queue_append_spec (n : block) (h : node_heap) (q : queue) (item : Nat)
    (es : List entry) (hq : is_queue h q es) (hn0 : n.addr ≠ 0) (hfresh : h n.addr = none)
    (hmax : es.length < 2147483647) :
    ∃ h1 q1, queue_append n h q item = some (0, h1, q1)
      ∧ is_queue h1 q1 (es ++ [⟨n.addr, item, 0⟩])
      ∧ (∀ a, a ≠ n.addr → a ∉ es.map entry.addr → h1 a = h a) := by
  have hnmem := fresh_not_mem h es 0 n.addr hq.2.2.1 hfresh
  by_cases hne : es = []
  · subst hne
    have hsize : q.size = 0 := by simpa using hq.1
    obtain ⟨h1, hrun, hnode, hframe⟩ := queue_append_empty n h q item hn0 hsize
    refine ⟨h1, _, hrun, ⟨by simp, fun _ => ⟨rfl, rfl⟩, ⟨hn0, hnode, trivial⟩, by simp⟩, ?_⟩
    intro a ha _
    exact hframe a ha
  · obtain ⟨hsize, hht, hl, hnd⟩ := hq
    obtain ⟨ht, ht0, htmem, x, hx⟩ := is_queue_tail h q es ⟨hsize, hht, hl, hnd⟩ hne
    have htn : q.tail ≠ n.addr := fun heq => hnmem (heq ▸ htmem)
    have hlen : 0 < es.length := List.length_pos.mpr hne
    obtain ⟨h1, hrun, hnode, htail, hframe⟩ := queue_append_more n h q item x hn0
      (by omega) (by omega) ht0 htn hx
    refine ⟨h1, _, hrun, ⟨?_, ?_, ?_, ?_⟩, ?_⟩
    · simp only [List.length_append, List.length_singleton]
      rw [hsize]
      push_cast
      rfl
    · intro _
      refine ⟨?_, ?_⟩
      · rw [first_addr_append es _ hne]
        exact (hht hne).1
      · rw [last_or_append]
        rfl
    · apply linked_splice h h1 n.addr item 0 [] es 0
      · simpa using hl
      · simpa using hnd
      · exact hn0
      · simpa using linked_zero_not_mem h es 0 hl
      · rw [← ht]
        exact hnode
      · intro y _ hy
        rw [← ht] at hy ⊢
        rw [hx] at hy
        cases hy
        exact htail
      · intro y hnil
        exact absurd rfl hnil
      · intro a ha hlast _
        apply hframe a
        · intro heq
          apply hnmem
          rw [← heq]
          simpa using ha
        · rw [ht]
          exact hlast
    · rw [List.map_append, List.nodup_append]
      refine ⟨hnd, by simp, ?_⟩
      intro a ha hb
      simp only [List.map_cons, List.map_nil, List.mem_singleton] at hb
      exact hnmem (hb ▸ ha)
    · intro a ha hmem
      exact hframe a ha (fun heq => hmem (heq ▸ htmem))

theorem queue_dequeue_none (h : node_heap) (q : queue) (hq : is_queue h q []) :
    queue_dequeue h q = some (-1, 0, h, q) := by
  have hsize : q.size = 0 := by simpa using hq.1
  simp [queue_dequeue, hsize]

theorem queue_dequeue_one (h : node_heap) (q : queue) (x : node) (hsize : q.size = 1)
    (h0 : q.head ≠ 0) (hx : h q.head = some x) :
    queue_dequeue h q
      = some (0, x.datum, heap_write h q.head none, { size := 0, head := 0, tail := 0 }) := by
  simp [queue_dequeue, hsize, load, free, h0, hx]

theorem queue_dequeue_more (h : node_heap) (q : queue) (x y : node) (hsize : 1 < q.size)
    (h0 : q.head ≠ 0) (hx : h q.head = some x) (hn0 : x.next ≠ 0) (hne : x.next ≠ q.head)
    (hy : h x.next = some y) (hprev : y.prev = q.head) :
    queue_dequeue h q
      = some (0, x.datum,
          heap_write (heap_write h q.head none) x.next (some { y with prev := 0 }),
          { size := q.size - 1, head := x.next, tail := q.tail }) := by
  have hpos : 0 < q.size := by omega
  simp [queue_dequeue, hsize, hpos, load, free, store, heap_write, h0, hx, hn0, hne, hy, hprev]

/-- A dequeue yields the item of the first node and unlinks that node. -/
theorem queue_dequeue_spec (h : node_heap) (q : queue) (e : entry) (es : List entry)
    (hq : is_queue h q (e :: es)) :
    ∃ h1 q1, queue_dequeue h q = some (0, e.datum, h1, q1)
      ∧ is_queue h1 q1 es
      ∧ (∀ a, a ∉ (e :: es).map entry.addr → h1 a = h a) := by
  obtain ⟨hsize, hht, ⟨he0, hen, hrest⟩, hnd⟩ := hq
  obtain ⟨hhead, htail⟩ := hht (by simp)
  simp only [first_addr] at hhead
  simp only [List.map_cons, List.nodup_cons] at hnd
  cases es with
  | nil =>
    refine ⟨_, _, queue_dequeue_one h q _ (by simpa using hsize) (hhead ▸ he0)
      (by rw [hhead]; exact hen), ⟨rfl, fun hne => absurd rfl hne, trivial, by simp⟩, ?_⟩
    intro a ha
    simp only [List.map_cons, List.map_nil, List.mem_singleton] at ha
    rw [hhead]
    exact heap_write_other h e.addr a none ha
  | cons e2 rest =>
    obtain ⟨he20, he2n, hrest2⟩ := hrest
    have hne : e2.addr ≠ e.addr := by
      intro heq
      apply hnd.1
      rw [← heq]
      simp
    have hnd2 := hnd.2
    simp only [List.map_cons, List.nodup_cons] at hnd2
    have hrun := queue_dequeue_more h q _ _ (by simp at hsize; omega) (hhead ▸ he0)
      (by rw [hhead]; exact hen) he20 (by rw [hhead]; exact hne) he2n hhead.symm
    simp only [first_addr] at hrun
    refine ⟨_, _, hrun, ⟨?_, ?_, ⟨he20, ?_, ?_⟩, hnd.2⟩, ?_⟩
    · simp only [List.length_cons] at hsize ⊢
      rw [hsize]
      push_cast
      ring
    · intro _
      exact ⟨rfl, htail⟩
    · rw [heap_write_same]
      rfl
    · apply linked_congr h _ rest e2.addr _ hrest2
      intro a ha
      rw [heap_write_other, heap_write_other]
      · rw [hhead]
        intro heq
        apply hnd.1
        rw [← heq]
        simp only [List.map_cons, List.mem_cons]
        exact Or.inr ha
      · intro heq
        exact hnd2.1 (heq ▸ ha)
    · intro a ha
      simp only [List.map_cons, List.mem_cons, not_or] at ha
      rw [heap_write_other _ _ _ _ ha.2.1, hhead, heap_write_other _ _ _ _ ha.1]

/-! ## Claim C13 -/

theorem append_all_spec : ∀ (calls : List (block × Nat)) (h : node_heap) (q : queue)
    (es : List entry), is_queue h q es → es.length + calls.length ≤ 2147483647 →
    (∀ c ∈ calls, c.1.addr ≠ 0) → (∀ c ∈ calls, h c.1.addr = none) →
    (calls.map (fun c => c.1.addr)).Nodup →
    ∃ h1 q1, append_all calls h q = some (List.replicate calls.length 0, h1, q1)
      ∧ is_queue h1 q1 (es ++ calls.map (fun c => ⟨c.1.addr, c.2, 0⟩))
  | [], h, q, es, hq, _, _, _, _ => ⟨h, q, rfl, by simpa using hq⟩
  | (n, item) :: rest, h, q, es, hq, hmax, hnull, hfresh, hnd => by
    simp only [List.length_cons] at hmax
    simp only [List.map_cons, List.nodup_cons] at hnd
    obtain ⟨h1, q1, hrun, hq1, hframe⟩ := queue_append_spec n h q item es hq
      (hnull (n, item) (by simp)) (hfresh (n, item) (by simp)) (by omega)
    obtain ⟨h2, q2, hrun2, hq2⟩ := append_all_spec rest h1 q1 (es ++ [⟨n.addr, item, 0⟩]) hq1
      (by simp only [List.length_append, List.length_singleton]; omega)
      (fun c hc => hnull c (by simp only [List.mem_cons]; exact Or.inr hc))
      (by
        intro c hc
        have hc0 := hfresh c (by simp only [List.mem_cons]; exact Or.inr hc)
        rw [hframe c.1.addr ?_ (fresh_not_mem h es 0 _ hq.2.2.1 hc0)]
        · exact hc0
        · intro heq
          apply hnd.1
          rw [← heq]
          exact List.mem_map_of_mem (fun c : block × Nat => c.1.addr) hc)
      hnd.2
    refine ⟨h2, q2, ?_, ?_⟩
    · simp only [append_all, hrun, hrun2, List.length_cons, List.replicate_succ]
    · simpa using hq2

theorem dequeue_all_spec : ∀ (es1 : List entry) (h : node_heap) (q : queue)
    (es2 : List entry), is_queue h q (es1 ++ es2) →
    ∃ h1 q1, dequeue_all es1.length h q = some (es1.map (fun e => (0, e.datum)), h1, q1)
      ∧ is_queue h1 q1 es2
  | [], h, q, es2, hq => ⟨h, q, rfl, hq⟩
  | e :: rest, h, q, es2, hq => by
    obtain ⟨h1, q1, hrun, hq1, _⟩ := queue_dequeue_spec h q e (rest ++ es2) hq
    obtain ⟨h2, q2, hrun2, hq2⟩ := dequeue_all_spec rest h1 q1 es2 hq1
    refine ⟨h2, q2, ?_, hq2⟩
    simp only [dequeue_all, List.length_cons, hrun, hrun2, List.map_cons]

/-- Claim C13: the queue is first in, first out.  Starting from an empty queue,
let the items of `calls` be appended in turn, each call being given a fresh
node by `malloc` (non-null, not in use, different from the others), not more
than `INT_MAX` of them.  Then every `queue_append` returns `0` and
`queue_length` is the number of items; as many calls of `queue_dequeue` as
there are items return `0` and yield the items in the order of their
appending; after them `queue_length` is `0`, and one more `queue_dequeue`
returns `-1` and yields `NULL`. -/
theorem queue_is_fifo (h : node_heap) (q : queue) (calls : List (block × Nat))
    (hempty : queue_length q = 0)
    (hmax : calls.length ≤ 2147483647)
    (hnull : ∀ c ∈ calls, c.1.addr ≠ 0)
    (hfresh : ∀ c ∈ calls, h c.1.addr = none)
    (hdistinct : (calls.map (fun c => c.1.addr)).Nodup) :
    ∃ h1 q1 h2 q2,
      append_all calls h q = some (List.replicate calls.length 0, h1, q1)
        ∧ queue_length q1 = calls.length
        ∧ dequeue_all calls.length h1 q1 = some (calls.map (fun c => (0, c.2)), h2, q2)
        ∧ queue_length q2 = 0
        ∧ queue_dequeue h2 q2 = some (-1, 0, h2, q2) := by
  have hq : is_queue h q [] :=
    ⟨by simpa [queue_length] using hempty, fun hne => absurd rfl hne, trivial, by simp⟩
  obtain ⟨h1, q1, hrun, hq1⟩ := append_all_spec calls h q [] hq (by simpa using hmax)
    hnull hfresh hdistinct
  simp only [List.nil_append] at hq1
  have hq1b : is_queue h1 q1 (calls.map (fun c => (⟨c.1.addr, c.2, 0⟩ : entry)) ++ []) := by
    simpa using hq1
  obtain ⟨h2, q2, hrun2, hq2⟩ := dequeue_all_spec _ h1 q1 [] hq1b
  refine ⟨h1, q1, h2, q2, hrun, ?_, ?_, ?_, queue_dequeue_none h2 q2 hq2⟩
  · simpa [queue_length] using hq1.1
  · simpa [List.map_map, Function.comp_def] using hrun2
  · simpa [queue_length] using hq2.1

/-- Claim C13 on the items 10, 20, 30 appended to a new queue, with nodes at
the addresses 1, 2, 3. -/
theorem queue_is_fifo_witness :
    ∃ h1 q1 h2 q2,
      append_all three_calls (fun _ => none) queue_new = some ([0, 0, 0], h1, q1)
        ∧ queue_length q1 = 3
        ∧ dequeue_all 3 h1 q1 = some ([(0, 10), (0, 20), (0, 30)], h2, q2)
        ∧ queue_length q2 = 0
        ∧ queue_dequeue h2 q2 = some (-1, 0, h2, q2) :=
  queue_is_fifo (fun _ => none) queue_new three_calls rfl (by decide) (by decide)
    (by decide) (by decide)

/-! ## Claim C14 -/

theorem queue_insert_empty (n : block) (h : node_heap) (q : queue) (item : Nat) (pri : Int)
    (hn0 : n.addr ≠ 0) (hsize : q.size = 0) :
    ∃ h1, queue_insert n h q item pri
        = some (0, h1, { size := 1, head := n.addr, tail := n.addr })
      ∧ h1 n.addr = some ⟨0, 0, item, pri⟩ ∧ ∀ a, a ≠ n.addr → h1 a = h a := by
  unfold queue_insert
  simp [hn0, store, load, heap_write, int_succ, hsize]
  intro a ha
  simp [ha]

theorem queue_insert_head (n : block) (h : node_heap) (q : queue) (item : Nat) (pri : Int)
    (x : node) (hn0 : n.addr ≠ 0) (hsize : q.size ≠ 0) (hmax : q.size < 2147483647)
    (hh0 : q.head ≠ 0) (hhn : q.head ≠ n.addr) (hx : h q.head = some x)
    (hle : pri ≤ x.pri) :
    ∃ h1, queue_insert n h q item pri
        = some (0, h1, { size := q.size + 1, head := n.addr, tail := q.tail })
      ∧ h1 n.addr = some ⟨q.head, 0, item, pri⟩
      ∧ h1 q.head = some { x with prev := n.addr }
      ∧ ∀ a, a ≠ n.addr → a ≠ q.head → h1 a = h a := by
  unfold queue_insert
  simp [hn0, store, load, heap_write, int_succ, hsize, hmax, hh0, hhn, hhn.symm, hx, hle]
  intro a ha hb
  simp [ha, hb]

theorem queue_insert_tail (n : block) (h : node_heap) (q : queue) (item : Nat) (pri : Int)
    (x y : node) (hn0 : n.addr ≠ 0) (hsize : q.size ≠ 0) (hmax : q.size < 2147483647)
    (hh0 : q.head ≠ 0) (hhn : q.head ≠ n.addr) (hx : h q.head = some x)
    (hle : ¬ pri ≤ x.pri)
    (ht0 : q.tail ≠ 0) (htn : q.tail ≠ n.addr) (hy : h q.tail = some y)
    (hge : y.pri ≤ pri) :
    ∃ h1, queue_insert n h q item pri
        = some (0, h1, { size := q.size + 1, head := q.head, tail := n.addr })
      ∧ h1 n.addr = some ⟨0, q.tail, item, pri⟩
      ∧ h1 q.tail = some { y with next := n.addr }
      ∧ ∀ a, a ≠ n.addr → a ≠ q.tail → h1 a = h a := by
  unfold queue_insert
  simp [hn0, store, load, heap_write, int_succ, hsize, hmax, hh0, hhn, hhn.symm, hx, hle,
    ht0, htn, htn.symm, hy, hge]
  intro a ha hb
  simp [ha, hb]

theorem queue_insert_walk (n : block) (h : node_heap) (q : queue) (item : Nat) (pri : Int)
    (x y : node) (hn0 : n.addr ≠ 0) (hsize : q.size ≠ 0) (hmax : q.size < 2147483647)
    (hh0 : q.head ≠ 0) (hhn : q.head ≠ n.addr) (hx : h q.head = some x)
    (hle : ¬ pri ≤ x.pri)
    (ht0 : q.tail ≠ 0) (htn : q.tail ≠ n.addr) (hy : h q.tail = some y)
    (hge : ¬ y.pri ≤ pri) :
    ∃ h0, h0 n.addr = some ⟨n.junk.next, n.junk.prev, item, pri⟩
      ∧ (∀ a, a ≠ n.addr → h0 a = h a)
      ∧ queue_insert n h q item pri
        = (insert_walk h0 n.addr (q.size.toNat + 1) q.head).bind (fun h1 =>
            some (0, h1, { size := q.size + 1, head := q.head, tail := q.tail })) := by
  refine ⟨heap_write (heap_write (heap_write h n.addr (some n.junk)) n.addr
      (some { n.junk with pri := pri })) n.addr (some { n.junk with pri := pri, datum := item }),
    by simp [heap_write], ?_, ?_⟩
  · intro a ha
    simp [heap_write, ha]
  · unfold queue_insert
    simp [hn0, store, load, heap_write, int_succ, hsize, hmax, hh0, hhn, hhn.symm, hx, hle,
      ht0, htn, htn.symm, hy, hge]

theorem insert_walk_step (h : node_heap) (n in_ fuel : Nat) (xn xc : node) (hn0 : n ≠ 0)
    (hi0 : in_ ≠ 0) (hn : h n = some xn) (hc : h in_ = some xc) (hlt : ¬ xn.pri ≤ xc.pri) :
    insert_walk h n (fuel + 1) in_ = insert_walk h n fuel xc.next := by
  simp [insert_walk, load, hn0, hi0, hn, hc, hlt]

theorem insert_walk_link (h : node_heap) (n c fuel : Nat) (xn xc xp : node) (hn0 : n ≠ 0)
    (hc0 : c ≠ 0) (hn : h n = some xn) (hc : h c = some xc) (hle : xn.pri ≤ xc.pri)
    (hp0 : xc.prev ≠ 0) (hpn : xc.prev ≠ n) (hpc : xc.prev ≠ c) (hnc : n ≠ c)
    (hp : h xc.prev = some xp) :
    ∃ h1, insert_walk h n (fuel + 1) c = some h1
      ∧ h1 n = some { xn with prev := xc.prev, next := c }
      ∧ h1 xc.prev = some { xp with next := n }
      ∧ h1 c = some { xc with prev := n }
      ∧ ∀ a, a ≠ n → a ≠ xc.prev → a ≠ c → h1 a = h a := by
  simp [insert_walk, load, store, heap_write, hn0, hc0, hn, hc, hle, hp0, hpn, hpn.symm, hpc,
    hpc.symm, hnc, hnc.symm, hp]
  intro a ha hb hd
  simp [ha, hb, hd]

/-- The walk of `queue_insert` passes the nodes of lower priority and links the
new node before the first other one. -/
theorem insert_walk_spec (h : node_heap) (n item : Nat) (pri : Int) (nx pv : Nat) (c : entry)
    (es2 : List entry) (hn0 : n ≠ 0) (hn : h n = some ⟨nx, pv, item, pri⟩) (hle : pri ≤ c.pri) :
    ∀ (es1 : List entry) (prev fuel : Nat),
      linked h prev (es1 ++ c :: es2) →
      ((es1 ++ c :: es2).map entry.addr).Nodup →
      n ∉ (es1 ++ c :: es2).map entry.addr →
      (∀ e ∈ es1, ¬ pri ≤ e.pri) →
      (es1 = [] → prev ≠ 0 ∧ prev ≠ n ∧ prev ≠ c.addr ∧ ∃ xp, h prev = some xp) →
      es1.length < fuel →
      ∃ h1, insert_walk h n fuel (first_addr (es1 ++ c :: es2)) = some h1
        ∧ h1 n = some ⟨c.addr, last_or prev es1, item, pri⟩
        ∧ (∀ x, h (last_or prev es1) = some x →
            h1 (last_or prev es1) = some { x with next := n })
        ∧ (∀ x, h c.addr = some x → h1 c.addr = some { x with prev := n })
        ∧ (∀ a, a ≠ n → a ≠ last_or prev es1 → a ≠ c.addr → h1 a = h a)
  | [], prev, fuel, hl, _, hnmem, _, hprev, hfuel => by
    obtain ⟨hp0, hpn, hpc, xp, hxp⟩ := hprev rfl
    obtain ⟨hc0, hcn, _⟩ := hl
    have hnc : n ≠ c.addr := by
      intro heq
      apply hnmem
      rw [heq]
      simp
    obtain ⟨fuel1, rfl⟩ : ∃ k, fuel = k + 1 := ⟨fuel - 1, by simp at hfuel; omega⟩
    obtain ⟨h1, hrun, h1n, h1p, h1c, hframe⟩ := insert_walk_link h n c.addr fuel1 _ _ xp hn0 hc0
      hn hcn hle hp0 hpn hpc hnc hxp
    refine ⟨h1, hrun, h1n, ?_, ?_, hframe⟩
    · intro x hx
      simp only [last_or] at hx ⊢
      rw [hxp] at hx
      cases hx
      exact h1p
    · intro x hx
      rw [hcn] at hx
      cases hx
      exact h1c
  | e :: r1, prev, fuel, hl, hnd, hnmem, hlow, _, hfuel => by
    simp only [List.cons_append] at hl hnd hnmem
    obtain ⟨he0, hen, hrest⟩ := hl
    simp only [List.map_cons, List.nodup_cons] at hnd
    simp only [List.map_cons, List.mem_cons, not_or] at hnmem
    obtain ⟨fuel1, rfl⟩ : ∃ k, fuel = k + 1 :=
      ⟨fuel - 1, by simp only [List.length_cons] at hfuel; omega⟩
    have hstep := insert_walk_step h n e.addr fuel1 _ _ hn0 he0 hn hen (hlow e (by simp))
    obtain ⟨h1, hrun, hrest1⟩ := insert_walk_spec h n item pri nx pv c es2 hn0 hn hle r1 e.addr
      fuel1 hrest hnd.2 hnmem.2 (fun e2 he2 => hlow e2 (by simp [he2]))
      (fun _ => ⟨he0, fun heq => hnmem.1 heq.symm, by
        intro heq
        apply hnd.1
        rw [heq]
        simp, _, hen⟩)
      (by simp only [List.length_cons] at hfuel; omega)
    refine ⟨h1, ?_, hrest1⟩
    simp only [List.cons_append, first_addr]
    rw [hstep]
    exact hrun

theorem linked_last : ∀ (es : List entry) (h : node_heap) (prev : Nat), es ≠ [] →
    linked h prev es →
    ∃ x l, l ∈ es ∧ h (last_or prev es) = some x ∧ x.pri = l.pri ∧ ∀ e ∈ es, ascending es →
      e.pri ≤ l.pri
  | [], _, _, hne, _ => absurd rfl hne
  | [e], h, prev, _, hl => ⟨_, e, by simp, hl.2.1, rfl, by
      intro e2 he2 _
      simp only [List.mem_singleton] at he2
      rw [he2]⟩
  | e :: e2 :: rest, h, prev, _, hl => by
    obtain ⟨x, l, hmem, hx, hpri, hmax⟩ := linked_last (e2 :: rest) h e.addr (by simp) hl.2.2
    refine ⟨x, l, by simp only [List.mem_cons] at hmem ⊢; exact Or.inr hmem, hx, hpri, ?_⟩
    intro e3 he3 hasc
    unfold ascending at hasc
    rw [List.pairwise_cons] at hasc
    simp only [List.mem_cons] at he3
    rcases he3 with he3 | he3
    · rw [he3]
      exact hasc.1 l hmem
    · exact hmax e3 (by simp only [List.mem_cons]; exact he3) hasc.2

theorem first_not_below (pri : Int) : ∀ (es : List entry), (∃ e ∈ es, pri ≤ e.pri) →
    ∃ es1 c es2, es = es1 ++ c :: es2 ∧ (∀ e ∈ es1, ¬ pri ≤ e.pri) ∧ pri ≤ c.pri
  | [], hex => by
    obtain ⟨e, he, _⟩ := hex
    simp at he
  | e :: rest, hex => by
    by_cases hle : pri ≤ e.pri
    · exact ⟨[], e, rest, rfl, by simp, hle⟩
    · obtain ⟨e2, he2, hle2⟩ := hex
      simp only [List.mem_cons] at he2
      rcases he2 with he2 | he2
      · rw [he2] at hle2
        exact absurd hle2 hle
      · obtain ⟨es1, c, es2, heq, hlow, hc⟩ := first_not_below pri rest ⟨e2, he2, hle2⟩
        refine ⟨e :: es1, c, es2, by rw [heq]; rfl, ?_, hc⟩
        intro e3 he3
        simp only [List.mem_cons] at he3
        rcases he3 with he3 | he3
        · rw [he3]
          exact hle
        · exact hlow e3 he3


theorem last_or_irrelevant : ∀ (es : List entry) (p p2 : Nat), es ≠ [] →
    last_or p es = last_or p2 es
  | [], _, _, hne => absurd rfl hne
  | _ :: _, _, _, _ => rfl

theorem is_queue_splice (h h1 : node_heap) (q q1 : queue) (n item : Nat) (pri : Int)
    (es1 es2 : List entry) (hq : is_queue h q (es1 ++ es2)) (hn0 : n ≠ 0)
    (hnmem : n ∉ (es1 ++ es2).map entry.addr)
    (hsize : q1.size = q.size + 1)
    (hhead1 : es1 = [] → q1.head = n) (hhead2 : es1 ≠ [] → q1.head = q.head)
    (htail1 : es2 = [] → q1.tail = n) (htail2 : es2 ≠ [] → q1.tail = q.tail)
    (hn : h1 n = some ⟨first_addr es2, last_or 0 es1, item, pri⟩)
    (hp : ∀ x, es1 ≠ [] → h (last_or 0 es1) = some x →
      h1 (last_or 0 es1) = some { x with next := n })
    (hc : ∀ x, es2 ≠ [] → h (first_addr es2) = some x →
      h1 (first_addr es2) = some { x with prev := n })
    (hframe : ∀ a ∈ (es1 ++ es2).map entry.addr, a ≠ last_or 0 es1 → a ≠ first_addr es2 →
      h1 a = h a) :
    is_queue h1 q1 (es1 ++ ⟨n, item, pri⟩ :: es2) := by
  obtain ⟨hs, hht, hl, hnd⟩ := hq
  refine ⟨?_, ?_, ?_, ?_⟩
  · rw [hsize, hs]
    simp only [List.length_append, List.length_cons]
    push_cast
    ring
  · intro _
    refine ⟨?_, ?_⟩
    · by_cases h1e : es1 = []
      · rw [hhead1 h1e, h1e]
        rfl
      · rw [hhead2 h1e, first_addr_append _ _ h1e, (hht (by simp [h1e])).1,
          first_addr_append _ _ h1e]
    · rw [last_or_append]
      by_cases h2e : es2 = []
      · rw [htail1 h2e, h2e]
        rfl
      · rw [htail2 h2e, (hht (by simp [h2e])).2, last_or_append]
        simp only [last_or]
        exact last_or_irrelevant es2 _ _ h2e
  · exact linked_splice h h1 n item pri es2 es1 0 hl hnd hn0
      (linked_zero_not_mem h _ 0 hl) hn hp hc hframe
  · rw [List.map_append, List.map_cons, List.nodup_middle, List.nodup_cons, ← List.map_append]
    exact ⟨hnmem, hnd⟩

/-- Claim C14: a priority insert keeps the queue sorted.  Let the queue consist
of the nodes `es` with non-decreasing priority from head to tail, fewer than
`INT_MAX` of them, and let `malloc` return a fresh node (non-null, not in
use).  Then `queue_insert` returns `0`; the queue then consists of the nodes
`es1`, the new node with the item and the priority, and the nodes `es2`,
where `es1` followed by `es2` is `es`: the previous nodes in their previous
order and the new one once; the priorities are again non-decreasing; and
`queue_length` is one greater. -/
theorem insert_keeps_priority_order (n : block) (h : node_heap) (q : queue) (item : Nat)
    (pri : Int) (es : List entry) (hq : is_queue h q es) (hsorted : ascending es)
    (hn0 : n.addr ≠ 0) (hfresh : h n.addr = none) (hmax : es.length < 2147483647) :
    ∃ h1 q1 es1 es2, queue_insert n h q item pri = some (0, h1, q1)
      ∧ es = es1 ++ es2
      ∧ is_queue h1 q1 (es1 ++ ⟨n.addr, item, pri⟩ :: es2)
      ∧ ascending (es1 ++ ⟨n.addr, item, pri⟩ :: es2)
      ∧ queue_length q1 = queue_length q + 1 := by
  have hnmem := fresh_not_mem h es 0 n.addr hq.2.2.1 hfresh
  cases es with
  | nil =>
    have hsize : q.size = 0 := by simpa using hq.1
    obtain ⟨h1, hrun, hnode, hframe⟩ := queue_insert_empty n h q item pri hn0 hsize
    refine ⟨h1, _, [], [], hrun, rfl, ?_, ?_, ?_⟩
    · exact ⟨by simp, fun _ => ⟨rfl, rfl⟩, ⟨hn0, hnode, trivial⟩, by simp⟩
    · simp [ascending]
    · simp [queue_length, hsize]
  | cons e rest =>
    have hq0 := hq
    obtain ⟨hsize, hht, hl, hnd⟩ := hq
    obtain ⟨hhead, htail⟩ := hht (by simp)
    obtain ⟨he0, hen, hrest⟩ := hl
    simp only [first_addr] at hhead
    have hsize0 : q.size ≠ 0 := by
      rw [hsize]
      simp only [List.length_cons]
      push_cast
      omega
    have hsmax : q.size < 2147483647 := by
      rw [hsize]
      exact_mod_cast hmax
    have hhn : q.head ≠ n.addr := by
      intro heq
      apply hnmem
      rw [← heq, hhead]
      simp
    by_cases hle : pri ≤ e.pri
    · -- before the head
      obtain ⟨h1, hrun, hnode, hfirst, hframe⟩ := queue_insert_head n h q item pri _ hn0 hsize0
        hsmax (hhead ▸ he0) hhn (by rw [hhead]; exact hen) hle
      refine ⟨h1, _, [], e :: rest, hrun, rfl, ?_, ?_, ?_⟩
      · apply is_queue_splice h h1 q { size := q.size + 1, head := n.addr, tail := q.tail }
          n.addr item pri [] (e :: rest) hq0 hn0 hnmem rfl
          (fun _ => rfl) (fun hne => absurd rfl hne) (fun hne => by simp at hne) (fun _ => rfl)
        · rw [hnode, hhead]
          rfl
        · intro x hne
          exact absurd rfl hne
        · intro x _ hx
          simp only [first_addr] at hx ⊢
          rw [hen] at hx
          cases hx
          rw [← hhead]
          exact hfirst
        · intro a ha _ hb
          apply hframe a
          · intro heq
            exact hnmem (heq ▸ ha)
          · rw [hhead]
            exact hb
      · unfold ascending at hsorted ⊢
        simp only [List.nil_append]
        rw [List.pairwise_cons]
        refine ⟨?_, hsorted⟩
        intro e2 he2
        rw [List.pairwise_cons] at hsorted
        simp only [List.mem_cons] at he2
        rcases he2 with he2 | he2
        · rw [he2]
          exact hle
        · exact le_trans hle (hsorted.1 e2 he2)
      · rfl
    · obtain ⟨ht, ht0, htmem, y0, hy0⟩ := is_queue_tail h q (e :: rest) hq0 (by simp)
      have htn : q.tail ≠ n.addr := fun heq => hnmem (heq ▸ htmem)
      obtain ⟨y, l, hlmem, hy, hypri, hlmax⟩ := linked_last (e :: rest) h 0 (by simp)
        ⟨he0, hen, hrest⟩
      rw [← ht] at hy
      by_cases hge : l.pri ≤ pri
      · -- after the tail
        obtain ⟨h1, hrun, hnode, hlast, hframe⟩ := queue_insert_tail n h q item pri _ y hn0
          hsize0 hsmax (hhead ▸ he0) hhn (by rw [hhead]; exact hen) hle ht0 htn hy
          (by rw [hypri]; exact hge)
        refine ⟨h1, _, e :: rest, [], hrun, by simp, ?_, ?_, ?_⟩
        · apply is_queue_splice h h1 q { size := q.size + 1, head := q.head, tail := n.addr }
            n.addr item pri (e :: rest) []
            (by simpa using hq0) hn0 (by simpa using hnmem) rfl
            (fun hne => by simp at hne) (fun _ => rfl) (fun _ => rfl)
            (fun hne => absurd rfl hne)
          · rw [hnode, ht]
            rfl
          · intro x _ hx
            rw [← ht] at hx ⊢
            rw [hy] at hx
            cases hx
            exact hlast
          · intro x hne
            exact absurd rfl hne
          · intro a ha hb _
            apply hframe a
            · intro heq
              apply hnmem
              rw [← heq]
              simpa using ha
            · rw [ht]
              exact hb
        · unfold ascending at hsorted ⊢
          rw [List.pairwise_append]
          refine ⟨hsorted, by simp, ?_⟩
          intro e2 he2 e3 he3
          simp only [List.mem_singleton] at he3
          rw [he3]
          exact le_trans (hlmax e2 he2 hsorted) hge
        · rfl
      · -- between two nodes
        obtain ⟨h0, h0n, h0frame, hrun0⟩ := queue_insert_walk n h q item pri _ y hn0 hsize0
          hsmax (hhead ▸ he0) hhn (by rw [hhead]; exact hen) hle ht0 htn hy
          (by rw [hypri]; exact hge)
        obtain ⟨es1, c, es2, hsplit, hlow, hc⟩ := first_not_below pri (e :: rest)
          ⟨l, hlmem, le_of_lt (lt_of_not_le hge)⟩
        have hes1 : es1 ≠ [] := by
          intro hnil
          rw [hnil] at hsplit
          simp only [List.nil_append, List.cons.injEq] at hsplit
          rw [← hsplit.1] at hc
          exact hle hc
        have hl0 : linked h0 0 (es1 ++ c :: es2) := by
          rw [← hsplit]
          apply linked_congr h h0 (e :: rest) 0 _ ⟨he0, hen, hrest⟩
          intro a ha
          exact h0frame a (fun heq => hnmem (heq ▸ ha))
        have hlen : es1.length < q.size.toNat + 1 := by
          rw [hsize, hsplit]
          simp only [List.length_append, List.length_cons, Int.toNat_ofNat]
          omega
        obtain ⟨h1, hwalk, h1n, h1p, h1c, h1frame⟩ := insert_walk_spec h0 n.addr item pri _ _ c
          es2 hn0 h0n hc es1 0 (q.size.toNat + 1) hl0 (by rw [← hsplit]; exact hnd)
          (by rw [← hsplit]; exact hnmem) hlow (fun hnil => absurd hnil hes1) hlen
        have hfirst : first_addr (es1 ++ c :: es2) = q.head := by
          rw [← hsplit, hhead]
          rfl
        rw [hfirst] at hwalk
        rw [hwalk] at hrun0
        refine ⟨h1, _, es1, c :: es2, hrun0, hsplit, ?_, ?_, ?_⟩
        · have hsame : ∀ a ∈ (es1 ++ c :: es2).map entry.addr, h0 a = h a := by
            intro a ha
            apply h0frame a
            intro heq
            apply hnmem
            rw [hsplit, ← heq]
            exact ha
          apply is_queue_splice h h1 q { size := q.size + 1, head := q.head, tail := q.tail }
            n.addr item pri es1 (c :: es2)
            (by rw [← hsplit]; exact hq0) hn0 (by rw [← hsplit]; exact hnmem) rfl
            (fun hnil => absurd hnil hes1) (fun _ => rfl) (fun hne => by simp at hne)
            (fun _ => rfl)
          · exact h1n
          · intro x _ hx
            apply h1p x
            rw [hsame _ ?_]
            · exact hx
            · have := last_or_mem es1 0 hes1
              simp only [List.map_append, List.mem_append]
              exact Or.inl this
          · intro x _ hx
            simp only [first_addr] at hx ⊢
            apply h1c x
            rw [hsame _ (by simp)]
            exact hx
          · intro a ha hb hd
            rw [h1frame a ?_ hb hd, hsame a ha]
            intro heq
            apply hnmem
            rw [hsplit, ← heq]
            exact ha
        · unfold ascending at hsorted ⊢
          rw [hsplit] at hsorted
          rw [List.pairwise_append] at hsorted ⊢
          obtain ⟨hs1, hs2, hcross⟩ := hsorted
          refine ⟨hs1, ?_, ?_⟩
          · rw [List.pairwise_cons]
            refine ⟨?_, hs2⟩
            intro e2 he2
            rw [List.pairwise_cons] at hs2
            simp only [List.mem_cons] at he2
            rcases he2 with he2 | he2
            · rw [he2]
              exact hc
            · exact le_trans hc (hs2.1 e2 he2)
          · intro e2 he2 e3 he3
            simp only [List.mem_cons] at he3
            rcases he3 with he3 | he3
            · rw [he3]
              exact le_of_lt (lt_of_not_le (hlow e2 he2))
            · exact hcross e2 he2 e3 (by simp only [List.mem_cons]; exact he3)
        · rfl

/-! ## Claim C15 -/

theorem is_queue_congr (h h1 : node_heap) (q : queue) (es : List entry)
    (hsame : ∀ a ∈ es.map entry.addr, h1 a = h a) (hq : is_queue h q es) :
    is_queue h1 q es :=
  ⟨hq.1, hq.2.1, linked_congr h h1 es 0 hsame hq.2.2.1, hq.2.2.2⟩

theorem set_same {α : Type} : ∀ (l : List α) (k : Nat) (x : α), l[k]? = some x →
    l.set k x = l
  | [], _, _, _ => rfl
  | y :: l, 0, x, hx => by
    simp only [List.getElem?_cons_zero, Option.some.injEq] at hx
    rw [hx]
    rfl
  | y :: l, k + 1, x, hx => by
    simp only [List.getElem?_cons_succ] at hx
    simp only [List.set_cons_succ, set_same l k x hx]

/-- The index `i % num_lvls` of the C code, for `i = level + j`. -/
theorem level_index (level j n : Nat) :
    (Int.tmod ((level : Int) + (j : Int)) (n : Int)).toNat = (level + j) % n := by
  rw [← Int.ofNat_add, ← Int.ofNat_tmod]
  rfl

/-- A dequeue from level `k` leaves the other levels as they are. -/
theorem is_multilevel_dequeue (h h1 : node_heap) (mq : multilevel_queue)
    (contents : List (List entry)) (k : Nat) (q1 : queue) (e : entry) (rest : List entry)
    (hrep : is_multilevel h mq contents) (hc : contents[k]? = some (e :: rest))
    (hq1 : is_queue h1 q1 rest)
    (hframe : ∀ a, a ∉ (e :: rest).map entry.addr → h1 a = h a) :
    is_multilevel h1 { mq with levels := mq.levels.set k q1 } (contents.set k rest) := by
  obtain ⟨hnum, hlen, hqs, hdis⟩ := hrep
  have hk : k < contents.length := by
    by_contra hcon
    rw [List.getElem?_eq_none (by omega)] at hc
    exact Option.noConfusion hc
  have hk2 : k < mq.levels.length := by omega
  refine ⟨by simpa using hnum, by simpa using hlen, ?_, ?_⟩
  · intro j q2 es2 hj1 hj2
    by_cases hjk : k = j
    · subst hjk
      rw [List.getElem?_set_self hk2, Option.some.injEq] at hj1
      rw [List.getElem?_set_self hk, Option.some.injEq] at hj2
      rw [← hj1, ← hj2]
      exact hq1
    · simp only [List.getElem?_set_ne hjk] at hj1 hj2
      apply is_queue_congr h h1 q2 es2 _ (hqs j q2 es2 hj1 hj2)
      intro a ha
      apply hframe a
      intro hmem
      obtain ⟨e1, he1, hae1⟩ := List.mem_map.mp ha
      obtain ⟨e2, he2, hae2⟩ := List.mem_map.mp hmem
      exact hdis j k es2 (e :: rest) (Ne.symm hjk) hj2 hc e1 he1 e2 he2 (by rw [hae1, hae2])
  · intro i j es1 es2 hij hi hj e1 he1 e2 he2
    have hget : ∀ (m : Nat) (es : List entry), (contents.set k rest)[m]? = some es →
        ∃ es0, contents[m]? = some es0 ∧ ∀ x ∈ es, x ∈ es0 := by
      intro m es hm
      by_cases hkm : k = m
      · subst hkm
        rw [List.getElem?_set_self hk, Option.some.injEq] at hm
        exact ⟨e :: rest, hc, fun x hx => by rw [← hm] at hx; exact List.mem_cons_of_mem _ hx⟩
      · rw [List.getElem?_set_ne hkm] at hm
        exact ⟨es, hm, fun x hx => hx⟩
    obtain ⟨a1, ha1, hsub1⟩ := hget i es1 hi
    obtain ⟨a2, ha2, hsub2⟩ := hget j es2 hj
    exact hdis i j a1 a2 hij ha1 ha2 e1 (hsub1 e1 he1) e2 (hsub2 e2 he2)


theorem dequeue_scan_stop (num_lvls level : Int) (fuel : Nat) (i : Int) (item : Nat)
    (h : node_heap) (levels : List queue) (hitem : item ≠ 0) :
    dequeue_scan num_lvls level (fuel + 1) i item h levels = some (item, h, levels) := by
  simp [dequeue_scan, hitem]

theorem dequeue_scan_end (num_lvls level : Int) (fuel : Nat) (i : Int) (item : Nat)
    (h : node_heap) (levels : List queue) (hi : ¬ i - level < num_lvls) :
    dequeue_scan num_lvls level (fuel + 1) i item h levels = some (item, h, levels) := by
  simp [dequeue_scan, hi]

theorem dequeue_scan_step (num_lvls level : Int) (fuel : Nat) (i : Int) (h h1 : node_heap)
    (levels : List queue) (q q1 : queue) (ret : Int) (item1 : Nat)
    (hin : i - level < num_lvls) (hmax : i < 2147483647)
    (hq : levels[(Int.tmod i num_lvls).toNat]? = some q)
    (hrun : queue_dequeue h q = some (ret, item1, h1, q1)) :
    dequeue_scan num_lvls level (fuel + 1) i 0 h levels
      = dequeue_scan num_lvls level fuel (i + 1) item1 h1
          (levels.set (Int.tmod i num_lvls).toNat q1) := by
  simp [dequeue_scan, hin, hq, hrun, int_succ, hmax]

/-- The scan passes the empty levels and stops at the first one that yields an
item. -/
theorem dequeue_scan_finds (h h1 : node_heap) (levels : List queue)
    (contents : List (List entry)) (level d : Nat) (q q1 : queue) (item : Nat)
    (hlen : contents.length = levels.length)
    (hqs : ∀ (k : Nat) (q : queue) (es : List entry), levels[k]? = some q →
      contents[k]? = some es → is_queue h q es)
    (hbig : levels.length ≤ 1073741824) (hlevel : level < levels.length)
    (hd : d < levels.length)
    (hempty : ∀ j, j < d → contents[(level + j) % levels.length]? = some [])
    (hq : levels[(level + d) % levels.length]? = some q)
    (hrun : queue_dequeue h q = some (0, item, h1, q1)) (hitem : item ≠ 0) :
    ∀ (m j fuel : Nat), j + m = d → m + 2 ≤ fuel →
      dequeue_scan levels.length level fuel ((level : Int) + (j : Int)) 0 h levels
        = some (item, h1, levels.set ((level + d) % levels.length) q1)
  | 0, j, fuel, hj, hfuel => by
    obtain ⟨f, rfl⟩ : ∃ f, fuel = f + 2 := ⟨fuel - 2, by omega⟩
    have hjd : j = d := by omega
    subst hjd
    rw [dequeue_scan_step _ _ (f + 1) _ h h1 levels q q1 0 item (by omega) (by omega)
      (by rw [level_index]; exact hq) hrun, level_index]
    exact dequeue_scan_stop _ _ f _ item h1 _ hitem
  | m + 1, j, fuel, hj, hfuel => by
    obtain ⟨f, rfl⟩ : ∃ f, fuel = f + 1 := ⟨fuel - 1, by omega⟩
    have hidx : (level + j) % levels.length < levels.length := Nat.mod_lt _ (by omega)
    have hqj : levels[(level + j) % levels.length]?
        = some (levels.get ⟨(level + j) % levels.length, hidx⟩) :=
      List.getElem?_eq_getElem hidx
    have hnone := queue_dequeue_none h _ (hqs _ _ [] hqj (hempty j (by omega)))
    rw [dequeue_scan_step _ _ f _ h h levels _ _ (-1) 0 (by omega) (by omega)
      (by rw [level_index]; exact hqj) hnone, level_index, set_same levels _ _ hqj]
    have hnext : (level : Int) + (j : Int) + 1 = (level : Int) + ((j + 1 : Nat) : Int) := by
      push_cast
      ring
    rw [hnext]
    exact dequeue_scan_finds h h1 levels contents level d q q1 item hlen hqs hbig hlevel hd
      hempty hq hrun hitem m (j + 1) f (by omega) (by omega)

/-- The scan of levels that are all empty ends after the last of them. -/
theorem dequeue_scan_none (h : node_heap) (levels : List queue)
    (contents : List (List entry)) (level : Nat)
    (hlen : contents.length = levels.length)
    (hqs : ∀ (k : Nat) (q : queue) (es : List entry), levels[k]? = some q →
      contents[k]? = some es → is_queue h q es)
    (hbig : levels.length ≤ 1073741824) (hlevel : level < levels.length)
    (hempty : ∀ es ∈ contents, es = []) :
    ∀ (m j fuel : Nat), j + m = levels.length → m + 1 ≤ fuel →
      dequeue_scan levels.length level fuel ((level : Int) + (j : Int)) 0 h levels
        = some (0, h, levels)
  | 0, j, fuel, hj, hfuel => by
    obtain ⟨f, rfl⟩ : ∃ f, fuel = f + 1 := ⟨fuel - 1, by omega⟩
    exact dequeue_scan_end _ _ f _ 0 h levels (by omega)
  | m + 1, j, fuel, hj, hfuel => by
    obtain ⟨f, rfl⟩ : ∃ f, fuel = f + 1 := ⟨fuel - 1, by omega⟩
    have hidx : (level + j) % levels.length < levels.length := Nat.mod_lt _ (by omega)
    have hqj : levels[(level + j) % levels.length]?
        = some (levels.get ⟨(level + j) % levels.length, hidx⟩) :=
      List.getElem?_eq_getElem hidx
    have hcj : contents[(level + j) % levels.length]? = some [] := by
      have hidx2 : (level + j) % levels.length < contents.length := by omega
      rw [List.getElem?_eq_getElem hidx2, hempty _ (List.getElem_mem _)]
    have hnone := queue_dequeue_none h _ (hqs _ _ [] hqj hcj)
    rw [dequeue_scan_step _ _ f _ h h levels _ _ (-1) 0 (by omega) (by omega)
      (by rw [level_index]; exact hqj) hnone, level_index, set_same levels _ _ hqj]
    have hnext : (level : Int) + (j : Int) + 1 = (level : Int) + ((j + 1 : Nat) : Int) := by
      push_cast
      ring
    rw [hnext]
    exact dequeue_scan_none h levels contents level hlen hqs hbig hlevel hempty m (j + 1) f
      (by omega) (by omega)


/-- Claim C15: the multilevel dequeue wraps across the levels.  Let the
multilevel queue consist of the nodes `contents`, level by level, none with a
null item, its levels not more than `2^30`, and let `level` be one of them.
If level `level + d` (cyclically) holds the node `e` at its head and the `d`
levels from `level` up to it are empty, `multilevel_queue_dequeue` returns `0`
and yields the item of `e`, and afterwards the multilevel queue consists of
`contents` with that one node removed.  If every level is empty it returns
`-1` and yields `NULL`, and nothing changes. -/
theorem multilevel_dequeue_wraps (h : node_heap) (mq : multilevel_queue)
    (contents : List (List entry)) (level : Nat)
    (hrep : is_multilevel h mq contents)
    (hitems : ∀ es ∈ contents, ∀ e ∈ es, e.datum ≠ 0)
    (hbig : mq.num_lvls ≤ 1073741824)
    (hlevel : level < contents.length) :
    (∀ (d : Nat) (e : entry) (rest : List entry), d < contents.length →
        (∀ j, j < d → contents[(level + j) % contents.length]? = some []) →
        contents[(level + d) % contents.length]? = some (e :: rest) →
        ∃ h1 mq1, multilevel_queue_dequeue h mq level = some (0, some e.datum, h1, mq1)
          ∧ is_multilevel h1 mq1 (contents.set ((level + d) % contents.length) rest))
      ∧ ((∀ es ∈ contents, es = []) →
        multilevel_queue_dequeue h mq level = some (-1, some 0, h, mq)) := by
  obtain ⟨levels, num⟩ := mq
  have hrep0 := hrep
  obtain ⟨hnum, hlen, hqs, hdis⟩ := hrep
  simp only at hnum hlen hqs hbig
  subst hnum
  rw [hlen] at hlevel
  have hbig2 : levels.length ≤ 1073741824 := by exact_mod_cast hbig
  have hguard : ¬ ((level : Int) > (levels.length : Int) ∨ (level : Int) < 0) := by omega
  have hql : levels[level]? = some (levels.get ⟨level, hlevel⟩) :=
    List.getElem?_eq_getElem hlevel
  have hsucc : int_succ (level : Int) = some ((level : Int) + ((1 : Nat) : Int)) := by
    unfold int_succ
    rw [if_pos (by omega)]
    rfl
  refine ⟨?_, ?_⟩
  · intro d e rest hd hempty hc
    rw [hlen] at hd hempty hc ⊢
    have hidx : (level + d) % levels.length < levels.length := Nat.mod_lt _ (by omega)
    have hq : levels[(level + d) % levels.length]?
        = some (levels.get ⟨(level + d) % levels.length, hidx⟩) :=
      List.getElem?_eq_getElem hidx
    obtain ⟨h1, q1, hrun, hq1, hframe⟩ := queue_dequeue_spec h _ e rest (hqs _ _ _ hq hc)
    have hitem : e.datum ≠ 0 :=
      hitems (e :: rest) (List.getElem?_mem hc) e (by simp)
    refine ⟨h1, _, ?_, is_multilevel_dequeue h h1 _ contents _ q1 e rest hrep0 hc hq1 hframe⟩
    unfold multilevel_queue_dequeue
    simp only [if_neg hguard, Int.toNat_ofNat, hql, hsucc]
    cases d with
    | zero =>
      have hmod : (level + 0) % levels.length = level := Nat.mod_eq_of_lt hlevel
      simp only [hmod] at hrun ⊢
      rw [hrun]
      simp only [dequeue_scan_stop _ _ _ _ e.datum h1 _ hitem, if_neg hitem]
    | succ d1 =>
      have hmod : (level + 0) % levels.length = level := Nat.mod_eq_of_lt hlevel
      have hc0 := hempty 0 (by omega)
      rw [hmod] at hc0
      rw [queue_dequeue_none h _ (hqs _ _ [] hql hc0)]
      simp only [set_same levels _ _ hql]
      rw [dequeue_scan_finds h h1 levels contents level (d1 + 1) _ q1 e.datum hlen hqs hbig2
        hlevel hd hempty hq hrun hitem d1 1 (levels.length + 1) (by omega) (by omega)]
      simp only [if_neg hitem]
  · intro hempty
    have hc0 : contents[level]? = some [] := by
      have hidx2 : level < contents.length := by omega
      rw [List.getElem?_eq_getElem hidx2, hempty _ (List.getElem_mem _)]
    unfold multilevel_queue_dequeue
    simp only [if_neg hguard, Int.toNat_ofNat, hql, hsucc]
    rw [queue_dequeue_none h _ (hqs _ _ [] hql hc0)]
    simp only [set_same levels _ _ hql]
    rw [dequeue_scan_none h levels contents level hlen hqs hbig2 hlevel hempty
      (levels.length - 1) 1 (levels.length + 1) (by omega) (by omega)]
    simp


theorem sorted_queue_rep : is_queue sorted_heap sorted_queue sorted_nodes :=
  ⟨rfl, fun _ => ⟨rfl, rfl⟩,
    ⟨by decide, rfl, by decide, rfl, by decide, rfl, trivial⟩, by decide⟩

/-- Claim C14 on the queue `sorted_queue` of priorities 1, 3, 5: the insert of
item 40 with priority 4, its node at address 4. -/
theorem insert_keeps_priority_order_witness :
    ∃ h1 q1 es1 es2,
      queue_insert ⟨4, ⟨9, 9, 9, 9⟩⟩ sorted_heap sorted_queue 40 4 = some (0, h1, q1)
        ∧ sorted_nodes = es1 ++ es2
        ∧ is_queue h1 q1 (es1 ++ ⟨4, 40, 4⟩ :: es2)
        ∧ ascending (es1 ++ ⟨4, 40, 4⟩ :: es2)
        ∧ queue_length q1 = queue_length sorted_queue + 1 :=
  insert_keeps_priority_order ⟨4, ⟨9, 9, 9, 9⟩⟩ sorted_heap sorted_queue 40 4 sorted_nodes
    sorted_queue_rep (by unfold ascending; decide) (by decide) rfl (by decide)

theorem wrap_queue_rep : is_multilevel wrap_heap wrap_queue wrap_nodes := by
  refine ⟨rfl, rfl, ?_, ?_⟩
  · intro k q es hq hc
    rcases k with _ | _ | _ | k
    · cases hq
      cases hc
      exact ⟨rfl, fun _ => ⟨rfl, rfl⟩, ⟨by decide, rfl, by decide, rfl, trivial⟩, by decide⟩
    · cases hq
      cases hc
      exact ⟨rfl, fun hne => absurd rfl hne, trivial, by decide⟩
    · cases hq
      cases hc
      exact ⟨rfl, fun hne => absurd rfl hne, trivial, by decide⟩
    · cases hq
  · intro j k es1 es2 hjk hj hk e1 he1 e2 he2
    rcases j with _ | _ | _ | j
    · rcases k with _ | _ | _ | k
      · exact absurd rfl hjk
      · cases hk
        cases he2
      · cases hk
        cases he2
      · cases hk
    · cases hj
      cases he1
    · cases hj
      cases he1
    · cases hj

/-- Claim C15 on the three levels of `wrap_queue`: a dequeue from level 1 passes
the empty levels 1 and 2, wraps to level 0 and yields its first item. -/
theorem multilevel_dequeue_wraps_witness :
    ∃ h1 mq1, multilevel_queue_dequeue wrap_heap wrap_queue 1 = some (0, some 10, h1, mq1)
      ∧ is_multilevel h1 mq1 [[⟨2, 20, 0⟩], [], []] :=
  (multilevel_dequeue_wraps wrap_heap wrap_queue wrap_nodes 1 wrap_queue_rep (by decide)
    (by decide) (by decide)).1 2 ⟨1, 10, 0⟩ [⟨2, 20, 0⟩] (by decide)
    (by
      intro j hj
      interval_cases j <;> rfl)
    rfl

/-! ## Claim C16 -/

/-- Claim C16 on two levels with the item 10 on level 1: a dequeue from level 1
yields the item and returns `0`, and so does a dequeue from level 0, which
finds level 0 empty and takes the item from level 1.  The item was on level
1, not on level 0. -/
theorem multilevel_dequeue_returns_zero :
    item_on_level_one.map (fun r => (r.1, r.2.2.levels, r.2.2.num_lvls))
        = some (0, [⟨0, 0, 0⟩, ⟨1, 1, 1⟩], 2)
      ∧ dequeue_level_one 1 = some (0, some 10)
      ∧ dequeue_level_one 0 = some (0, some 10) := by
  decide

/-! ## Claim C21 -/

/-- A level below `0` or above `num_lvls` is turned away: both functions return
`-1` and leave the heap and every queue as they were. -/
theorem level_guard_rejects (n : block) (h : node_heap) (mq : multilevel_queue)
    (level : Int) (item : Nat) (hout : level < 0 ∨ mq.num_lvls < level) :
    multilevel_queue_enqueue n h mq level item = some (-1, h, mq)
      ∧ multilevel_queue_dequeue h mq level = some (-1, none, h, mq) := by
  have hguard : level > mq.num_lvls ∨ level < 0 := by
    rcases hout with hneg | hbig
    · exact Or.inr hneg
    · exact Or.inl hbig
  exact ⟨by simp only [multilevel_queue_enqueue, if_pos hguard],
    by simp only [multilevel_queue_dequeue, if_pos hguard]⟩

/-- What `multilevel_queue_new` makes has as many queues as `num_lvls` says. -/
theorem multilevel_queue_new_levels (number_of_levels : Int) (mq : multilevel_queue)
    (hnew : multilevel_queue_new number_of_levels = some mq) :
    1 ≤ number_of_levels ∧ mq.num_lvls = number_of_levels
      ∧ mq.levels.length = number_of_levels.toNat := by
  unfold multilevel_queue_new at hnew
  split at hnew
  · exact Option.noConfusion hnew
  · simp only [Option.some.injEq] at hnew
    subst hnew
    exact ⟨by omega, rfl, by simp⟩

/-- A level from `0` to `num_lvls - 1` indexes one of the queues. -/
theorem level_within_indexes (number_of_levels level : Int) (mq : multilevel_queue)
    (hnew : multilevel_queue_new number_of_levels = some mq) (hlow : 0 ≤ level)
    (hhigh : level < number_of_levels) :
    ∃ q, mq.levels[level.toNat]? = some q := by
  obtain ⟨_, _, hlen⟩ := multilevel_queue_new_levels number_of_levels mq hnew
  have hidx : level.toNat < mq.levels.length := by omega
  exact ⟨_, List.getElem?_eq_getElem hidx⟩

/-- The level `num_lvls` itself passes the test of both functions and indexes no
queue: the read `queue->levels[level]` is one past the end of the array. -/
theorem level_at_count_is_outside (number_of_levels : Int) (mq : multilevel_queue)
    (n : block) (h : node_heap) (item : Nat)
    (hnew : multilevel_queue_new number_of_levels = some mq) :
    ¬ (number_of_levels > mq.num_lvls ∨ number_of_levels < 0)
      ∧ mq.levels[number_of_levels.toNat]? = none
      ∧ multilevel_queue_enqueue n h mq number_of_levels item = none
      ∧ multilevel_queue_dequeue h mq number_of_levels = none := by
  obtain ⟨hpos, hnum, hlen⟩ := multilevel_queue_new_levels number_of_levels mq hnew
  have hguard : ¬ (number_of_levels > mq.num_lvls ∨ number_of_levels < 0) := by omega
  have hnone : mq.levels[number_of_levels.toNat]? = none :=
    List.getElem?_eq_none (by omega)
  exact ⟨hguard, hnone, by simp only [multilevel_queue_enqueue, if_neg hguard, hnone],
    by simp only [multilevel_queue_dequeue, if_neg hguard, hnone]⟩

/-- Claim C21 on the multilevel queue made for 2 levels: it has 2 queues, at
the indexes 0 and 1, and `num_lvls` is 2.  The levels `-1` and `3` are turned
away and both functions return `-1`; the levels 0 and 1 are let through, and
there `multilevel_queue_enqueue` returns `0` and `multilevel_queue_dequeue` of
the empty levels `-1`.  The level 2 is outside `0..1`, yet the test
`level > queue->num_lvls` lets it through, and both functions go on to read
`queue->levels[2]`, one past the end of the array. -/
theorem level_guard_admits_the_count :
    guard_of_new 2 (-1) = some (2, 2, true) ∧ guard_of_new 2 3 = some (2, 2, true)
      ∧ enqueue_at 2 (-1) = some (-1) ∧ enqueue_at 2 3 = some (-1)
      ∧ dequeue_at 2 (-1) = some (-1) ∧ dequeue_at 2 3 = some (-1)
      ∧ guard_of_new 2 0 = some (2, 2, false) ∧ guard_of_new 2 1 = some (2, 2, false)
      ∧ enqueue_at 2 0 = some 0 ∧ enqueue_at 2 1 = some 0
      ∧ dequeue_at 2 0 = some (-1) ∧ dequeue_at 2 1 = some (-1)
      ∧ guard_of_new 2 2 = some (2, 2, false)
      ∧ enqueue_at 2 2 = none ∧ dequeue_at 2 2 = none := by
  decide

end OSDataStructures
